import Mathlib

/-! Verification development for pi-ulid.

Shallow embedding of `src/pi-ulid.c` (with the declarations of
`src/include/pi-ulid.h`) and theorems about it.

Conventions of the embedding

* A byte (`uint8_t`) and a character (`char`, taken as its byte value `0..255`)
  are natural numbers; a C buffer is a `List Nat`, and `buf[i]` is
  `buf.getD i 0`.  Every store to a `uint8_t` is written with an explicit
  `% 256`.
* A function that writes through an output pointer takes the previous
  contents of the buffer and returns the new contents next to its return code.
* An optional pointer parameter (one that may be `NULL`) is an `Option`.
-/

namespace PiUlid

/-! ## Constants of `pi-ulid.h` -/

/-- Size of the random part of a ULID (`ULID_RANDOM_SIZE`). -/
def ULID_RANDOM_SIZE : Nat := 10

/-- Size of the milliseconds part of a ULID (`ULID_MILLIS_SIZE`). -/
def ULID_MILLIS_SIZE : Nat := 6

/-- Size of a ULID in raw format (`ULID_SIZE`). -/
def ULID_SIZE : Nat := 16

/-- Size of a ULID in string format, without the NUL terminator (`ULID_SIZE_STR`). -/
def ULID_SIZE_STR : Nat := 26

/-! ## Tables of `pi-ulid.c` -/

/-- The table `ascii_to_b32_table[0x100]` of `uint8_t`: the entry `-1` of the
source is stored as `255`.  Rows are those of the source, eight entries each. -/
def ascii_to_b32_table : List Nat := [
  255, 255, 255, 255, 255, 255, 255, 255,
  255, 255, 255, 255, 255, 255, 255, 255,
  255, 255, 255, 255, 255, 255, 255, 255,
  255, 255, 255, 255, 255, 255, 255, 255,
  255, 255, 255, 255, 255, 255, 255, 255,
  255, 255, 255, 255, 255, 255, 255, 255,
  -- 0-9
  0x00, 0x01, 0x02, 0x03, 0x04, 0x05, 0x06, 0x07,
  0x08, 0x09, 255, 255, 255, 255, 255, 255,
  -- Upper letters
  255, 0x0A, 0x0B, 0x0C, 0x0D, 0x0E, 0x0F, 0x10,
  0x11, 255, 0x12, 0x13, 255, 0x14, 0x15, 255,
  0x16, 0x17, 0x18, 0x19, 0x1A, 255, 0x1B, 0x1C,
  0x1D, 0x1E, 0x1F, 255, 255, 255, 255, 255,
  -- Lower letters
  255, 0x0A, 0x0B, 0x0C, 0x0D, 0x0E, 0x0F, 0x10,
  0x11, 255, 0x12, 0x13, 255, 0x14, 0x15, 255,
  0x16, 0x17, 0x18, 0x19, 0x1A, 255, 0x1B, 0x1C,
  0x1D, 0x1E, 0x1F, 255, 255, 255, 255, 255,
  255, 255, 255, 255, 255, 255, 255, 255,
  255, 255, 255, 255, 255, 255, 255, 255,
  255, 255, 255, 255, 255, 255, 255, 255,
  255, 255, 255, 255, 255, 255, 255, 255,
  255, 255, 255, 255, 255, 255, 255, 255,
  255, 255, 255, 255, 255, 255, 255, 255,
  255, 255, 255, 255, 255, 255, 255, 255,
  255, 255, 255, 255, 255, 255, 255, 255,
  255, 255, 255, 255, 255, 255, 255, 255,
  255, 255, 255, 255, 255, 255, 255, 255,
  255, 255, 255, 255, 255, 255, 255, 255,
  255, 255, 255, 255, 255, 255, 255, 255,
  255, 255, 255, 255, 255, 255, 255, 255,
  255, 255, 255, 255, 255, 255, 255, 255,
  255, 255, 255, 255, 255, 255, 255, 255,
  255, 255, 255, 255, 255, 255, 255, 255]

/-- The table `b32_chars[]`: the 32 characters of the alphabet, as byte values. -/
def b32_chars : List Nat :=
  ['0', '1', '2', '3', '4', '5', '6', '7', '8', '9',
   'A', 'B', 'C', 'D', 'E', 'F', 'G', 'H', 'J', 'K',
   'M', 'N', 'P', 'Q', 'R', 'S', 'T', 'V', 'W', 'X', 'Y', 'Z'].map Char.toNat

/-- The read `ascii_to_b32_table[inp[i]]`. -/
def tbl (inp : List Nat) (i : Nat) : Nat :=
  ascii_to_b32_table.getD (inp.getD i 0) 0

/-- The read `b32_chars[v]`. -/
def chr (v : Nat) : Nat :=
  b32_chars.getD v 0

/-! ## Text codec -/

/-- The function `ulid_to_string(in, out)`: the 27 bytes it stores into
`out[0..26]`, in order.  Every one of the 27 positions is stored
unconditionally, so the previous contents of `out` play no part. -/
def ulid_to_string (inp : List Nat) : List Nat :=
  let b (i : Nat) : Nat := inp.getD i 0
  [ chr (b 0 >>> 5),
    chr (b 0 &&& 0x1F),
    chr (b 1 >>> 3),
    chr (((b 1 &&& 7) <<< 2) ||| (b 2 >>> 6)),
    chr ((b 2 >>> 1) &&& 0x1F),
    chr (((b 2 &&& 1) <<< 4) ||| (b 3 >>> 4)),
    chr (((b 3 &&& 0xF) <<< 1) ||| (b 4 >>> 7)),
    chr ((b 4 >>> 2) &&& 0x1F),
    chr (((b 4 &&& 3) <<< 3) ||| (b 5 >>> 5)),
    chr (b 5 &&& 0x1F),
    chr (b 6 >>> 3),
    chr (((b 6 &&& 7) <<< 2) ||| (b 7 >>> 6)),
    chr ((b 7 >>> 1) &&& 0x1F),
    chr (((b 7 &&& 1) <<< 4) ||| (b 8 >>> 4)),
    chr (((b 8 &&& 0xF) <<< 1) ||| (b 9 >>> 7)),
    chr ((b 9 >>> 2) &&& 0x1F),
    chr (((b 9 &&& 3) <<< 3) ||| (b 10 >>> 5)),
    chr (b 10 &&& 0x1F),
    chr (b 11 >>> 3),
    chr (((b 11 &&& 7) <<< 2) ||| (b 12 >>> 6)),
    chr ((b 12 >>> 1) &&& 0x1F),
    chr (((b 12 &&& 1) <<< 4) ||| (b 13 >>> 4)),
    chr (((b 13 &&& 0xF) <<< 1) ||| (b 14 >>> 7)),
    chr ((b 14 >>> 2) &&& 0x1F),
    chr (((b 14 &&& 3) <<< 3) ||| (b 15 >>> 5)),
    chr (b 15 &&& 0x1F),
    0 ]

/-- The validation condition of `ulid_from_string`: true when the function
takes the `return 1` branch.  `'7'` is the byte 55; characters are compared as
byte values `0..255`. -/
def ulid_from_string_rejects (inp : List Nat) : Bool :=
  (decide (inp.getD 0 0 > '7'.toNat) ||
   tbl inp 0 &&& 0x80 != 0 ||
   tbl inp 1 &&& 0x80 != 0 ||
   tbl inp 2 &&& 0x80 != 0 ||
   tbl inp 3 &&& 0x80 != 0 ||
   tbl inp 4 &&& 0x80 != 0 ||
   tbl inp 5 &&& 0x80 != 0 ||
   tbl inp 6 &&& 0x80 != 0 ||
   tbl inp 7 &&& 0x80 != 0 ||
   tbl inp 8 &&& 0x80 != 0 ||
   tbl inp 9 &&& 0x80 != 0 ||
   tbl inp 10 &&& 0x80 != 0 ||
   tbl inp 11 &&& 0x80 != 0 ||
   tbl inp 12 &&& 0x80 != 0 ||
   tbl inp 13 &&& 0x80 != 0 ||
   tbl inp 14 &&& 0x80 != 0 ||
   tbl inp 15 &&& 0x80 != 0 ||
   tbl inp 16 &&& 0x80 != 0 ||
   tbl inp 17 &&& 0x80 != 0 ||
   tbl inp 18 &&& 0x80 != 0 ||
   tbl inp 19 &&& 0x80 != 0 ||
   tbl inp 20 &&& 0x80 != 0 ||
   tbl inp 21 &&& 0x80 != 0 ||
   tbl inp 22 &&& 0x80 != 0 ||
   tbl inp 23 &&& 0x80 != 0 ||
   tbl inp 24 &&& 0x80 != 0 ||
   tbl inp 25 &&& 0x80 != 0)

/-- The 16 bytes that `ulid_from_string` stores into `out[0..15]` once the
validation has passed; each store truncates to `uint8_t`. -/
def ulid_from_string_bytes (inp : List Nat) : List Nat :=
  let t (i : Nat) : Nat := tbl inp i
  [ ((t 0 <<< 5) ||| t 1) % 256,
    ((t 2 <<< 3) ||| (t 3 >>> 2)) % 256,
    ((t 3 <<< 6) ||| (t 4 <<< 1) ||| (t 5 >>> 4)) % 256,
    ((t 5 <<< 4) ||| (t 6 >>> 1)) % 256,
    ((t 6 <<< 7) ||| (t 7 <<< 2) ||| (t 8 >>> 3)) % 256,
    ((t 8 <<< 5) ||| t 9) % 256,
    ((t 10 <<< 3) ||| (t 11 >>> 2)) % 256,
    ((t 11 <<< 6) ||| (t 12 <<< 1) ||| (t 13 >>> 4)) % 256,
    ((t 13 <<< 4) ||| (t 14 >>> 1)) % 256,
    ((t 14 <<< 7) ||| (t 15 <<< 2) ||| (t 16 >>> 3)) % 256,
    ((t 16 <<< 5) ||| t 17) % 256,
    ((t 18 <<< 3) ||| (t 19 >>> 2)) % 256,
    ((t 19 <<< 6) ||| (t 20 <<< 1) ||| (t 21 >>> 4)) % 256,
    ((t 21 <<< 4) ||| (t 22 >>> 1)) % 256,
    ((t 22 <<< 7) ||| (t 23 <<< 2) ||| (t 24 >>> 3)) % 256,
    ((t 24 <<< 5) ||| t 25) % 256 ]

/-- Store the bytes `vs` into `buf[off], buf[off+1], ...` in order. -/
def store (buf : List Nat) (off : Nat) : List Nat → List Nat
  | [] => buf
  | v :: vs => store (buf.set off v) (off + 1) vs

/-- The function `ulid_from_string(in, out)`: the return code and the contents
of `out` after the call, given the contents `out` before it. -/
def ulid_from_string (inp : List Nat) (out : List Nat) : Nat × List Nat :=
  if ulid_from_string_rejects inp then
    (1, out)
  else
    (0, store out 0 (ulid_from_string_bytes inp))

/-! ## Comparator -/

/-- The C library function `memcmp(s1, s2, n)` on the first `n` bytes of two
buffers.  The C standard fixes only the sign of the result, which is that of
the difference of the first pair of bytes that differ; the model returns that
difference itself. -/
def memcmp : List Nat → List Nat → Nat → Int
  | x :: xs, y :: ys, n + 1 => if x = y then memcmp xs ys n else (x : Int) - (y : Int)
  | _, _, _ => 0

/-- The function `ulid_compare(ulid1, ulid2)`. -/
def ulid_compare (ulid1 ulid2 : List Nat) : Int :=
  memcmp ulid1 ulid2 ULID_SIZE

/-! ## Field codec -/

/-- The macro `MILLIS_WRITE_TO(millis, buf)`: six stores, each truncated to
`uint8_t`. -/
def MILLIS_WRITE_TO (millis : Nat) (buf : List Nat) : List Nat :=
  store buf 0
    [ (millis >>> 40) % 256,
      (millis >>> 32) % 256,
      (millis >>> 24) % 256,
      (millis >>> 16) % 256,
      (millis >>> 8) % 256,
      millis % 256 ]

/-- The macro `MILLIS_SET_TO(millis, buf)`: the value assigned to `millis`.
The operands are bytes widened to `uint64_t`, so no shift overflows 64 bits. -/
def MILLIS_SET_TO (buf : List Nat) : Nat :=
  let b (i : Nat) : Nat := buf.getD i 0
  (b 0 <<< 40) ||| (b 1 <<< 32) ||| (b 2 <<< 24) ||| (b 3 <<< 16) ||| (b 4 <<< 8) ||| b 5

/-- The C library call `memcpy(dst + off, src + soff, n)`: the contents of `dst`
after the copy. -/
def memcpy (dst : List Nat) (off : Nat) (src : List Nat) (soff n : Nat) : List Nat :=
  store dst off ((src.drop soff).take n)

/-- The function `ulid_parse(ulid_out, opt_millis, opt_random)`: the return
code and the contents of `ulid_out` after the call.  `none` is a `NULL`
pointer. -/
def ulid_parse (ulid_out : List Nat) (opt_millis : Option Nat)
    (opt_random : Option (List Nat)) : Nat × List Nat :=
  if opt_millis.isNone && opt_random.isNone then
    (1, ulid_out)
  else
    let out1 := match opt_millis with
      | some millis => MILLIS_WRITE_TO millis ulid_out
      | none => ulid_out
    let out2 := match opt_random with
      | some random => memcpy out1 ULID_MILLIS_SIZE random 0 ULID_RANDOM_SIZE
      | none => out1
    (0, out2)

/-- The function `ulid_unparse(ulid, opt_millis_out, opt_random_out)`: the
return code, the value of `*opt_millis_out` and the contents of
`opt_random_out` after the call.  `none` is a `NULL` pointer; `some x` is a
valid pointer whose target holds `x` before the call. -/
def ulid_unparse (ulid : List Nat) (opt_millis_out : Option Nat)
    (opt_random_out : Option (List Nat)) : Nat × Option Nat × Option (List Nat) :=
  if opt_millis_out.isNone && opt_random_out.isNone then
    (1, opt_millis_out, opt_random_out)
  else
    let m := match opt_millis_out with
      | some _ => some (MILLIS_SET_TO ulid)
      | none => none
    let r := match opt_random_out with
      | some buf => some (memcpy buf 0 ulid ULID_MILLIS_SIZE ULID_RANDOM_SIZE)
      | none => none
    (0, m, r)

/-! ## Generator -/

/-- The type `struct uint80_t` of `pi-ulid.h`: `hi` is a `uint16_t`, `lo` a
`uint64_t`. -/
structure uint80_t where
  hi : Nat
  lo : Nat
deriving DecidableEq

/-- The type `struct ulid_ctx` of `pi-ulid.h`.  A function pointer is `none`
when it is `NULL`; otherwise it is the sequence of results of the provider:
`millis_func n` is the return code of its `n`-th call and the value that call
stores in `*millis`, and `random_func n` is the return code of its `n`-th call
and the ten bytes the buffer holds when that call returns. -/
structure ulid_ctx where
  millis_func : Option (Nat → Int × Nat)
  random_func : Option (Nat → Int × List Nat)
  is_monotonic : Int
  _PRIVATE_last_time : Nat
  _PRIVATE_last_random : uint80_t

/-- The providers seen from outside: how many times each one has been called. -/
structure World where
  millis_calls : Nat
  random_calls : Nat
deriving DecidableEq

/-- The macro `UINT80_ADD1(u80, overflows)`: the incremented value and the
value assigned to `overflows`.  `++lo` wraps at 64 bits, `hi++` at 16 bits. -/
def UINT80_ADD1 (u80 : uint80_t) : uint80_t × Int :=
  let hi := u80.hi
  let lo := u80.lo
  let lo1 := (u80.lo + 1) % 2 ^ 64
  let hi1 := if lo1 < lo then (u80.hi + 1) % 2 ^ 16 else u80.hi
  ({ hi := hi1, lo := lo1 }, if hi1 < hi then 1 else 0)

/-- The macro `UINT80_IS_ZERO(u80)`. -/
def UINT80_IS_ZERO (u80 : uint80_t) : Bool :=
  u80.hi == 0 && u80.lo == 0

/-- The macro `UINT80_WRITE_TO(u80, buf)` with `buf = buffer + off`: ten
stores, each truncated to `uint8_t`. -/
def UINT80_WRITE_TO (u80 : uint80_t) (buffer : List Nat) (off : Nat) : List Nat :=
  store buffer off
    [ (u80.hi >>> 8) % 256,
      u80.hi % 256,
      (u80.lo >>> 56) % 256,
      (u80.lo >>> 48) % 256,
      (u80.lo >>> 40) % 256,
      (u80.lo >>> 32) % 256,
      (u80.lo >>> 24) % 256,
      (u80.lo >>> 16) % 256,
      (u80.lo >>> 8) % 256,
      u80.lo % 256 ]

/-- The macro `UINT80_SET_TO(u80, buf)` with `buf = buffer + off`: the value
assigned to `u80`.  The store to `hi` truncates to `uint16_t`, the one to `lo`
to `uint64_t`. -/
def UINT80_SET_TO (buffer : List Nat) (off : Nat) : uint80_t :=
  let b (i : Nat) : Nat := buffer.getD (off + i) 0
  { hi := ((b 0 <<< 8) ||| b 1) % 2 ^ 16,
    lo := ((b 2 <<< 56) ||| (b 3 <<< 48) ||| (b 4 <<< 40) ||| (b 5 <<< 32) |||
           (b 6 <<< 24) ||| (b 7 <<< 16) ||| (b 8 <<< 8) ||| b 9) % 2 ^ 64 }

/-- What a call of the generator leaves behind: the return code, the context,
the providers and the caller's buffer. -/
structure NewResult where
  ret : Int
  ctx : ulid_ctx
  world : World
  buffer : List Nat

/-- The call `ctx->random_func(buffer + ULID_MILLIS_SIZE)`: the return code,
the providers after the call and the buffer after the call. -/
def call_random (random_func : Nat → Int × List Nat) (w : World) (buffer : List Nat) :
    Int × World × List Nat :=
  ((random_func w.random_calls).1,
   { w with random_calls := w.random_calls + 1 },
   store buffer ULID_MILLIS_SIZE ((random_func w.random_calls).2.take ULID_RANDOM_SIZE))

/-- The function `ulid_new_internal(ctx, buffer)`, called with the two function
pointers of `ctx` already checked to be non-`NULL`. -/
def ulid_new_internal (ctx : ulid_ctx) (millis_func : Nat → Int × Nat)
    (random_func : Nat → Int × List Nat) (w : World) (buffer : List Nat) : NewResult :=
  let ret := (millis_func w.millis_calls).1
  let millis := (millis_func w.millis_calls).2
  let w1 : World := { w with millis_calls := w.millis_calls + 1 }
  if ret ≠ 0 then
    { ret := ret, ctx := ctx, world := w1, buffer := buffer }
  else if ctx.is_monotonic ≠ 0 then
    if !UINT80_IS_ZERO ctx._PRIVATE_last_random && decide (millis ≤ ctx._PRIVATE_last_time) then
      let r := UINT80_ADD1 ctx._PRIVATE_last_random
      let buf1 := UINT80_WRITE_TO r.1 buffer ULID_MILLIS_SIZE
      { ret := r.2,
        ctx := { ctx with _PRIVATE_last_random := r.1 },
        world := w1,
        buffer := MILLIS_WRITE_TO millis buf1 }
    else
      let r := call_random random_func w1 buffer
      { ret := r.1,
        ctx := { ctx with
          _PRIVATE_last_time := millis,
          _PRIVATE_last_random := UINT80_SET_TO r.2.2 ULID_MILLIS_SIZE },
        world := r.2.1,
        buffer := MILLIS_WRITE_TO millis r.2.2 }
  else
    let r := call_random random_func w1 buffer
    { ret := r.1, ctx := ctx, world := r.2.1, buffer := MILLIS_WRITE_TO millis r.2.2 }

/-- What a call of `ulid_new` or `ulid_new_string` leaves behind.  The context
and the buffer are `none` when the caller passed `NULL`. -/
structure CallResult where
  ret : Int
  ctx : Option ulid_ctx
  world : World
  buffer : Option (List Nat)

/-- The function `ulid_new(ctx, buffer)`.  `VALIDATE_CTX_OR_RET(ctx, 1)` returns
1 when `ctx` or one of its two function pointers is `NULL`. -/
def ulid_new (ctx : Option ulid_ctx) (w : World) (buffer : Option (List Nat)) : CallResult :=
  match ctx with
  | none => { ret := 1, ctx := ctx, world := w, buffer := buffer }
  | some c =>
    match c.millis_func, c.random_func with
    | some mf, some rf =>
      match buffer with
      | none => { ret := 1, ctx := ctx, world := w, buffer := buffer }
      | some buf =>
        let r := ulid_new_internal c mf rf w buf
        { ret := r.ret, ctx := some r.ctx, world := r.world, buffer := some r.buffer }
    | _, _ => { ret := 1, ctx := ctx, world := w, buffer := buffer }

/-- True when the byte `c` lies between the characters `lo` and `hi`. -/
def inRange (lo hi : Char) (c : Nat) : Bool :=
  decide (lo.toNat ≤ c) && decide (c ≤ hi.toNat)

/-- Upper-case form of a character: a lower-case ASCII letter is moved to its
capital, any other byte is kept. -/
def toupper (c : Nat) : Nat :=
  if inRange 'a' 'z' c then c - 32 else c

/-- Membership in the upper-case Crockford alphabet `0-9A-HJKMNP-TV-Z`. -/
def isCrockfordUpper (c : Nat) : Bool :=
  inRange '0' '9' c || inRange 'A' 'H' c || inRange 'J' 'K' c ||
  inRange 'M' 'N' c || inRange 'P' 'T' c || inRange 'V' 'Z' c

/-- Membership in the Crockford alphabet, letters in either case. -/
def isCrockford (c : Nat) : Bool :=
  isCrockfordUpper (toupper c)

/-- A raw ULID: exactly 16 bytes. -/
def IsRaw (r : List Nat) : Prop :=
  r.length = 16 ∧ ∀ b ∈ r, b < 256

/-- Value of a list of digits in base `B`, most significant digit first. -/
def beVal (B : Nat) : List Nat → Nat
  | [] => 0
  | d :: ds => d * B ^ ds.length + beVal B ds

/-- The eight 5-bit groups of five bytes (40 bits), most significant first. -/
def groups5 (a b c d e : Nat) : List Nat :=
  [ a / 8, a % 8 * 4 + b / 64, b / 2 % 32, b % 2 * 16 + c / 16,
    c % 16 * 2 + d / 128, d / 4 % 32, d % 4 * 8 + e / 32, e % 32 ]

/-- The 26 groups of a raw ULID: the 3 + 5 bits of byte 0, then the groups of
bytes 1..5, 6..10 and 11..15. -/
def groups (r : List Nat) : List Nat :=
  let b (i : Nat) : Nat := r.getD i 0
  [b 0 / 32, b 0 % 32] ++ groups5 (b 1) (b 2) (b 3) (b 4) (b 5)
    ++ groups5 (b 6) (b 7) (b 8) (b 9) (b 10)
    ++ groups5 (b 11) (b 12) (b 13) (b 14) (b 15)

/-- The five bytes rebuilt from eight 5-bit groups, each truncated to a byte. -/
def bytes5 (v0 v1 v2 v3 v4 v5 v6 v7 : Nat) : List Nat :=
  [ (v0 * 8 + v1 / 4) % 256, (v1 * 64 + v2 * 2 + v3 / 16) % 256,
    (v3 * 16 + v4 / 2) % 256, (v4 * 128 + v5 * 4 + v6 / 8) % 256,
    (v6 * 32 + v7) % 256 ]

/-- The 16 bytes rebuilt from 26 groups. -/
def unGroups (v : List Nat) : List Nat :=
  let t (i : Nat) : Nat := v.getD i 0
  [(t 0 * 32 + t 1) % 256]
    ++ bytes5 (t 2) (t 3) (t 4) (t 5) (t 6) (t 7) (t 8) (t 9)
    ++ bytes5 (t 10) (t 11) (t 12) (t 13) (t 14) (t 15) (t 16) (t 17)
    ++ bytes5 (t 18) (t 19) (t 20) (t 21) (t 22) (t 23) (t 24) (t 25)


/-- The 80-bit number held by a `uint80_t`. -/
def u80val (u : uint80_t) : Nat :=
  u.hi * 2 ^ 64 + u.lo

/-- The fields of a `uint80_t` are within their C types. -/
def u80wf (u : uint80_t) : Prop :=
  u.hi < 2 ^ 16 ∧ u.lo < 2 ^ 64

/-- The timestamp field of a raw ULID: bytes 0..5 as a big-endian number. -/
def timestampField (r : List Nat) : Nat :=
  beVal 256 (r.take 6)

/-- The random field of a raw ULID: bytes 6..15 as a big-endian number. -/
def randomField (r : List Nat) : Nat :=
  beVal 256 (r.drop 6)

/-- A context as `memset` to zero leaves it, with the two providers and the
mode flag then set by the caller. -/
def zeroCtx (mf : Nat → Int × Nat) (rf : Nat → Int × List Nat) (mono : Int) : ulid_ctx :=
  { millis_func := some mf, random_func := some rf, is_monotonic := mono,
    _PRIVATE_last_time := 0, _PRIVATE_last_random := { hi := 0, lo := 0 } }

/-- The generator before the `k`-th call (counting from 0) of a sequence of
`ulid_new` calls that starts from `ctx` and `w`; call `i` is handed a buffer
holding `bufs i`. -/
def stateBefore (ctx : Option ulid_ctx) (w : World) (bufs : Nat → List Nat) :
    Nat → Option ulid_ctx × World
  | 0 => (ctx, w)
  | k + 1 =>
    let s := stateBefore ctx w bufs k
    let r := ulid_new s.1 s.2 (some (bufs k))
    (r.ctx, r.world)

/-- The `k`-th call (counting from 0) of that sequence. -/
def nthCall (ctx : Option ulid_ctx) (w : World) (bufs : Nat → List Nat) (k : Nat) :
    CallResult :=
  ulid_new (stateBefore ctx w bufs k).1 (stateBefore ctx w bufs k).2 (some (bufs k))

/-- The identifier written by the `k`-th call. -/
def nthId (ctx : Option ulid_ctx) (w : World) (bufs : Nat → List Nat) (k : Nat) : List Nat :=
  (nthCall ctx w bufs k).buffer.getD []

/-- The six bytes stored by `MILLIS_WRITE_TO`. -/
def millisBytes (t : Nat) : List Nat :=
  [(t >>> 40) % 256, (t >>> 32) % 256, (t >>> 24) % 256, (t >>> 16) % 256,
    (t >>> 8) % 256, t % 256]

/-- The ten bytes stored by `UINT80_WRITE_TO`. -/
def u80Bytes (u : uint80_t) : List Nat :=
  [ (u.hi >>> 8) % 256, u.hi % 256, (u.lo >>> 56) % 256, (u.lo >>> 48) % 256,
    (u.lo >>> 40) % 256, (u.lo >>> 32) % 256, (u.lo >>> 24) % 256, (u.lo >>> 16) % 256,
    (u.lo >>> 8) % 256, u.lo % 256 ]

/-- What is known of a monotonic generator, started from a zeroed context,
before its `k`-th call when all earlier calls returned 0: the context is still
valid, its counter is within its C type, the clock has been read `k` times and
the random source at most `k` times, and the stored time and counter are the
fields of the identifier written by the call before. -/
def MonoInv (mf : Nat → Int × Nat) (rf : Nat → Int × List Nat) (mono : Int)
    (bufs : Nat → List Nat) (k : Nat) : Prop :=
  ∃ c, (stateBefore (some (zeroCtx mf rf mono)) ⟨0, 0⟩ bufs k).1 = some c ∧
    c.millis_func = some mf ∧ c.random_func = some rf ∧ c.is_monotonic = mono ∧
    u80wf c._PRIVATE_last_random ∧
    (stateBefore (some (zeroCtx mf rf mono)) ⟨0, 0⟩ bufs k).2.millis_calls = k ∧
    (stateBefore (some (zeroCtx mf rf mono)) ⟨0, 0⟩ bufs k).2.random_calls ≤ k ∧
    (k = 0 → u80val c._PRIVATE_last_random = 0) ∧
    (∀ j, k = j + 1 →
      (nthCall (some (zeroCtx mf rf mono)) ⟨0, 0⟩ bufs j).ctx = some c ∧
      IsRaw (nthId (some (zeroCtx mf rf mono)) ⟨0, 0⟩ bufs j) ∧
      u80val c._PRIVATE_last_random
        = randomField (nthId (some (zeroCtx mf rf mono)) ⟨0, 0⟩ bufs j) ∧
      c._PRIVATE_last_time
        = timestampField (nthId (some (zeroCtx mf rf mono)) ⟨0, 0⟩ bufs j) ∧
      c._PRIVATE_last_time = (mf j).2 ∧
      u80val c._PRIVATE_last_random ≠ 0)

/-- A clock that succeeds and reads the listed values in turn (0 afterwards). -/
def clockOf (ts : List Nat) : Nat → Int × Nat :=
  fun i => (0, ts.getD i 0)

/-- A random source that succeeds and delivers the listed ten-byte values in
turn (`dflt` afterwards). -/
def randomOf (rs : List (List Nat)) (dflt : List Nat) : Nat → Int × List Nat :=
  fun i => (0, rs.getD i dflt)

/-- Every call of a sequence is handed a zeroed 16-byte buffer. -/
def zeroBufs : Nat → List Nat :=
  fun _ => List.replicate 16 0

/-- A zeroed context in monotonic mode (flag `mono`) whose clock reads `t`, `t`,
`t`, `t2` and whose random source delivers `rb`, then `rb2`, then `dflt`. -/
def fourCallCtx (t t2 : Nat) (rb rb2 dflt : List Nat) (mono : Int) : Option ulid_ctx :=
  some (zeroCtx (clockOf [t, t, t, t2]) (randomOf [rb, rb2] dflt) mono)

/-! ## Auxiliary lemmas -/

theorem raw_cases (r : List Nat) (h : r.length = 16) :
    ∃ b0 b1 b2 b3 b4 b5 b6 b7 b8 b9 b10 b11 b12 b13 b14 b15,
      r = [b0, b1, b2, b3, b4, b5, b6, b7, b8, b9, b10, b11, b12, b13, b14, b15] := by
  match r, h with
  | [b0, b1, b2, b3, b4, b5, b6, b7, b8, b9, b10, b11, b12, b13, b14, b15], _ =>
    exact ⟨b0, b1, b2, b3, b4, b5, b6, b7, b8, b9, b10, b11, b12, b13, b14, b15, rfl⟩

theorem or_shl (x y k : Nat) (hy : y < 2 ^ k) : (x <<< k) ||| y = x * 2 ^ k + y := by
  rw [Nat.shiftLeft_eq, Nat.mul_comm x, Nat.mul_add_lt_is_or hy]

theorem lor_eq_add (a c k : Nat) (hc : c < 2 ^ k) (ha : a % 2 ^ k = 0) : a ||| c = a + c := by
  obtain ⟨q, rfl⟩ : ∃ q, a = 2 ^ k * q := ⟨a / 2 ^ k, by
    have := Nat.div_add_mod a (2 ^ k); omega⟩
  rw [Nat.mul_add_lt_is_or hc]

theorem and_mask (x k : Nat) : x &&& (2 ^ k - 1) = x % 2 ^ k :=
  Nat.and_pow_two_sub_one_eq_mod x k

theorem and_1F (x : Nat) : x &&& 0x1F = x % 32 := and_mask x 5
theorem and_0F (x : Nat) : x &&& 0xF = x % 16 := and_mask x 4
theorem and_07 (x : Nat) : x &&& 7 = x % 8 := and_mask x 3
theorem and_03 (x : Nat) : x &&& 3 = x % 4 := and_mask x 2
theorem and_01 (x : Nat) : x &&& 1 = x % 2 := and_mask x 1

theorem enc_g3 (x y : Nat) (hy : y < 256) :
    ((x &&& 7) <<< 2) ||| (y >>> 6) = x % 8 * 4 + y / 64 := by
  rw [or_shl _ _ _ (by omega), and_07]; omega

theorem enc_g5 (x y : Nat) (hy : y < 256) :
    ((x &&& 1) <<< 4) ||| (y >>> 4) = x % 2 * 16 + y / 16 := by
  rw [or_shl _ _ _ (by omega), and_01]; omega

theorem enc_g6 (x y : Nat) (hy : y < 256) :
    ((x &&& 0xF) <<< 1) ||| (y >>> 7) = x % 16 * 2 + y / 128 := by
  rw [or_shl _ _ _ (by omega), and_0F]; omega

theorem enc_g8 (x y : Nat) (hy : y < 256) :
    ((x &&& 3) <<< 3) ||| (y >>> 5) = x % 4 * 8 + y / 32 := by
  rw [or_shl _ _ _ (by omega), and_03]; omega

theorem enc_g4 (x : Nat) : (x >>> 1) &&& 0x1F = x / 2 % 32 := by
  rw [and_1F]; omega

theorem enc_g7 (x : Nat) : (x >>> 2) &&& 0x1F = x / 4 % 32 := by
  rw [and_1F]; omega

theorem shr_5 (x : Nat) : x >>> 5 = x / 32 := by omega

theorem shr_3 (x : Nat) : x >>> 3 = x / 8 := by omega

theorem raw_bounds {b0 b1 b2 b3 b4 b5 b6 b7 b8 b9 b10 b11 b12 b13 b14 b15 : Nat}
    (hb : ∀ b ∈ [b0, b1, b2, b3, b4, b5, b6, b7, b8, b9, b10, b11, b12, b13, b14, b15],
      b < 256) :
    b0 < 256 ∧ b1 < 256 ∧ b2 < 256 ∧ b3 < 256 ∧ b4 < 256 ∧ b5 < 256 ∧ b6 < 256 ∧ b7 < 256 ∧
    b8 < 256 ∧ b9 < 256 ∧ b10 < 256 ∧ b11 < 256 ∧ b12 < 256 ∧ b13 < 256 ∧ b14 < 256 ∧
    b15 < 256 := by
  simpa only [List.mem_cons, List.mem_singleton, forall_eq_or_imp, forall_eq, List.not_mem_nil,
    false_implies, implies_true, and_true] using hb

/-- The encoder in arithmetic form: the 26 groups mapped through `b32_chars`,
then the NUL terminator. -/
theorem ulid_to_string_eq (r : List Nat) (hr : IsRaw r) :
    ulid_to_string r = (groups r).map chr ++ [0] := by
  obtain ⟨hlen, hb⟩ := hr
  obtain ⟨b0, b1, b2, b3, b4, b5, b6, b7, b8, b9, b10, b11, b12, b13, b14, b15, rfl⟩ :=
    raw_cases r hlen
  obtain ⟨h0, h1, h2, h3, h4, h5, h6, h7, h8, h9, h10, h11, h12, h13, h14, h15⟩ :=
    raw_bounds hb
  simp only [ulid_to_string, groups, groups5, List.getD_cons_zero, List.getD_cons_succ,
    List.map_cons, List.map_nil, List.cons_append, List.nil_append, List.map_append,
    enc_g3 _ _ h2, enc_g3 _ _ h7, enc_g3 _ _ h12,
    enc_g5 _ _ h3, enc_g5 _ _ h8, enc_g5 _ _ h13,
    enc_g6 _ _ h4, enc_g6 _ _ h9, enc_g6 _ _ h14,
    enc_g8 _ _ h5, enc_g8 _ _ h10, enc_g8 _ _ h15,
    enc_g4, enc_g7]
  simp only [and_1F, shr_5, shr_3]

theorem groups_length (r : List Nat) : (groups r).length = 26 := rfl

theorem groups_lt (r : List Nat) (hr : IsRaw r) : ∀ g ∈ groups r, g < 32 := by
  obtain ⟨hlen, hb⟩ := hr
  obtain ⟨b0, b1, b2, b3, b4, b5, b6, b7, b8, b9, b10, b11, b12, b13, b14, b15, rfl⟩ :=
    raw_cases r hlen
  obtain ⟨h0, h1, h2, h3, h4, h5, h6, h7, h8, h9, h10, h11, h12, h13, h14, h15⟩ :=
    raw_bounds hb
  simp only [groups, groups5, List.getD_cons_zero, List.getD_cons_succ, List.cons_append,
    List.nil_append, List.mem_cons, List.mem_singleton, forall_eq_or_imp, forall_eq,
    List.not_mem_nil, false_implies, implies_true, and_true]
  and_intros <;> omega

theorem groups_head_lt (r : List Nat) (hr : IsRaw r) : (groups r).getD 0 0 < 8 := by
  obtain ⟨hlen, hb⟩ := hr
  obtain ⟨b0, b1, b2, b3, b4, b5, b6, b7, b8, b9, b10, b11, b12, b13, b14, b15, rfl⟩ :=
    raw_cases r hlen
  have h0 : b0 < 256 := hb b0 (by simp)
  simp only [groups, List.getD_cons_zero, List.cons_append]
  omega

theorem bytes5_groups5 (a b c d e : Nat) (ha : a < 256) (hb : b < 256) (hc : c < 256)
    (hd : d < 256) (he : e < 256) :
    bytes5 (a / 8) (a % 8 * 4 + b / 64) (b / 2 % 32) (b % 2 * 16 + c / 16)
      (c % 16 * 2 + d / 128) (d / 4 % 32) (d % 4 * 8 + e / 32) (e % 32) = [a, b, c, d, e] := by
  simp only [bytes5, List.cons.injEq, and_true]
  and_intros <;> omega

theorem unGroups_groups (r : List Nat) (hr : IsRaw r) : unGroups (groups r) = r := by
  obtain ⟨hlen, hb⟩ := hr
  obtain ⟨b0, b1, b2, b3, b4, b5, b6, b7, b8, b9, b10, b11, b12, b13, b14, b15, rfl⟩ :=
    raw_cases r hlen
  obtain ⟨h0, h1, h2, h3, h4, h5, h6, h7, h8, h9, h10, h11, h12, h13, h14, h15⟩ :=
    raw_bounds hb
  simp only [unGroups, groups, groups5, List.getD_cons_zero, List.getD_cons_succ,
    List.cons_append, List.nil_append,
    bytes5_groups5 _ _ _ _ _ h1 h2 h3 h4 h5, bytes5_groups5 _ _ _ _ _ h6 h7 h8 h9 h10,
    bytes5_groups5 _ _ _ _ _ h11 h12 h13 h14 h15, List.cons.injEq, and_true]
  omega

theorem take_set_succ (buf : List Nat) (v : Nat) : ∀ (off : Nat), off < buf.length →
    (buf.set off v).take (off + 1) = buf.take off ++ [v] := by
  induction buf with
  | nil => intro off h; simp at h
  | cons x xs ih =>
    intro off h
    cases off with
    | zero => simp
    | succ n =>
      simp only [List.length_cons, Nat.add_lt_add_iff_right] at h
      simp only [List.set_cons_succ, List.take_succ_cons, List.cons_append, ih n h]

theorem store_eq (vs : List Nat) : ∀ (buf : List Nat) (off : Nat),
    off + vs.length ≤ buf.length →
    store buf off vs = buf.take off ++ vs ++ buf.drop (off + vs.length) := by
  induction vs with
  | nil => intro buf off _; simp [store]
  | cons v vs ih =>
    intro buf off h
    simp only [List.length_cons] at h
    have hlt : off < buf.length := by omega
    rw [store, ih _ _ (by rw [List.length_set]; omega), take_set_succ buf v off hlt,
      List.drop_set_of_lt v buf (by omega)]
    simp only [List.length_cons, List.append_assoc, List.cons_append, List.nil_append]
    have e : off + 1 + vs.length = off + (vs.length + 1) := by omega
    rw [e]

theorem store_all (out vs : List Nat) (h : out.length = vs.length) : store out 0 vs = vs := by
  rw [store_eq vs out 0 (by omega)]
  simp [h]

theorem dec_b0 (a b : Nat) (hb : b < 32) : ((a <<< 5) ||| b) % 256 = (a * 32 + b) % 256 := by
  rw [or_shl _ _ _ (by omega)]; omega

theorem dec_b1 (a b : Nat) (hb : b < 32) :
    ((a <<< 3) ||| (b >>> 2)) % 256 = (a * 8 + b / 4) % 256 := by
  rw [or_shl _ _ _ (by omega)]; omega

theorem dec_b2 (a b c : Nat) (hb : b < 32) (hc : c < 32) :
    ((a <<< 6) ||| (b <<< 1) ||| (c >>> 4)) % 256 = (a * 64 + b * 2 + c / 16) % 256 := by
  rw [or_shl a _ _ (by omega), lor_eq_add _ _ 1 (by omega) (by omega)]; omega

theorem dec_b3 (a b : Nat) (hb : b < 32) :
    ((a <<< 4) ||| (b >>> 1)) % 256 = (a * 16 + b / 2) % 256 := by
  rw [or_shl _ _ _ (by omega)]; omega

theorem dec_b4 (a b c : Nat) (hb : b < 32) (hc : c < 32) :
    ((a <<< 7) ||| (b <<< 2) ||| (c >>> 3)) % 256 = (a * 128 + b * 4 + c / 8) % 256 := by
  rw [or_shl a _ _ (by omega), lor_eq_add _ _ 2 (by omega) (by omega)]; omega

theorem range26 : List.range 26 = [0, 1, 2, 3, 4, 5, 6, 7, 8, 9, 10, 11, 12, 13, 14, 15, 16,
    17, 18, 19, 20, 21, 22, 23, 24, 25] := by decide

/-- The decoder's stores in arithmetic form, when all 26 table reads are
5-bit values. -/
theorem ulid_from_string_bytes_eq (inp : List Nat) (h : ∀ i, i < 26 → tbl inp i < 32) :
    ulid_from_string_bytes inp = unGroups ((List.range 26).map (tbl inp)) := by
  simp only [ulid_from_string_bytes, unGroups, bytes5, range26, List.map_cons, List.map_nil,
    List.getD_cons_zero, List.getD_cons_succ, List.cons_append, List.nil_append,
    dec_b0 _ _ (h 1 (by omega)), dec_b0 _ _ (h 9 (by omega)), dec_b0 _ _ (h 17 (by omega)),
    dec_b0 _ _ (h 25 (by omega)),
    dec_b1 _ _ (h 3 (by omega)), dec_b1 _ _ (h 11 (by omega)), dec_b1 _ _ (h 19 (by omega)),
    dec_b2 _ _ _ (h 4 (by omega)) (h 5 (by omega)),
    dec_b2 _ _ _ (h 12 (by omega)) (h 13 (by omega)),
    dec_b2 _ _ _ (h 20 (by omega)) (h 21 (by omega)),
    dec_b3 _ _ (h 6 (by omega)), dec_b3 _ _ (h 14 (by omega)), dec_b3 _ _ (h 22 (by omega)),
    dec_b4 _ _ _ (h 7 (by omega)) (h 8 (by omega)),
    dec_b4 _ _ _ (h 15 (by omega)) (h 16 (by omega)),
    dec_b4 _ _ _ (h 23 (by omega)) (h 24 (by omega))]

set_option maxRecDepth 20000 in
theorem tbl_chr : ∀ v, v < 32 → ascii_to_b32_table.getD (chr v) 0 = v := by decide

set_option maxRecDepth 20000 in
theorem chr_first : ∀ v, v < 8 → chr v ≤ 55 := by decide


theorem forall_lt_26 (p : Nat → Prop) :
    (∀ i, i < 26 → p i) ↔ ∀ i ∈ List.range 26, p i := by
  simp only [List.mem_range]

/-- The validation passes exactly when the first character is at most `'7'`
and none of the 26 table reads has its high bit set. -/
theorem rejects_eq_false_iff (inp : List Nat) :
    ulid_from_string_rejects inp = false ↔
      inp.getD 0 0 ≤ 55 ∧ ∀ i, i < 26 → tbl inp i &&& 0x80 = 0 := by
  rw [forall_lt_26, range26]
  simp only [ulid_from_string_rejects, Bool.or_eq_false_iff, decide_eq_false_iff_not,
    bne_eq_false_iff_eq, List.forall_mem_cons, List.not_mem_nil, false_implies, implies_true,
    and_true, and_assoc, not_lt, gt_iff_lt, Nat.not_lt]
  rfl

theorem and_80_of_lt : ∀ v, v < 32 → v &&& 0x80 = 0 := by decide

theorem tbl_map_chr (gs tail : List Nat) (hlt : ∀ g ∈ gs, g < 32) (i : Nat)
    (hi : i < gs.length) : tbl (gs.map chr ++ tail) i = gs.getD i 0 := by
  have hm : i < (gs.map chr).length := by simpa using hi
  rw [tbl, List.getD_append _ _ _ _ hm, List.getD_eq_getElem _ _ hm, List.getElem_map,
    List.getD_eq_getElem _ _ hi]
  exact tbl_chr _ (hlt _ (List.getElem_mem _))

theorem getD_lt (gs : List Nat) (B : Nat) (hlt : ∀ g ∈ gs, g < B) (i : Nat)
    (hi : i < gs.length) : gs.getD i 0 < B := by
  rw [List.getD_eq_getElem _ _ hi]
  exact hlt _ (List.getElem_mem _)

theorem tvals_map_chr (gs tail : List Nat) (hlen : gs.length = 26)
    (hlt : ∀ g ∈ gs, g < 32) :
    (List.range 26).map (tbl (gs.map chr ++ tail)) = gs := by
  apply List.ext_getElem
  · simp [hlen]
  · intro i h1 h2
    rw [List.getElem_map, List.getElem_range, tbl_map_chr gs tail hlt i h2,
      List.getD_eq_getElem _ _ h2]

/-- Decoding the characters of 26 groups (first group below 8), whatever
follows them in the buffer, stores the bytes rebuilt from the groups. -/
theorem from_string_map_chr (gs tail out : List Nat) (hlen : gs.length = 26)
    (hlt : ∀ g ∈ gs, g < 32) (h0 : gs.getD 0 0 < 8) (hout : out.length = 16) :
    ulid_from_string (gs.map chr ++ tail) out = (0, unGroups gs) := by
  have ht : ∀ i, i < 26 → tbl (gs.map chr ++ tail) i < 32 := by
    intro i hi
    rw [tbl_map_chr gs tail hlt i (by omega)]
    exact getD_lt gs 32 hlt i (by omega)
  have hrej : ulid_from_string_rejects (gs.map chr ++ tail) = false := by
    rw [rejects_eq_false_iff]
    refine ⟨?_, fun i hi => and_80_of_lt _ (ht i hi)⟩
    have hm : 0 < (gs.map chr).length := by simp [hlen]
    rw [List.getD_append _ _ _ _ hm, List.getD_eq_getElem _ _ hm, List.getElem_map]
    rw [List.getD_eq_getElem _ _ (by omega)] at h0
    exact chr_first _ h0
  rw [ulid_from_string, hrej, ulid_from_string_bytes_eq _ ht, tvals_map_chr gs tail hlen hlt]
  simp only [Bool.false_eq_true, if_false]
  rw [store_all]
  rw [hout]; rfl

theorem list26_cases (v : List Nat) (h : v.length = 26) :
    ∃ v0 v1 v2 v3 v4 v5 v6 v7 v8 v9 v10 v11 v12 v13 v14 v15 v16 v17 v18 v19 v20 v21 v22 v23
      v24 v25, v = [v0, v1, v2, v3, v4, v5, v6, v7, v8, v9, v10, v11, v12, v13, v14, v15, v16,
        v17, v18, v19, v20, v21, v22, v23, v24, v25] := by
  match v, h with
  | [v0, v1, v2, v3, v4, v5, v6, v7, v8, v9, v10, v11, v12, v13, v14, v15, v16, v17, v18, v19,
      v20, v21, v22, v23, v24, v25], _ =>
    exact ⟨v0, v1, v2, v3, v4, v5, v6, v7, v8, v9, v10, v11, v12, v13, v14, v15, v16, v17, v18,
      v19, v20, v21, v22, v23, v24, v25, rfl⟩

theorem unGroups_isRaw (v : List Nat) : IsRaw (unGroups v) := by
  refine ⟨rfl, ?_⟩
  simp only [unGroups, bytes5, List.cons_append, List.nil_append, List.mem_cons,
    List.not_mem_nil, or_false, forall_eq_or_imp, forall_eq]
  and_intros <;> exact Nat.mod_lt _ (by decide)

theorem groups5_bytes5 (v0 v1 v2 v3 v4 v5 v6 v7 : Nat) (h0 : v0 < 32) (h1 : v1 < 32)
    (h2 : v2 < 32) (h3 : v3 < 32) (h4 : v4 < 32) (h5 : v5 < 32) (h6 : v6 < 32)
    (h7 : v7 < 32) :
    groups5 ((v0 * 8 + v1 / 4) % 256) ((v1 * 64 + v2 * 2 + v3 / 16) % 256)
      ((v3 * 16 + v4 / 2) % 256) ((v4 * 128 + v5 * 4 + v6 / 8) % 256)
      ((v6 * 32 + v7) % 256) = [v0, v1, v2, v3, v4, v5, v6, v7] := by
  simp only [groups5, List.cons.injEq, and_true]
  and_intros <;> omega

theorem groups_unGroups (v : List Nat) (hlen : v.length = 26) (hlt : ∀ g ∈ v, g < 32)
    (h0 : v.getD 0 0 < 8) : groups (unGroups v) = v := by
  obtain ⟨v0, v1, v2, v3, v4, v5, v6, v7, v8, v9, v10, v11, v12, v13, v14, v15, v16, v17, v18,
    v19, v20, v21, v22, v23, v24, v25, rfl⟩ := list26_cases v hlen
  simp only [List.mem_cons, List.not_mem_nil, or_false, forall_eq_or_imp, forall_eq] at hlt
  obtain ⟨g0, g1, g2, g3, g4, g5, g6, g7, g8, g9, g10, g11, g12, g13, g14, g15, g16, g17,
    g18, g19, g20, g21, g22, g23, g24, g25⟩ := hlt
  simp only [List.getD_cons_zero] at h0
  simp only [unGroups, bytes5, groups, List.getD_cons_zero, List.getD_cons_succ,
    List.cons_append, List.nil_append,
    groups5_bytes5 _ _ _ _ _ _ _ _ g2 g3 g4 g5 g6 g7 g8 g9,
    groups5_bytes5 _ _ _ _ _ _ _ _ g10 g11 g12 g13 g14 g15 g16 g17,
    groups5_bytes5 _ _ _ _ _ _ _ _ g18 g19 g20 g21 g22 g23 g24 g25,
    List.cons.injEq, and_true, true_and]
  constructor <;> omega


theorem isCrockford_lt (c : Nat) (h : isCrockford c = true) : c < 256 := by
  by_contra hc
  have h1 : inRange 'a' 'z' c = false := by
    simp only [inRange, Char.reduceToNat, Bool.and_eq_false_iff, decide_eq_false_iff_not]
    omega
  rw [isCrockford, toupper, h1] at h
  simp only [isCrockfordUpper, inRange, Char.reduceToNat,
    Bool.or_eq_true, Bool.and_eq_true, decide_eq_true_eq, Bool.false_eq_true, if_false] at h
  omega

set_option maxRecDepth 100000 in
theorem tbl_valid : ∀ c, c < 256 →
    ((ascii_to_b32_table.getD c 0 &&& 0x80 = 0) ↔ isCrockford c = true) := by
  decide

set_option maxRecDepth 100000 in
theorem tbl_crock : ∀ c, c < 256 → isCrockford c = true →
    ascii_to_b32_table.getD c 0 < 32 ∧ chr (ascii_to_b32_table.getD c 0) = toupper c := by
  decide

set_option maxRecDepth 100000 in
theorem tbl_first : ∀ c, c < 256 → inRange '0' '7' c = true →
    ascii_to_b32_table.getD c 0 < 8 := by
  decide

theorem inRange_first (c : Nat) (h : inRange '0' '7' c = true) : c ≤ 55 ∧ c < 256 := by
  simp only [inRange, Char.reduceToNat, Bool.and_eq_true, decide_eq_true_eq] at h
  omega

set_option maxRecDepth 100000 in
theorem first_char_iff : ∀ c, c < 256 →
    ((c ≤ 55 ∧ isCrockford c = true) ↔ inRange '0' '7' c = true) := by
  decide

theorem from_string_ret (inp out : List Nat) :
    (ulid_from_string inp out).1 = if ulid_from_string_rejects inp then 1 else 0 := by
  unfold ulid_from_string
  split <;> rfl

/-- The return code is 0 exactly when the first character is one of `0..7` and
all 26 characters read are alphabet members. -/
theorem from_string_ret_zero_iff (inp out : List Nat) (hb : ∀ i, i < 26 → inp.getD i 0 < 256) :
    (ulid_from_string inp out).1 = 0 ↔
      inRange '0' '7' (inp.getD 0 0) = true ∧
        ∀ i, i < 26 → isCrockford (inp.getD i 0) = true := by
  have e : (ulid_from_string inp out).1 = 0 ↔ ulid_from_string_rejects inp = false := by
    rw [from_string_ret]
    cases ulid_from_string_rejects inp <;> simp
  rw [e, rejects_eq_false_iff]
  have hv : ∀ i, i < 26 → (tbl inp i &&& 0x80 = 0 ↔ isCrockford (inp.getD i 0) = true) :=
    fun i hi => tbl_valid _ (hb i hi)
  constructor
  · rintro ⟨h0, h⟩
    have hc : ∀ i, i < 26 → isCrockford (inp.getD i 0) = true :=
      fun i hi => (hv i hi).1 (h i hi)
    exact ⟨(first_char_iff _ (hb 0 (by omega))).1 ⟨h0, hc 0 (by omega)⟩, hc⟩
  · rintro ⟨h0, h⟩
    exact ⟨((first_char_iff _ (hb 0 (by omega))).2 h0).1, fun i hi => (hv i hi).2 (h i hi)⟩

/-- On an accepted input the stores are the bytes rebuilt from the 26 table
reads, each of which is a 5-bit value, the first one below 8. -/
theorem from_string_accept (inp out : List Nat) (hout : out.length = 16)
    (h0 : inRange '0' '7' (inp.getD 0 0) = true)
    (h : ∀ i, i < 26 → isCrockford (inp.getD i 0) = true) :
    ulid_from_string inp out = (0, unGroups ((List.range 26).map (tbl inp))) ∧
      (∀ i, i < 26 → tbl inp i < 32) ∧ tbl inp 0 < 8 := by
  have hb : ∀ i, i < 26 → inp.getD i 0 < 256 := fun i hi => isCrockford_lt _ (h i hi)
  have ht : ∀ i, i < 26 → tbl inp i < 32 := fun i hi => (tbl_crock _ (hb i hi) (h i hi)).1
  have hz := (from_string_ret_zero_iff inp out hb).2 ⟨h0, h⟩
  rw [from_string_ret] at hz
  have hrej : ulid_from_string_rejects inp = false := by
    cases hr : ulid_from_string_rejects inp
    · rfl
    · rw [hr] at hz; simp at hz
  refine ⟨?_, ht, tbl_first _ (hb 0 (by omega)) h0⟩
  rw [ulid_from_string, hrej, ulid_from_string_bytes_eq _ ht]
  simp only [Bool.false_eq_true, if_false]
  rw [store_all]
  rw [hout]; rfl


/-- Lexicographic order on lists of natural numbers (bytes, characters, digits):
this is the order of `List.Lex` on the usual order on numbers. -/
theorem cons_lt_cons_iff (x y : Nat) (xs ys : List Nat) :
    List.Lex (· < ·) (x :: xs) (y :: ys) ↔ x < y ∨ (x = y ∧ List.Lex (· < ·) xs ys) := by
  constructor
  · intro h
    cases h with
    | cons h => exact Or.inr ⟨rfl, h⟩
    | rel h => exact Or.inl h
  · rintro (h | ⟨rfl, h⟩)
    · exact List.Lex.rel h
    · exact List.Lex.cons h

theorem not_nil_lt_nil : ¬ List.Lex (· < ·) ([] : List Nat) [] := by
  intro h
  cases h

theorem memcmp_neg_iff (xs : List Nat) : ∀ (ys : List Nat) (n : Nat),
    xs.length = n → ys.length = n → (memcmp xs ys n < 0 ↔ List.Lex (· < ·) xs ys) := by
  induction xs with
  | nil =>
    intro ys n hx hy
    subst hx
    rw [List.length_nil, List.length_eq_zero] at hy
    subst hy
    simp [memcmp, not_nil_lt_nil]
  | cons x xs ih =>
    intro ys n hx hy
    cases ys with
    | nil => subst hy; simp at hx
    | cons y ys =>
      cases n with
      | zero => simp at hx
      | succ n =>
        simp only [List.length_cons, Nat.add_right_cancel_iff] at hx hy
        rw [cons_lt_cons_iff, memcmp]
        by_cases hxy : x = y
        · subst hxy
          simp only [if_true, Nat.lt_irrefl, true_and, false_or]
          exact ih ys n hx hy
        · rw [if_neg hxy]
          simp only [hxy, false_and, or_false]
          omega

theorem memcmp_zero_iff (xs : List Nat) : ∀ (ys : List Nat) (n : Nat),
    xs.length = n → ys.length = n → (memcmp xs ys n = 0 ↔ xs = ys) := by
  induction xs with
  | nil =>
    intro ys n hx hy
    subst hx
    rw [List.length_nil, List.length_eq_zero] at hy
    subst hy
    simp [memcmp]
  | cons x xs ih =>
    intro ys n hx hy
    cases ys with
    | nil => subst hy; simp at hx
    | cons y ys =>
      cases n with
      | zero => simp at hx
      | succ n =>
        simp only [List.length_cons, Nat.add_right_cancel_iff] at hx hy
        rw [memcmp, List.cons.injEq]
        by_cases hxy : x = y
        · subst hxy
          simp only [if_true, true_and]
          exact ih ys n hx hy
        · rw [if_neg hxy]
          simp only [hxy, false_and, iff_false]
          omega

theorem memcmp_swap (xs : List Nat) : ∀ (ys : List Nat) (n : Nat),
    memcmp ys xs n = - memcmp xs ys n := by
  induction xs with
  | nil => intro ys n; cases ys <;> cases n <;> simp [memcmp]
  | cons x xs ih =>
    intro ys n
    cases ys with
    | nil => cases n <;> simp [memcmp]
    | cons y ys =>
      cases n with
      | zero => simp [memcmp]
      | succ n =>
        rw [memcmp, memcmp]
        by_cases hxy : x = y
        · subst hxy
          simp only [if_true]
          exact ih ys n
        · have hyx : ¬ y = x := fun h => hxy h.symm
          simp only [if_neg hxy, if_neg hyx]
          omega

theorem memcmp_pos_iff (xs ys : List Nat) (n : Nat) (hx : xs.length = n)
    (hy : ys.length = n) : 0 < memcmp xs ys n ↔ List.Lex (· < ·) ys xs := by
  rw [← memcmp_neg_iff ys xs n hy hx, memcmp_swap xs ys n]
  omega

theorem beVal_lt_pow (B : Nat) (xs : List Nat) (h : ∀ x ∈ xs, x < B) :
    beVal B xs < B ^ xs.length := by
  induction xs with
  | nil => simp [beVal]
  | cons x xs ih =>
    have hx : x < B := h x (by simp)
    have ih1 := ih (fun y hy => h y (by simp [hy]))
    rw [beVal, List.length_cons, Nat.pow_succ]
    calc x * B ^ xs.length + beVal B xs
        < x * B ^ xs.length + B ^ xs.length := by omega
      _ = (x + 1) * B ^ xs.length := by ring
      _ ≤ B * B ^ xs.length := Nat.mul_le_mul_right _ hx
      _ = B ^ xs.length * B := by ring

theorem lt_iff_beVal_lt (B : Nat) (xs : List Nat) : ∀ (ys : List Nat),
    xs.length = ys.length → (∀ x ∈ xs, x < B) → (∀ y ∈ ys, y < B) →
    (List.Lex (· < ·) xs ys ↔ beVal B xs < beVal B ys) := by
  induction xs with
  | nil =>
    intro ys hl _ _
    rw [List.length_nil, eq_comm, List.length_eq_zero] at hl
    subst hl
    simp [beVal, not_nil_lt_nil]
  | cons x xs ih =>
    intro ys hl hx hy
    cases ys with
    | nil => simp at hl
    | cons y ys =>
      simp only [List.length_cons, Nat.add_right_cancel_iff] at hl
      have hxs : ∀ a ∈ xs, a < B := fun a ha => hx a (by simp [ha])
      have hys : ∀ a ∈ ys, a < B := fun a ha => hy a (by simp [ha])
      have bx := beVal_lt_pow B xs hxs
      have bY := beVal_lt_pow B ys hys
      rw [cons_lt_cons_iff, beVal, beVal, ih ys hl hxs hys, hl]
      rw [hl] at bx
      generalize B ^ ys.length = P at bx bY
      generalize beVal B xs = vx at bx
      generalize beVal B ys = vy at bY
      constructor
      · rintro (h | ⟨rfl, h⟩)
        · have : (x + 1) * P ≤ y * P := Nat.mul_le_mul_right _ h
          have e : (x + 1) * P = x * P + P := by ring
          omega
        · omega
      · intro h
        rcases Nat.lt_trichotomy x y with hlt | heq | hgt
        · exact Or.inl hlt
        · subst heq; exact Or.inr ⟨rfl, by omega⟩
        · have : (y + 1) * P ≤ x * P := Nat.mul_le_mul_right _ hgt
          have e : (y + 1) * P = y * P + P := by ring
          omega

theorem beVal_inj (B : Nat) (xs ys : List Nat) (hl : xs.length = ys.length)
    (hx : ∀ x ∈ xs, x < B) (hy : ∀ y ∈ ys, y < B) (h : beVal B xs = beVal B ys) :
    xs = ys := by
  have h1 := (memcmp_neg_iff xs ys xs.length rfl hl.symm).trans (lt_iff_beVal_lt B xs ys hl hx hy)
  have h2 := (memcmp_pos_iff xs ys xs.length rfl hl.symm).trans
    (lt_iff_beVal_lt B ys xs hl.symm hy hx)
  have h3 := memcmp_zero_iff xs ys xs.length rfl hl.symm
  apply h3.1
  omega

theorem beVal_append (B : Nat) (xs ys : List Nat) :
    beVal B (xs ++ ys) = beVal B xs * B ^ ys.length + beVal B ys := by
  induction xs with
  | nil => simp [beVal]
  | cons x xs ih =>
    rw [List.cons_append, beVal, beVal, ih, List.length_append, Nat.pow_add]
    ring

theorem beVal_groups5 (a b c d e : Nat) :
    beVal 32 (groups5 a b c d e) = beVal 256 [a, b, c, d, e] := by
  show a / 8 * 32 ^ 7 + ((a % 8 * 4 + b / 64) * 32 ^ 6 + (b / 2 % 32 * 32 ^ 5 +
      ((b % 2 * 16 + c / 16) * 32 ^ 4 + ((c % 16 * 2 + d / 128) * 32 ^ 3 +
      (d / 4 % 32 * 32 ^ 2 + ((d % 4 * 8 + e / 32) * 32 ^ 1 + (e % 32 * 32 ^ 0 + 0)))))))
    = a * 256 ^ 4 + (b * 256 ^ 3 + (c * 256 ^ 2 + (d * 256 ^ 1 + (e * 256 ^ 0 + 0))))
  omega

/-- The 26 groups and the 16 bytes are two digit expansions (base 32 and base
256) of the same 128-bit number. -/
theorem beVal_groups (r : List Nat) (hlen : r.length = 16) :
    beVal 32 (groups r) = beVal 256 r := by
  obtain ⟨b0, b1, b2, b3, b4, b5, b6, b7, b8, b9, b10, b11, b12, b13, b14, b15, rfl⟩ :=
    raw_cases r hlen
  have e : [b0, b1, b2, b3, b4, b5, b6, b7, b8, b9, b10, b11, b12, b13, b14, b15]
      = [b0] ++ [b1, b2, b3, b4, b5] ++ [b6, b7, b8, b9, b10] ++ [b11, b12, b13, b14, b15] :=
    rfl
  simp only [groups, List.getD_cons_zero, List.getD_cons_succ]
  rw [beVal_append, beVal_append, beVal_append, beVal_groups5, beVal_groups5, beVal_groups5,
    e, beVal_append 256, beVal_append 256, beVal_append 256]
  generalize beVal 256 [b1, b2, b3, b4, b5] = V1
  generalize beVal 256 [b6, b7, b8, b9, b10] = V2
  generalize beVal 256 [b11, b12, b13, b14, b15] = V3
  show (((b0 / 32 * 32 ^ 1 + (b0 % 32 * 32 ^ 0 + 0)) * 32 ^ 8 + V1) * 32 ^ 8 + V2) * 32 ^ 8 + V3
    = (((b0 * 256 ^ 0 + 0) * 256 ^ 5 + V1) * 256 ^ 5 + V2) * 256 ^ 5 + V3
  omega

set_option maxRecDepth 100000 in
theorem chr_lt_iff : ∀ a, a < 32 → ∀ b, b < 32 → (chr a < chr b ↔ a < b) := by
  decide

theorem chr_eq_iff (a b : Nat) (ha : a < 32) (hb : b < 32) : chr a = chr b ↔ a = b := by
  have h1 := chr_lt_iff a ha b hb
  have h2 := chr_lt_iff b hb a ha
  constructor
  · intro h; omega
  · intro h; rw [h]

theorem map_chr_lex (xs : List Nat) : ∀ (ys : List Nat),
    xs.length = ys.length → (∀ x ∈ xs, x < 32) → (∀ y ∈ ys, y < 32) →
    (List.Lex (· < ·) (xs.map chr) (ys.map chr) ↔ List.Lex (· < ·) xs ys) := by
  induction xs with
  | nil =>
    intro ys hl _ _
    rw [List.length_nil, eq_comm, List.length_eq_zero] at hl
    subst hl
    simp
  | cons x xs ih =>
    intro ys hl hx hy
    cases ys with
    | nil => simp at hl
    | cons y ys =>
      simp only [List.length_cons, Nat.add_right_cancel_iff] at hl
      have hxs : ∀ a ∈ xs, a < 32 := fun a ha => hx a (by simp [ha])
      have hys : ∀ a ∈ ys, a < 32 := fun a ha => hy a (by simp [ha])
      have hx0 : x < 32 := hx x (by simp)
      have hy0 : y < 32 := hy y (by simp)
      rw [List.map_cons, List.map_cons, cons_lt_cons_iff, cons_lt_cons_iff, ih ys hl hxs hys,
        chr_lt_iff x hx0 y hy0, chr_eq_iff x y hx0 hy0]


theorem to_string_take (r : List Nat) (hr : IsRaw r) :
    (ulid_to_string r).take 26 = (groups r).map chr := by
  rw [ulid_to_string_eq r hr, List.take_append_of_le_length (by simp [groups_length]),
    List.take_of_length_le (by simp [groups_length])]

theorem millis_set_eq (b0 b1 b2 b3 b4 b5 : Nat) (h1 : b1 < 256) (h2 : b2 < 256)
    (h3 : b3 < 256) (h4 : b4 < 256) (h5 : b5 < 256) :
    (b0 <<< 40) ||| (b1 <<< 32) ||| (b2 <<< 24) ||| (b3 <<< 16) ||| (b4 <<< 8) ||| b5
      = b0 * 2 ^ 40 + b1 * 2 ^ 32 + b2 * 2 ^ 24 + b3 * 2 ^ 16 + b4 * 2 ^ 8 + b5 := by
  have e1 : (b0 <<< 40) ||| (b1 <<< 32) = b0 * 2 ^ 40 + b1 * 2 ^ 32 := by
    rw [or_shl b0 _ 40 (by omega)]; omega
  have e2 : (b0 * 2 ^ 40 + b1 * 2 ^ 32) ||| (b2 <<< 24)
      = b0 * 2 ^ 40 + b1 * 2 ^ 32 + b2 * 2 ^ 24 := by
    rw [lor_eq_add _ _ 32 (by omega) (by omega)]; omega
  have e3 : (b0 * 2 ^ 40 + b1 * 2 ^ 32 + b2 * 2 ^ 24) ||| (b3 <<< 16)
      = b0 * 2 ^ 40 + b1 * 2 ^ 32 + b2 * 2 ^ 24 + b3 * 2 ^ 16 := by
    rw [lor_eq_add _ _ 24 (by omega) (by omega)]; omega
  have e4 : (b0 * 2 ^ 40 + b1 * 2 ^ 32 + b2 * 2 ^ 24 + b3 * 2 ^ 16) ||| (b4 <<< 8)
      = b0 * 2 ^ 40 + b1 * 2 ^ 32 + b2 * 2 ^ 24 + b3 * 2 ^ 16 + b4 * 2 ^ 8 := by
    rw [lor_eq_add _ _ 16 (by omega) (by omega)]; omega
  rw [e1, e2, e3, e4, lor_eq_add _ _ 8 (by omega) (by omega)]

/-- The timestamp read back by `MILLIS_SET_TO` is the big-endian value of
bytes 0..5. -/
theorem millis_set_to_eq (r : List Nat) (hr : IsRaw r) :
    MILLIS_SET_TO r = beVal 256 (r.take 6) := by
  obtain ⟨hlen, hb⟩ := hr
  obtain ⟨b0, b1, b2, b3, b4, b5, b6, b7, b8, b9, b10, b11, b12, b13, b14, b15, rfl⟩ :=
    raw_cases r hlen
  obtain ⟨h0, h1, h2, h3, h4, h5, h6, h7, h8, h9, h10, h11, h12, h13, h14, h15⟩ :=
    raw_bounds hb
  simp only [MILLIS_SET_TO, List.getD_cons_zero, List.getD_cons_succ]
  rw [millis_set_eq b0 b1 b2 b3 b4 b5 h1 h2 h3 h4 h5]
  show _ = b0 * 256 ^ 5 + (b1 * 256 ^ 4 + (b2 * 256 ^ 3 + (b3 * 256 ^ 2 + (b4 * 256 ^ 1
    + (b5 * 256 ^ 0 + 0)))))
  omega

theorem millis_write_to_eq (t : Nat) (buf : List Nat) (h : 6 ≤ buf.length) :
    MILLIS_WRITE_TO t buf
      = [(t >>> 40) % 256, (t >>> 32) % 256, (t >>> 24) % 256, (t >>> 16) % 256,
          (t >>> 8) % 256, t % 256] ++ buf.drop 6 := by
  rw [MILLIS_WRITE_TO, store_eq _ _ _ (by simpa using h)]
  simp

theorem memcpy_random_in (buf random : List Nat) (hb : buf.length = 16)
    (hr : random.length = 10) :
    memcpy buf ULID_MILLIS_SIZE random 0 ULID_RANDOM_SIZE = buf.take 6 ++ random := by
  rw [memcpy, ULID_MILLIS_SIZE, ULID_RANDOM_SIZE, List.drop_zero,
    List.take_of_length_le (by omega), store_eq _ _ _ (by omega),
    List.drop_of_length_le (by omega), List.append_nil]

theorem memcpy_random_out (buf ulid : List Nat) (hb : buf.length = 10)
    (hu : ulid.length = 16) :
    memcpy buf 0 ulid ULID_MILLIS_SIZE ULID_RANDOM_SIZE = ulid.drop 6 := by
  have e : ((ulid.drop 6).take 10) = ulid.drop 6 :=
    List.take_of_length_le (by rw [List.length_drop]; omega)
  rw [memcpy, ULID_MILLIS_SIZE, ULID_RANDOM_SIZE, e, store_all]
  rw [List.length_drop]; omega

/-- The function `ulid_parse` with both fields given. -/
theorem parse_both (out0 : List Nat) (t : Nat) (random : List Nat) (ho : out0.length = 16)
    (hr : random.length = 10) :
    ulid_parse out0 (some t) (some random)
      = (0, [(t >>> 40) % 256, (t >>> 32) % 256, (t >>> 24) % 256, (t >>> 16) % 256,
          (t >>> 8) % 256, t % 256] ++ random) := by
  simp only [ulid_parse, Option.isNone_some, Bool.and_self, Bool.false_eq_true, if_false]
  rw [memcpy_random_in _ _ (by rw [millis_write_to_eq t out0 (by omega)]; simp; omega) hr,
    millis_write_to_eq t out0 (by omega)]
  simp

/-- The function `ulid_unparse` with both outputs requested. -/
theorem unparse_both (raw : List Nat) (m0 : Nat) (buf0 : List Nat) (hr : IsRaw raw)
    (hb : buf0.length = 10) :
    ulid_unparse raw (some m0) (some buf0)
      = (0, some (beVal 256 (raw.take 6)), some (raw.drop 6)) := by
  simp only [ulid_unparse, Option.isNone_some, Bool.and_self, Bool.false_eq_true, if_false]
  rw [memcpy_random_out _ _ hb hr.1, millis_set_to_eq raw hr]


theorem lex_iff_first_diff (xs : List Nat) : ∀ (ys : List Nat) (n : Nat),
    xs.length = n → ys.length = n →
    (List.Lex (· < ·) xs ys ↔
      ∃ i, i < n ∧ (∀ j, j < i → xs.getD j 0 = ys.getD j 0) ∧ xs.getD i 0 < ys.getD i 0) := by
  induction xs with
  | nil =>
    intro ys n hx hy
    subst hx
    rw [List.length_nil, List.length_eq_zero] at hy
    subst hy
    simp [not_nil_lt_nil]
  | cons x xs ih =>
    intro ys n hx hy
    cases ys with
    | nil => subst hy; simp at hx
    | cons y ys =>
      cases n with
      | zero => simp at hx
      | succ n =>
        simp only [List.length_cons, Nat.add_right_cancel_iff] at hx hy
        rw [cons_lt_cons_iff, ih ys n hx hy]
        constructor
        · rintro (h | ⟨rfl, i, hi, hj, hlt⟩)
          · exact ⟨0, by omega, fun j hj => by omega, h⟩
          · refine ⟨i + 1, by omega, ?_, hlt⟩
            intro j hj1
            cases j with
            | zero => rfl
            | succ j => exact hj j (by omega)
        · rintro ⟨i, hi, hj, hlt⟩
          cases i with
          | zero => exact Or.inl hlt
          | succ i =>
            refine Or.inr ⟨hj 0 (by omega), i, by omega, ?_, hlt⟩
            intro j hj1
            exact hj (j + 1) (by omega)

theorem eq_iff_getD (xs ys : List Nat) (n : Nat) (hx : xs.length = n) (hy : ys.length = n) :
    xs = ys ↔ ∀ i, i < n → xs.getD i 0 = ys.getD i 0 := by
  constructor
  · intro h i _; rw [h]
  · intro h
    apply List.ext_getElem (by omega)
    intro i h1 h2
    have := h i (by omega)
    rwa [List.getD_eq_getElem _ _ h1, List.getD_eq_getElem _ _ h2] at this

/-- The function `ulid_from_string` reads the first 26 characters only. -/
theorem from_string_congr (inp inp2 out : List Nat)
    (h : ∀ i, i < 26 → inp.getD i 0 = inp2.getD i 0) :
    ulid_from_string inp out = ulid_from_string inp2 out := by
  have ht : ∀ i, i < 26 → tbl inp i = tbl inp2 i := fun i hi => by rw [tbl, tbl, h i hi]
  simp only [ulid_from_string, ulid_from_string_rejects, ulid_from_string_bytes,
    h 0 (by omega), ht 0 (by omega), ht 1 (by omega), ht 2 (by omega), ht 3 (by omega),
    ht 4 (by omega), ht 5 (by omega), ht 6 (by omega), ht 7 (by omega), ht 8 (by omega),
    ht 9 (by omega), ht 10 (by omega), ht 11 (by omega), ht 12 (by omega), ht 13 (by omega),
    ht 14 (by omega), ht 15 (by omega), ht 16 (by omega), ht 17 (by omega), ht 18 (by omega),
    ht 19 (by omega), ht 20 (by omega), ht 21 (by omega), ht 22 (by omega), ht 23 (by omega),
    ht 24 (by omega), ht 25 (by omega)]

theorem from_string_rejects_of_bad (inp out : List Nat) (i : Nat) (hi : i < 26)
    (h : tbl inp i &&& 0x80 ≠ 0) : ulid_from_string inp out = (1, out) := by
  have hr : ulid_from_string_rejects inp = true := by
    cases hrej : ulid_from_string_rejects inp
    · exact absurd (((rejects_eq_false_iff inp).1 hrej).2 i hi) h
    · rfl
  rw [ulid_from_string, hr]
  rfl

/-- The 128-bit value of a raw ULID splits into its timestamp and random parts. -/
theorem beVal_split (r : List Nat) (hr : IsRaw r) :
    beVal 256 r = beVal 256 (r.take 6) * 256 ^ 10 + beVal 256 (r.drop 6) ∧
      beVal 256 (r.drop 6) < 256 ^ 10 := by
  have hl : (r.drop 6).length = 10 := by rw [List.length_drop, hr.1]
  constructor
  · conv_lhs => rw [← List.take_append_drop 6 r]
    rw [beVal_append, hl]
  · have := beVal_lt_pow 256 (r.drop 6) (fun x hx => hr.2 x (List.mem_of_mem_drop hx))
    rwa [hl] at this


/-! ## Text codec: round trips, validation, order -/

/-- C1: for every 16-byte raw ULID `r`, the encoder writes 27 bytes, and
decoding the 26 characters it wrote (passed with or without the NUL that
follows them) returns 0 and stores exactly `r`. -/
theorem decode_encode_roundtrip (r out : List Nat) (hr : IsRaw r) (hout : out.length = 16) :
    (ulid_to_string r).length = 27 ∧
    ulid_from_string (ulid_to_string r) out = (0, r) ∧
    ulid_from_string ((ulid_to_string r).take 26) out = (0, r) := by
  have hg := groups_length r
  have hlt := groups_lt r hr
  have h0 := groups_head_lt r hr
  have hu := unGroups_groups r hr
  have e1 := from_string_map_chr (groups r) [0] out hg hlt h0 hout
  have e2 := from_string_map_chr (groups r) [] out hg hlt h0 hout
  rw [List.append_nil] at e2
  rw [to_string_take r hr, ulid_to_string_eq r hr, e1, e2, hu]
  exact ⟨by simp [hg], rfl, rfl⟩

/-- C1, the fixed vector: timestamp `0x0000018B5A8C` packed with random bytes
`1..10` encodes to `00000RPPMC041061050R3GG28A`, which decodes back to the
same 16 bytes. -/
theorem decode_encode_roundtrip_witness :
    (ulid_parse (List.replicate 16 0) (some 0x0000018B5A8C)
        (some [1, 2, 3, 4, 5, 6, 7, 8, 9, 10])).2
      = [0, 0, 1, 0x8B, 0x5A, 0x8C, 1, 2, 3, 4, 5, 6, 7, 8, 9, 10] ∧
    IsRaw [0, 0, 1, 0x8B, 0x5A, 0x8C, 1, 2, 3, 4, 5, 6, 7, 8, 9, 10] ∧
    ulid_to_string [0, 0, 1, 0x8B, 0x5A, 0x8C, 1, 2, 3, 4, 5, 6, 7, 8, 9, 10]
      = "00000RPPMC041061050R3GG28A".toList.map Char.toNat ++ [0] ∧
    ulid_from_string
        (ulid_to_string [0, 0, 1, 0x8B, 0x5A, 0x8C, 1, 2, 3, 4, 5, 6, 7, 8, 9, 10])
        (List.replicate 16 0)
      = (0, [0, 0, 1, 0x8B, 0x5A, 0x8C, 1, 2, 3, 4, 5, 6, 7, 8, 9, 10]) :=
  ⟨by decide, ⟨by decide, by decide⟩, by decide,
   (decode_encode_roundtrip [0, 0, 1, 0x8B, 0x5A, 0x8C, 1, 2, 3, 4, 5, 6, 7, 8, 9, 10]
      (List.replicate 16 0) ⟨by decide, by decide⟩ (by decide)).2.1⟩

/-- C2: for every 26-character string `s` whose first character is one of
`0..7` and whose characters are all Crockford letters or digits in either
case, decoding returns 0 and encoding the decoded bytes writes `s` with every
letter upper-cased, followed by the NUL. -/
theorem encode_decode_roundtrip (s out : List Nat) (hlen : s.length = 26)
    (hfirst : inRange '0' '7' (s.getD 0 0) = true)
    (hall : ∀ c ∈ s, isCrockford c = true) (hout : out.length = 16) :
    (ulid_from_string s out).1 = 0 ∧
    ulid_to_string (ulid_from_string s out).2 = s.map toupper ++ [0] := by
  have hs : ∀ i, i < 26 → isCrockford (s.getD i 0) = true := by
    intro i hi
    rw [List.getD_eq_getElem _ _ (by omega)]
    exact hall _ (List.getElem_mem _)
  obtain ⟨e, ht, ht0⟩ := from_string_accept s out hout hfirst hs
  have hvlen : ((List.range 26).map (tbl s)).length = 26 := by simp
  have hvlt : ∀ g ∈ (List.range 26).map (tbl s), g < 32 := by
    intro g hg
    obtain ⟨i, hi, rfl⟩ := List.mem_map.1 hg
    exact ht i (List.mem_range.1 hi)
  have hv0 : ((List.range 26).map (tbl s)).getD 0 0 < 8 := ht0
  rw [e]
  refine ⟨rfl, ?_⟩
  rw [ulid_to_string_eq _ (unGroups_isRaw _), groups_unGroups _ hvlen hvlt hv0]
  congr 1
  apply List.ext_getElem
  · simp [hlen]
  · intro i h1 h2
    have hi : i < 26 := by simpa [hlen] using h2
    have hi2 : i < s.length := by omega
    simp only [List.getElem_map, List.getElem_range, tbl]
    rw [List.getD_eq_getElem _ _ hi2]
    exact (tbl_crock _ (isCrockford_lt _ (hall _ (List.getElem_mem _)))
      (hall _ (List.getElem_mem _))).2

/-- C2 at the lower-case string `01arz3ndektsv4rrffq69g5fav`: it decodes, and
encoding the decoded bytes gives `01ARZ3NDEKTSV4RRFFQ69G5FAV`. -/
theorem encode_decode_roundtrip_witness :
    ("01arz3ndektsv4rrffq69g5fav".toList.map Char.toNat).length = 26 ∧
    (ulid_from_string ("01arz3ndektsv4rrffq69g5fav".toList.map Char.toNat)
        (List.replicate 16 0)).1 = 0 ∧
    ulid_to_string (ulid_from_string ("01arz3ndektsv4rrffq69g5fav".toList.map Char.toNat)
        (List.replicate 16 0)).2
      = ("01arz3ndektsv4rrffq69g5fav".toList.map Char.toNat).map toupper ++ [0] ∧
    ("01arz3ndektsv4rrffq69g5fav".toList.map Char.toNat).map toupper
      = "01ARZ3NDEKTSV4RRFFQ69G5FAV".toList.map Char.toNat :=
  ⟨by decide,
   (encode_decode_roundtrip ("01arz3ndektsv4rrffq69g5fav".toList.map Char.toNat)
      (List.replicate 16 0) (by decide) (by decide) (by decide) (by decide)).1,
   (encode_decode_roundtrip ("01arz3ndektsv4rrffq69g5fav".toList.map Char.toNat)
      (List.replicate 16 0) (by decide) (by decide) (by decide) (by decide)).2,
   by decide⟩

/-- C3: for raw ULIDs `a` and `b`, `ulid_compare a b` is negative, zero or
positive exactly when the 26-character string written for `a` is
lexicographically (by character code) smaller than, equal to, or greater than
the one written for `b`. -/
theorem compare_agrees_with_string_order (a b : List Nat) (ha : IsRaw a) (hb : IsRaw b) :
    (ulid_compare a b < 0 ↔
      List.Lex (· < ·) ((ulid_to_string a).take 26) ((ulid_to_string b).take 26)) ∧
    (ulid_compare a b = 0 ↔ (ulid_to_string a).take 26 = (ulid_to_string b).take 26) ∧
    (0 < ulid_compare a b ↔
      List.Lex (· < ·) ((ulid_to_string b).take 26) ((ulid_to_string a).take 26)) := by
  have hl : a.length = b.length := by rw [ha.1, hb.1]
  have hga := groups_lt a ha
  have hgb := groups_lt b hb
  have hgl : (groups a).length = (groups b).length := rfl
  have key : ∀ (x y : List Nat), IsRaw x → IsRaw y →
      (List.Lex (· < ·) x y ↔ List.Lex (· < ·) ((groups x).map chr) ((groups y).map chr)) := by
    intro x y hx hy
    have hxy : (groups x).length = (groups y).length := rfl
    rw [map_chr_lex (groups x) (groups y) hxy (groups_lt x hx) (groups_lt y hy),
      lt_iff_beVal_lt 32 (groups x) (groups y) hxy (groups_lt x hx) (groups_lt y hy),
      beVal_groups x hx.1, beVal_groups y hy.1,
      lt_iff_beVal_lt 256 x y (by rw [hx.1, hy.1]) hx.2 hy.2]
  rw [to_string_take a ha, to_string_take b hb, ulid_compare, ULID_SIZE]
  refine ⟨?_, ?_, ?_⟩
  · rw [memcmp_neg_iff a b 16 ha.1 hb.1, key a b ha hb]
  · rw [memcmp_zero_iff a b 16 ha.1 hb.1]
    constructor
    · intro h; rw [h]
    · intro h
      have e1 := from_string_map_chr (groups a) [] a (groups_length a) hga
        (groups_head_lt a ha) ha.1
      have e2 := from_string_map_chr (groups b) [] a (groups_length b) hgb
        (groups_head_lt b hb) ha.1
      rw [h, e2, unGroups_groups a ha, unGroups_groups b hb] at e1
      exact (Prod.mk.inj e1).2.symm
  · rw [memcmp_pos_iff a b 16 ha.1 hb.1, key b a hb ha]

/-- C3 at two raw ULIDs that differ in their last byte only. -/
theorem compare_agrees_with_string_order_witness :
    ulid_compare [0, 0, 1, 0x8B, 0x5A, 0x8C, 1, 2, 3, 4, 5, 6, 7, 8, 9, 10]
        [0, 0, 1, 0x8B, 0x5A, 0x8C, 1, 2, 3, 4, 5, 6, 7, 8, 9, 11] < 0 ∧
    List.Lex (· < ·)
      ((ulid_to_string [0, 0, 1, 0x8B, 0x5A, 0x8C, 1, 2, 3, 4, 5, 6, 7, 8, 9, 10]).take 26)
      ((ulid_to_string [0, 0, 1, 0x8B, 0x5A, 0x8C, 1, 2, 3, 4, 5, 6, 7, 8, 9, 11]).take 26) :=
  ⟨by decide,
   (compare_agrees_with_string_order [0, 0, 1, 0x8B, 0x5A, 0x8C, 1, 2, 3, 4, 5, 6, 7, 8, 9, 10]
      [0, 0, 1, 0x8B, 0x5A, 0x8C, 1, 2, 3, 4, 5, 6, 7, 8, 9, 11]
      ⟨by decide, by decide⟩ ⟨by decide, by decide⟩).1.1 (by decide)⟩

/-- C5, as stated, fails: the 27-character text `01ARZ3NDEKTSV4RRFFQ69G5FAVX`
(NUL-terminated) is not 26 characters long, yet `ulid_from_string` returns 0
on it and stores the bytes decoded from its first 26 characters. -/
theorem from_string_accepts_longer_input :
    ("01ARZ3NDEKTSV4RRFFQ69G5FAVX".toList.map Char.toNat).length = 27 ∧
    ulid_from_string ("01ARZ3NDEKTSV4RRFFQ69G5FAVX".toList.map Char.toNat ++ [0])
        (List.replicate 16 0)
      = (0, [1, 86, 62, 58, 181, 211, 214, 118, 76, 97, 239, 185, 147, 2, 189, 91]) := by
  decide

/-- C5, amended: `ulid_from_string` examines the first 26 characters of its
buffer and nothing else.  A NUL-terminated text `s` shorter than 26 characters
is rejected with code 1 (the terminator sits at an index below 26 and is not
an alphabet character), whatever bytes follow the terminator; a text of 26
characters or more is accepted or rejected exactly as its first 26 characters
are. -/
theorem from_string_length (s rest out : List Nat) :
    (s.length < 26 → ulid_from_string (s ++ 0 :: rest) out = (1, out)) ∧
    (26 ≤ s.length →
      ulid_from_string (s ++ 0 :: rest) out = ulid_from_string (s.take 26) out) := by
  constructor
  · intro h
    apply from_string_rejects_of_bad _ _ s.length h
    have e : (s ++ 0 :: rest).getD s.length 0 = 0 := by
      rw [List.getD_append_right _ _ _ _ (Nat.le_refl _), Nat.sub_self, List.getD_cons_zero]
    rw [tbl, e]
    decide
  · intro h
    apply from_string_congr
    intro i hi
    have h1 : i < s.length := by omega
    have h2 : i < (s.take 26).length := by rw [List.length_take]; omega
    rw [List.getD_append _ _ _ _ h1, List.getD_eq_getElem _ _ h1, List.getD_eq_getElem _ _ h2,
      List.getElem_take]

/-- C5, amended, on the 25-character text `01ARZ3NDEKTSV4RRFFQ69G5FA` and on
the 27-character text `01ARZ3NDEKTSV4RRFFQ69G5FAVX`. -/
theorem from_string_length_witness :
    ulid_from_string ("01ARZ3NDEKTSV4RRFFQ69G5FA".toList.map Char.toNat ++ 0 :: [])
        (List.replicate 16 7) = (1, List.replicate 16 7) ∧
    ulid_from_string ("01ARZ3NDEKTSV4RRFFQ69G5FAVX".toList.map Char.toNat ++ 0 :: [])
        (List.replicate 16 7)
      = ulid_from_string (("01ARZ3NDEKTSV4RRFFQ69G5FAVX".toList.map Char.toNat).take 26)
        (List.replicate 16 7) :=
  ⟨(from_string_length ("01ARZ3NDEKTSV4RRFFQ69G5FA".toList.map Char.toNat) []
      (List.replicate 16 7)).1 (by decide),
   (from_string_length ("01ARZ3NDEKTSV4RRFFQ69G5FAVX".toList.map Char.toNat) []
      (List.replicate 16 7)).2 (by decide)⟩

/-- C6: whenever `ulid_from_string` returns a non-zero code, the output buffer
holds after the call exactly what it held before: all 26 characters are
validated before the first store. -/
theorem from_string_failure_keeps_output (inp out : List Nat)
    (h : (ulid_from_string inp out).1 ≠ 0) : (ulid_from_string inp out).2 = out := by
  unfold ulid_from_string at h ⊢
  cases hr : ulid_from_string_rejects inp
  · rw [hr] at h
    exact absurd rfl h
  · rfl

/-- C6 on an input with a bad character in the last position: the buffer is
unchanged although the first 25 characters are valid. -/
theorem from_string_failure_keeps_output_witness :
    (ulid_from_string ("01ARZ3NDEKTSV4RRFFQ69G5FAL".toList.map Char.toNat)
      [1, 2, 3, 4, 5, 6, 7, 8, 9, 10, 11, 12, 13, 14, 15, 16]).1 ≠ 0 ∧
    (ulid_from_string ("01ARZ3NDEKTSV4RRFFQ69G5FAL".toList.map Char.toNat)
      [1, 2, 3, 4, 5, 6, 7, 8, 9, 10, 11, 12, 13, 14, 15, 16]).2
      = [1, 2, 3, 4, 5, 6, 7, 8, 9, 10, 11, 12, 13, 14, 15, 16] :=
  ⟨by decide,
   from_string_failure_keeps_output ("01ARZ3NDEKTSV4RRFFQ69G5FAL".toList.map Char.toNat)
     [1, 2, 3, 4, 5, 6, 7, 8, 9, 10, 11, 12, 13, 14, 15, 16] (by decide)⟩

/-! ## Comparator and field codec -/

/-- C7: for raw ULIDs `a` and `b`, `ulid_compare a b` is negative, zero or
positive exactly when, at the first index where they differ, the byte of `a`
is smaller than that of `b`, there is no such index, or the byte of `a` is
greater.  The same sign is that of comparing the two 128-bit big-endian
values, and that of comparing the pairs (timestamp, random) returned by
`ulid_unparse`, first by timestamp and then by the 80-bit random value. -/
theorem compare_sign (a b : List Nat) (ha : IsRaw a) (hb : IsRaw b) (ma mb : Nat)
    (bufa bufb : List Nat) (hbufa : bufa.length = 10) (hbufb : bufb.length = 10) :
    ((ulid_compare a b < 0 ↔
        ∃ i, i < 16 ∧ (∀ j, j < i → a.getD j 0 = b.getD j 0) ∧ a.getD i 0 < b.getD i 0) ∧
      (ulid_compare a b = 0 ↔ ∀ i, i < 16 → a.getD i 0 = b.getD i 0) ∧
      (0 < ulid_compare a b ↔
        ∃ i, i < 16 ∧ (∀ j, j < i → a.getD j 0 = b.getD j 0) ∧ b.getD i 0 < a.getD i 0)) ∧
    ((ulid_compare a b < 0 ↔ beVal 256 a < beVal 256 b) ∧
      (ulid_compare a b = 0 ↔ beVal 256 a = beVal 256 b) ∧
      (0 < ulid_compare a b ↔ beVal 256 b < beVal 256 a)) ∧
    ∃ ta ra tb rb,
      ulid_unparse a (some ma) (some bufa) = (0, some ta, some ra) ∧
      ulid_unparse b (some mb) (some bufb) = (0, some tb, some rb) ∧
      (ulid_compare a b < 0 ↔ ta < tb ∨ (ta = tb ∧ beVal 256 ra < beVal 256 rb)) ∧
      (ulid_compare a b = 0 ↔ ta = tb ∧ beVal 256 ra = beVal 256 rb) ∧
      (0 < ulid_compare a b ↔ tb < ta ∨ (ta = tb ∧ beVal 256 rb < beVal 256 ra)) := by
  have hl : a.length = b.length := by rw [ha.1, hb.1]
  have hneg := memcmp_neg_iff a b 16 ha.1 hb.1
  have hzero := memcmp_zero_iff a b 16 ha.1 hb.1
  have hpos := memcmp_pos_iff a b 16 ha.1 hb.1
  have n1 : ulid_compare a b < 0 ↔ beVal 256 a < beVal 256 b :=
    hneg.trans (lt_iff_beVal_lt 256 a b hl ha.2 hb.2)
  have n2 : ulid_compare a b = 0 ↔ beVal 256 a = beVal 256 b :=
    hzero.trans ⟨fun h => by rw [h], beVal_inj 256 a b hl ha.2 hb.2⟩
  have n3 : 0 < ulid_compare a b ↔ beVal 256 b < beVal 256 a :=
    hpos.trans (lt_iff_beVal_lt 256 b a hl.symm hb.2 ha.2)
  refine ⟨⟨?_, ?_, ?_⟩, ⟨n1, n2, n3⟩, ?_⟩
  · exact hneg.trans (lex_iff_first_diff a b 16 ha.1 hb.1)
  · exact hzero.trans (eq_iff_getD a b 16 ha.1 hb.1)
  · refine (hpos.trans (lex_iff_first_diff b a 16 hb.1 ha.1)).trans ?_
    constructor
    · rintro ⟨i, hi, hj, hlt⟩
      exact ⟨i, hi, fun j hji => (hj j hji).symm, hlt⟩
    · rintro ⟨i, hi, hj, hlt⟩
      exact ⟨i, hi, fun j hji => (hj j hji).symm, hlt⟩
  · refine ⟨beVal 256 (a.take 6), a.drop 6, beVal 256 (b.take 6), b.drop 6,
      unparse_both a ma bufa ha hbufa, unparse_both b mb bufb hb hbufb, ?_⟩
    obtain ⟨ea, ba⟩ := beVal_split a ha
    obtain ⟨eb, bb⟩ := beVal_split b hb
    rw [n1, n2, n3, ea, eb]
    generalize beVal 256 (a.take 6) = ta at *
    generalize beVal 256 (b.take 6) = tb at *
    generalize beVal 256 (a.drop 6) = va at *
    generalize beVal 256 (b.drop 6) = vb at *
    norm_num at ba bb ⊢
    refine ⟨?_, ?_, ?_⟩ <;> omega

/-- C7 at two raw ULIDs: equal timestamps, random parts differing in the last
byte. -/
theorem compare_sign_witness :
    IsRaw [0, 0, 1, 0x8B, 0x5A, 0x8C, 1, 2, 3, 4, 5, 6, 7, 8, 9, 10] ∧
    IsRaw [0, 0, 1, 0x8B, 0x5A, 0x8C, 1, 2, 3, 4, 5, 6, 7, 8, 9, 11] ∧
    ulid_compare [0, 0, 1, 0x8B, 0x5A, 0x8C, 1, 2, 3, 4, 5, 6, 7, 8, 9, 10]
        [0, 0, 1, 0x8B, 0x5A, 0x8C, 1, 2, 3, 4, 5, 6, 7, 8, 9, 11] < 0 ∧
    beVal 256 [0, 0, 1, 0x8B, 0x5A, 0x8C, 1, 2, 3, 4, 5, 6, 7, 8, 9, 10]
      < beVal 256 [0, 0, 1, 0x8B, 0x5A, 0x8C, 1, 2, 3, 4, 5, 6, 7, 8, 9, 11] :=
  ⟨⟨by decide, by decide⟩, ⟨by decide, by decide⟩, by decide,
   (compare_sign [0, 0, 1, 0x8B, 0x5A, 0x8C, 1, 2, 3, 4, 5, 6, 7, 8, 9, 10]
      [0, 0, 1, 0x8B, 0x5A, 0x8C, 1, 2, 3, 4, 5, 6, 7, 8, 9, 11]
      ⟨by decide, by decide⟩ ⟨by decide, by decide⟩ 0 0 (List.replicate 10 0)
      (List.replicate 10 0) (by decide) (by decide)).2.1.1.1 (by decide)⟩

/-- C8: for every timestamp `t` and every 10-byte random value `r`,
`ulid_parse` returns 0 and `ulid_unparse` of the buffer it produced returns 0
with timestamp `t % 2 ^ 48` and random bytes `r`; so a timestamp below `2 ^ 48`
comes back unchanged and a larger one is truncated to its low 48 bits, not
rejected. -/
theorem unparse_parse (t : Nat) (r out0 : List Nat) (m0 : Nat) (buf0 : List Nat)
    (hr : r.length = 10) (hr256 : ∀ x ∈ r, x < 256) (hout : out0.length = 16)
    (hbuf : buf0.length = 10) :
    (ulid_parse out0 (some t) (some r)).1 = 0 ∧
    ulid_unparse (ulid_parse out0 (some t) (some r)).2 (some m0) (some buf0)
      = (0, some (t % 2 ^ 48), some r) ∧
    (t < 2 ^ 48 →
      ulid_unparse (ulid_parse out0 (some t) (some r)).2 (some m0) (some buf0)
        = (0, some t, some r)) := by
  have hp := parse_both out0 t r hout hr
  have hraw : IsRaw ([(t >>> 40) % 256, (t >>> 32) % 256, (t >>> 24) % 256,
      (t >>> 16) % 256, (t >>> 8) % 256, t % 256] ++ r) := by
    refine ⟨by simp [hr], ?_⟩
    intro x hx
    rw [List.mem_append] at hx
    rcases hx with hx | hx
    · simp only [List.mem_cons, List.not_mem_nil, or_false] at hx
      omega
    · exact hr256 x hx
  have hu := unparse_both _ m0 buf0 hraw hbuf
  have e1 : ([(t >>> 40) % 256, (t >>> 32) % 256, (t >>> 24) % 256, (t >>> 16) % 256,
      (t >>> 8) % 256, t % 256] ++ r).take 6 = [(t >>> 40) % 256, (t >>> 32) % 256,
      (t >>> 24) % 256, (t >>> 16) % 256, (t >>> 8) % 256, t % 256] := rfl
  have e2 : ([(t >>> 40) % 256, (t >>> 32) % 256, (t >>> 24) % 256, (t >>> 16) % 256,
      (t >>> 8) % 256, t % 256] ++ r).drop 6 = r := rfl
  have e3 : beVal 256 [(t >>> 40) % 256, (t >>> 32) % 256, (t >>> 24) % 256,
      (t >>> 16) % 256, (t >>> 8) % 256, t % 256] = t % 2 ^ 48 := by
    show (t >>> 40) % 256 * 256 ^ 5 + ((t >>> 32) % 256 * 256 ^ 4 + ((t >>> 24) % 256 * 256 ^ 3
      + ((t >>> 16) % 256 * 256 ^ 2 + ((t >>> 8) % 256 * 256 ^ 1 + (t % 256 * 256 ^ 0 + 0)))))
      = t % 2 ^ 48
    omega
  rw [e1, e2, e3] at hu
  rw [hp]
  refine ⟨rfl, hu, ?_⟩
  intro ht
  rw [hu, Nat.mod_eq_of_lt ht]

/-- C8 at a timestamp of `2 ^ 48 + 5`: it is accepted and comes back as 5. -/
theorem unparse_parse_witness :
    (ulid_parse (List.replicate 16 0) (some (2 ^ 48 + 5))
      (some [1, 2, 3, 4, 5, 6, 7, 8, 9, 10])).1 = 0 ∧
    ulid_unparse (ulid_parse (List.replicate 16 0) (some (2 ^ 48 + 5))
        (some [1, 2, 3, 4, 5, 6, 7, 8, 9, 10])).2 (some 0) (some (List.replicate 10 0))
      = (0, some ((2 ^ 48 + 5) % 2 ^ 48), some [1, 2, 3, 4, 5, 6, 7, 8, 9, 10]) ∧
    (2 ^ 48 + 5) % 2 ^ 48 = 5 :=
  ⟨(unparse_parse (2 ^ 48 + 5) [1, 2, 3, 4, 5, 6, 7, 8, 9, 10] (List.replicate 16 0) 0
      (List.replicate 10 0) (by decide) (by decide) (by decide) (by decide)).1,
   (unparse_parse (2 ^ 48 + 5) [1, 2, 3, 4, 5, 6, 7, 8, 9, 10] (List.replicate 16 0) 0
      (List.replicate 10 0) (by decide) (by decide) (by decide) (by decide)).2.1,
   by decide⟩

/-- C9: for every 16-byte raw value, `ulid_unparse` with both outputs
requested returns 0 and a timestamp below `2 ^ 48`, and `ulid_parse` of the
returned timestamp and random bytes rebuilds the original 16 bytes. -/
theorem parse_unparse (raw : List Nat) (m0 : Nat) (buf0 out0 : List Nat) (hraw : IsRaw raw)
    (hbuf : buf0.length = 10) (hout : out0.length = 16) :
    ∃ t rnd,
      ulid_unparse raw (some m0) (some buf0) = (0, some t, some rnd) ∧
      t < 2 ^ 48 ∧
      ulid_parse out0 (some t) (some rnd) = (0, raw) := by
  refine ⟨beVal 256 (raw.take 6), raw.drop 6, unparse_both raw m0 buf0 hraw hbuf, ?_, ?_⟩
  · have h := beVal_lt_pow 256 (raw.take 6) (fun x hx => hraw.2 x (List.mem_of_mem_take hx))
    have hl : (raw.take 6).length = 6 := by rw [List.length_take, hraw.1]; rfl
    rw [hl] at h
    norm_num at h ⊢
    exact h
  · rw [parse_both out0 _ _ hout (by rw [List.length_drop, hraw.1])]
    obtain ⟨hlen, hb⟩ := hraw
    obtain ⟨b0, b1, b2, b3, b4, b5, b6, b7, b8, b9, b10, b11, b12, b13, b14, b15, rfl⟩ :=
      raw_cases raw hlen
    obtain ⟨h0, h1, h2, h3, h4, h5, h6, h7, h8, h9, h10, h11, h12, h13, h14, h15⟩ :=
      raw_bounds hb
    have e : beVal 256 (List.take 6
        [b0, b1, b2, b3, b4, b5, b6, b7, b8, b9, b10, b11, b12, b13, b14, b15])
        = b0 * 256 ^ 5 + (b1 * 256 ^ 4 + (b2 * 256 ^ 3 + (b3 * 256 ^ 2 + (b4 * 256 ^ 1
          + (b5 * 256 ^ 0 + 0))))) := rfl
    rw [e]
    simp only [List.drop_succ_cons, List.drop_zero, List.cons_append, List.nil_append,
      Prod.mk.injEq, List.cons.injEq, true_and, and_true]
    and_intros <;> omega

/-- C9 at the raw value of the fixed vector. -/
theorem parse_unparse_witness :
    IsRaw [0, 0, 1, 0x8B, 0x5A, 0x8C, 1, 2, 3, 4, 5, 6, 7, 8, 9, 10] ∧
    ∃ t rnd,
      ulid_unparse [0, 0, 1, 0x8B, 0x5A, 0x8C, 1, 2, 3, 4, 5, 6, 7, 8, 9, 10] (some 0)
          (some (List.replicate 10 0)) = (0, some t, some rnd) ∧
      t < 2 ^ 48 ∧
      ulid_parse (List.replicate 16 0) (some t) (some rnd)
        = (0, [0, 0, 1, 0x8B, 0x5A, 0x8C, 1, 2, 3, 4, 5, 6, 7, 8, 9, 10]) :=
  ⟨⟨by decide, by decide⟩,
   parse_unparse [0, 0, 1, 0x8B, 0x5A, 0x8C, 1, 2, 3, 4, 5, 6, 7, 8, 9, 10] 0
     (List.replicate 10 0) (List.replicate 16 0) ⟨by decide, by decide⟩ (by decide)
     (by decide)⟩

/-- C10: for every timestamp `t` and 10-byte random `r`, `ulid_parse` returns
0 and leaves a 16-byte buffer whose byte `i`, for `i ≤ 5`, is
`(t >>> (8 * (5 - i))) % 256` (the low 48 bits of `t`, big-endian) and whose
bytes 6..15 are `r[0..9]` in order. -/
theorem parse_layout (t : Nat) (r out0 : List Nat) (hr : r.length = 10)
    (hout : out0.length = 16) :
    (ulid_parse out0 (some t) (some r)).1 = 0 ∧
    (ulid_parse out0 (some t) (some r)).2.length = 16 ∧
    (∀ i, i ≤ 5 →
      (ulid_parse out0 (some t) (some r)).2.getD i 0 = (t >>> (8 * (5 - i))) % 256) ∧
    (∀ j, j < 10 → (ulid_parse out0 (some t) (some r)).2.getD (6 + j) 0 = r.getD j 0) ∧
    (ulid_parse out0 (some t) (some r)).2.take 6
      = [t / 2 ^ 40 % 256, t / 2 ^ 32 % 256, t / 2 ^ 24 % 256, t / 2 ^ 16 % 256,
          t / 2 ^ 8 % 256, t % 256] ∧
    (ulid_parse out0 (some t) (some r)).2.drop 6 = r := by
  rw [parse_both out0 t r hout hr]
  refine ⟨rfl, by simp [hr], ?_, ?_, ?_, rfl⟩
  · intro i hi
    interval_cases i <;> rfl
  · intro j _
    rw [List.getD_append_right _ _ _ _ (by simp)]
    simp
  · simp only [List.cons_append, List.nil_append, List.take_succ_cons, List.take_zero,
      Nat.shiftRight_eq_div_pow]

/-- C10 at the fixed vector. -/
theorem parse_layout_witness :
    (ulid_parse (List.replicate 16 0) (some 0x0000018B5A8C)
      (some [1, 2, 3, 4, 5, 6, 7, 8, 9, 10])).2
      = [0, 0, 1, 0x8B, 0x5A, 0x8C, 1, 2, 3, 4, 5, 6, 7, 8, 9, 10] ∧
    (ulid_parse (List.replicate 16 0) (some 0x0000018B5A8C)
      (some [1, 2, 3, 4, 5, 6, 7, 8, 9, 10])).2.drop 6 = [1, 2, 3, 4, 5, 6, 7, 8, 9, 10] :=
  ⟨by decide,
   (parse_layout 0x0000018B5A8C [1, 2, 3, 4, 5, 6, 7, 8, 9, 10] (List.replicate 16 0)
      (by decide) (by decide)).2.2.2.2.2⟩


/-! ## Lemmas on the generator -/

theorem u80_add1_spec (u : uint80_t) (h : u80wf u) :
    u80wf (UINT80_ADD1 u).1 ∧
    u80val (UINT80_ADD1 u).1 = (u80val u + 1) % 2 ^ 80 ∧
    (UINT80_ADD1 u).2 = if u80val u = 2 ^ 80 - 1 then 1 else 0 := by
  obtain ⟨hhi, hlo⟩ := h
  simp only [UINT80_ADD1, u80wf, u80val]
  by_cases h1 : (u.lo + 1) % 2 ^ 64 < u.lo
  · simp only [h1, if_true]
    by_cases h2 : (u.hi + 1) % 2 ^ 16 < u.hi
    · simp only [h2, if_true]
      have e3 : u.hi * 2 ^ 64 + u.lo = 2 ^ 80 - 1 := by omega
      simp only [e3, if_true, and_true]
      omega
    · simp only [h2, if_false]
      have e3 : ¬ (u.hi * 2 ^ 64 + u.lo = 2 ^ 80 - 1) := by omega
      simp only [e3, if_false, and_true]
      omega
  · simp only [h1, if_false, Nat.lt_irrefl]
    have e3 : ¬ (u.hi * 2 ^ 64 + u.lo = 2 ^ 80 - 1) := by omega
    simp only [e3, if_false, and_true]
    omega

theorem u80_is_zero_iff (u : uint80_t) : UINT80_IS_ZERO u = true ↔ u80val u = 0 := by
  simp only [UINT80_IS_ZERO, u80val, Bool.and_eq_true, beq_iff_eq]
  omega

theorem u80_is_zero_false_iff (u : uint80_t) : UINT80_IS_ZERO u = false ↔ u80val u ≠ 0 := by
  have h := u80_is_zero_iff u
  cases hz : UINT80_IS_ZERO u
  · rw [hz] at h
    simp only [Bool.false_eq_true, false_iff] at h
    simp only [true_iff]
    exact h
  · rw [hz] at h
    simp only [true_iff] at h
    simp only [Bool.true_eq_false, false_iff, ne_eq, not_not]
    exact h

theorem millisBytes_length (t : Nat) : (millisBytes t).length = 6 := rfl

theorem u80Bytes_length (u : uint80_t) : (u80Bytes u).length = 10 := rfl

theorem millisBytes_lt (t : Nat) : ∀ x ∈ millisBytes t, x < 256 := by
  simp only [millisBytes, List.mem_cons, List.not_mem_nil, or_false, forall_eq_or_imp,
    forall_eq]
  and_intros <;> exact Nat.mod_lt _ (by decide)

theorem u80Bytes_lt (u : uint80_t) : ∀ x ∈ u80Bytes u, x < 256 := by
  simp only [u80Bytes, List.mem_cons, List.not_mem_nil, or_false, forall_eq_or_imp,
    forall_eq]
  and_intros <;> exact Nat.mod_lt _ (by decide)

theorem beVal_millisBytes (t : Nat) : beVal 256 (millisBytes t) = t % 2 ^ 48 := by
  show (t >>> 40) % 256 * 256 ^ 5 + ((t >>> 32) % 256 * 256 ^ 4 + ((t >>> 24) % 256 * 256 ^ 3
    + ((t >>> 16) % 256 * 256 ^ 2 + ((t >>> 8) % 256 * 256 ^ 1 + (t % 256 * 256 ^ 0 + 0)))))
    = t % 2 ^ 48
  omega

theorem beVal_u80Bytes (u : uint80_t) (h : u80wf u) : beVal 256 (u80Bytes u) = u80val u := by
  obtain ⟨hhi, hlo⟩ := h
  show (u.hi >>> 8) % 256 * 256 ^ 9 + (u.hi % 256 * 256 ^ 8 + ((u.lo >>> 56) % 256 * 256 ^ 7
    + ((u.lo >>> 48) % 256 * 256 ^ 6 + ((u.lo >>> 40) % 256 * 256 ^ 5
    + ((u.lo >>> 32) % 256 * 256 ^ 4 + ((u.lo >>> 24) % 256 * 256 ^ 3
    + ((u.lo >>> 16) % 256 * 256 ^ 2 + ((u.lo >>> 8) % 256 * 256 ^ 1
    + (u.lo % 256 * 256 ^ 0 + 0)))))))))
    = u.hi * 2 ^ 64 + u.lo
  omega

theorem list10_cases (v : List Nat) (h : v.length = 10) :
    ∃ v0 v1 v2 v3 v4 v5 v6 v7 v8 v9, v = [v0, v1, v2, v3, v4, v5, v6, v7, v8, v9] := by
  match v, h with
  | [v0, v1, v2, v3, v4, v5, v6, v7, v8, v9], _ =>
    exact ⟨v0, v1, v2, v3, v4, v5, v6, v7, v8, v9, rfl⟩

theorem lo_set_eq (b2 b3 b4 b5 b6 b7 b8 b9 : Nat) (h3 : b3 < 256) (h4 : b4 < 256)
    (h5 : b5 < 256) (h6 : b6 < 256) (h7 : b7 < 256) (h8 : b8 < 256) (h9 : b9 < 256) :
    (b2 <<< 56) ||| (b3 <<< 48) ||| (b4 <<< 40) ||| (b5 <<< 32) ||| (b6 <<< 24) |||
        (b7 <<< 16) ||| (b8 <<< 8) ||| b9
      = b2 * 2 ^ 56 + b3 * 2 ^ 48 + b4 * 2 ^ 40 + b5 * 2 ^ 32 + b6 * 2 ^ 24 + b7 * 2 ^ 16
        + b8 * 2 ^ 8 + b9 := by
  have e1 : (b2 <<< 56) ||| (b3 <<< 48) = b2 * 2 ^ 56 + b3 * 2 ^ 48 := by
    rw [or_shl b2 _ 56 (by omega)]; omega
  have e2 : (b2 * 2 ^ 56 + b3 * 2 ^ 48) ||| (b4 <<< 40)
      = b2 * 2 ^ 56 + b3 * 2 ^ 48 + b4 * 2 ^ 40 := by
    rw [lor_eq_add _ _ 48 (by omega) (by omega)]; omega
  have e3 : (b2 * 2 ^ 56 + b3 * 2 ^ 48 + b4 * 2 ^ 40) ||| (b5 <<< 32)
      = b2 * 2 ^ 56 + b3 * 2 ^ 48 + b4 * 2 ^ 40 + b5 * 2 ^ 32 := by
    rw [lor_eq_add _ _ 40 (by omega) (by omega)]; omega
  have e4 : (b2 * 2 ^ 56 + b3 * 2 ^ 48 + b4 * 2 ^ 40 + b5 * 2 ^ 32) ||| (b6 <<< 24)
      = b2 * 2 ^ 56 + b3 * 2 ^ 48 + b4 * 2 ^ 40 + b5 * 2 ^ 32 + b6 * 2 ^ 24 := by
    rw [lor_eq_add _ _ 32 (by omega) (by omega)]; omega
  have e5 : (b2 * 2 ^ 56 + b3 * 2 ^ 48 + b4 * 2 ^ 40 + b5 * 2 ^ 32 + b6 * 2 ^ 24)
        ||| (b7 <<< 16)
      = b2 * 2 ^ 56 + b3 * 2 ^ 48 + b4 * 2 ^ 40 + b5 * 2 ^ 32 + b6 * 2 ^ 24 + b7 * 2 ^ 16 := by
    rw [lor_eq_add _ _ 24 (by omega) (by omega)]; omega
  have e6 : (b2 * 2 ^ 56 + b3 * 2 ^ 48 + b4 * 2 ^ 40 + b5 * 2 ^ 32 + b6 * 2 ^ 24
        + b7 * 2 ^ 16) ||| (b8 <<< 8)
      = b2 * 2 ^ 56 + b3 * 2 ^ 48 + b4 * 2 ^ 40 + b5 * 2 ^ 32 + b6 * 2 ^ 24 + b7 * 2 ^ 16
        + b8 * 2 ^ 8 := by
    rw [lor_eq_add _ _ 16 (by omega) (by omega)]; omega
  rw [e1, e2, e3, e4, e5, e6, lor_eq_add _ _ 8 (by omega) (by omega)]

/-- The value read by `UINT80_SET_TO` from ten bytes placed at offset 6 is
their big-endian value. -/
theorem u80_set_to_spec (pre ten : List Nat) (hpre : pre.length = 6) (hten : ten.length = 10)
    (hb : ∀ x ∈ ten, x < 256) :
    u80wf (UINT80_SET_TO (pre ++ ten) ULID_MILLIS_SIZE) ∧
    u80val (UINT80_SET_TO (pre ++ ten) ULID_MILLIS_SIZE) = beVal 256 ten := by
  obtain ⟨v0, v1, v2, v3, v4, v5, v6, v7, v8, v9, rfl⟩ := list10_cases ten hten
  simp only [List.mem_cons, List.not_mem_nil, or_false, forall_eq_or_imp, forall_eq] at hb
  obtain ⟨h0, h1, h2, h3, h4, h5, h6, h7, h8, h9⟩ := hb
  have hg : ∀ i, (pre ++ [v0, v1, v2, v3, v4, v5, v6, v7, v8, v9]).getD (ULID_MILLIS_SIZE + i) 0
      = [v0, v1, v2, v3, v4, v5, v6, v7, v8, v9].getD i 0 := by
    intro i
    rw [List.getD_append_right _ _ _ _ (by rw [hpre, ULID_MILLIS_SIZE]; omega), hpre,
      ULID_MILLIS_SIZE, Nat.add_sub_cancel_left]
  simp only [UINT80_SET_TO, hg, List.getD_cons_zero, List.getD_cons_succ, u80wf, u80val]
  rw [lo_set_eq v2 v3 v4 v5 v6 v7 v8 v9 h3 h4 h5 h6 h7 h8 h9, or_shl v0 v1 8 (by omega)]
  refine ⟨⟨Nat.mod_lt _ (by decide), Nat.mod_lt _ (by decide)⟩, ?_⟩
  show _ = v0 * 256 ^ 9 + (v1 * 256 ^ 8 + (v2 * 256 ^ 7 + (v3 * 256 ^ 6 + (v4 * 256 ^ 5
    + (v5 * 256 ^ 4 + (v6 * 256 ^ 3 + (v7 * 256 ^ 2 + (v8 * 256 ^ 1 + (v9 * 256 ^ 0 + 0)))))))))
  omega

theorem store_random (buf ten : List Nat) (hbuf : buf.length = 16) (hten : ten.length = 10) :
    store buf ULID_MILLIS_SIZE ten = buf.take 6 ++ ten := by
  rw [ULID_MILLIS_SIZE, store_eq ten buf 6 (by omega), List.drop_of_length_le (by omega),
    List.append_nil]

theorem millis_write_store (m : Nat) (buf ten : List Nat) (hbuf : buf.length = 16)
    (hten : ten.length = 10) :
    MILLIS_WRITE_TO m (store buf ULID_MILLIS_SIZE ten) = millisBytes m ++ ten := by
  rw [store_random buf ten hbuf hten,
    millis_write_to_eq m _ (by rw [List.length_append, List.length_take]; omega)]
  have h6 : (buf.take 6).length = 6 := by rw [List.length_take]; omega
  rw [List.drop_append_of_le_length (by omega), List.drop_of_length_le (by omega),
    List.nil_append]
  rfl

theorem isRaw_id (m : Nat) (ten : List Nat) (hten : ten.length = 10)
    (hb : ∀ x ∈ ten, x < 256) : IsRaw (millisBytes m ++ ten) := by
  refine ⟨by rw [List.length_append, millisBytes_length, hten], ?_⟩
  intro x hx
  rcases List.mem_append.1 hx with h | h
  · exact millisBytes_lt m x h
  · exact hb x h

theorem timestampField_id (m : Nat) (ten : List Nat) :
    timestampField (millisBytes m ++ ten) = m % 2 ^ 48 := by
  have e : (millisBytes m ++ ten).take 6 = millisBytes m := rfl
  rw [timestampField, e, beVal_millisBytes]

theorem randomField_id (m : Nat) (ten : List Nat) :
    randomField (millisBytes m ++ ten) = beVal 256 ten := by
  have e : (millisBytes m ++ ten).drop 6 = ten := rfl
  rw [randomField, e]

/-- The 128-bit value of a raw ULID in terms of its two fields. -/
theorem beVal_fields (r : List Nat) (hr : IsRaw r) :
    beVal 256 r = timestampField r * 2 ^ 80 + randomField r ∧ randomField r < 2 ^ 80 := by
  obtain ⟨e, b⟩ := beVal_split r hr
  have p : (256 : Nat) ^ 10 = 2 ^ 80 := by norm_num
  rw [p] at e b
  exact ⟨e, b⟩

theorem compare_neg_iff_beVal (a b : List Nat) (ha : IsRaw a) (hb : IsRaw b) :
    ulid_compare a b < 0 ↔ beVal 256 a < beVal 256 b :=
  (memcmp_neg_iff a b 16 ha.1 hb.1).trans
    (lt_iff_beVal_lt 256 a b (by rw [ha.1, hb.1]) ha.2 hb.2)

/-- The early return of `ulid_new_internal` when the clock fails. -/
theorem new_internal_clock_fail (c : ulid_ctx) (mf : Nat → Int × Nat)
    (rf : Nat → Int × List Nat) (w : World) (buf : List Nat)
    (h : (mf w.millis_calls).1 ≠ 0) :
    ulid_new_internal c mf rf w buf
      = { ret := (mf w.millis_calls).1, ctx := c,
          world := { w with millis_calls := w.millis_calls + 1 }, buffer := buf } := by
  simp only [ulid_new_internal, h, ne_eq, not_false_eq_true, if_true]

/-- The increment path of `ulid_new_internal`. -/
theorem new_internal_increment (c : ulid_ctx) (mf : Nat → Int × Nat)
    (rf : Nat → Int × List Nat) (w : World) (buf : List Nat) (hbuf : buf.length = 16)
    (h : (mf w.millis_calls).1 = 0) (hm : c.is_monotonic ≠ 0)
    (hz : UINT80_IS_ZERO c._PRIVATE_last_random = false)
    (hle : (mf w.millis_calls).2 ≤ c._PRIVATE_last_time) :
    ulid_new_internal c mf rf w buf
      = { ret := (UINT80_ADD1 c._PRIVATE_last_random).2,
          ctx := { c with _PRIVATE_last_random := (UINT80_ADD1 c._PRIVATE_last_random).1 },
          world := { w with millis_calls := w.millis_calls + 1 },
          buffer := millisBytes (mf w.millis_calls).2
            ++ u80Bytes (UINT80_ADD1 c._PRIVATE_last_random).1 } := by
  have e : MILLIS_WRITE_TO (mf w.millis_calls).2
      (UINT80_WRITE_TO (UINT80_ADD1 c._PRIVATE_last_random).1 buf ULID_MILLIS_SIZE)
      = millisBytes (mf w.millis_calls).2
        ++ u80Bytes (UINT80_ADD1 c._PRIVATE_last_random).1 :=
    millis_write_store _ buf (u80Bytes _) hbuf rfl
  simp only [ulid_new_internal, h, ne_eq, not_true_eq_false, if_false, hm, not_false_eq_true,
    if_true, hz, Bool.not_false, Bool.true_and, decide_eq_true_eq, hle, e]

/-- The call of `random_func` on a 16-byte buffer, when the provider leaves ten
bytes. -/
theorem call_random_eq (rf : Nat → Int × List Nat) (w : World) (buf : List Nat)
    (hbuf : buf.length = 16) (hten : (rf w.random_calls).2.length = 10) :
    call_random rf w buf
      = ((rf w.random_calls).1, { w with random_calls := w.random_calls + 1 },
          buf.take 6 ++ (rf w.random_calls).2) := by
  rw [call_random, ULID_RANDOM_SIZE, List.take_of_length_le (by omega),
    store_random buf _ hbuf hten]

/-- The fresh-draw path of `ulid_new_internal` in monotonic mode. -/
theorem new_internal_fresh (c : ulid_ctx) (mf : Nat → Int × Nat)
    (rf : Nat → Int × List Nat) (w : World) (buf : List Nat) (hbuf : buf.length = 16)
    (h : (mf w.millis_calls).1 = 0) (hm : c.is_monotonic ≠ 0)
    (hten : (rf w.random_calls).2.length = 10)
    (hnot : UINT80_IS_ZERO c._PRIVATE_last_random = true ∨
      c._PRIVATE_last_time < (mf w.millis_calls).2) :
    ulid_new_internal c mf rf w buf
      = { ret := (rf w.random_calls).1,
          ctx := { c with
            _PRIVATE_last_time := (mf w.millis_calls).2,
            _PRIVATE_last_random :=
              UINT80_SET_TO (buf.take 6 ++ (rf w.random_calls).2) ULID_MILLIS_SIZE },
          world := { millis_calls := w.millis_calls + 1, random_calls := w.random_calls + 1 },
          buffer := millisBytes (mf w.millis_calls).2 ++ (rf w.random_calls).2 } := by
  have hc : (!UINT80_IS_ZERO c._PRIVATE_last_random &&
      decide ((mf w.millis_calls).2 ≤ c._PRIVATE_last_time)) = false := by
    rcases hnot with h1 | h1
    · rw [h1]; rfl
    · rw [Bool.and_eq_false_iff]
      right
      exact decide_eq_false (by omega)
  have hw : ({ w with millis_calls := w.millis_calls + 1 } : World).random_calls
      = w.random_calls := rfl
  have e := call_random_eq rf { w with millis_calls := w.millis_calls + 1 } buf hbuf
    (by rw [hw]; exact hten)
  rw [hw] at e
  have e2 : MILLIS_WRITE_TO (mf w.millis_calls).2 (buf.take 6 ++ (rf w.random_calls).2)
      = millisBytes (mf w.millis_calls).2 ++ (rf w.random_calls).2 := by
    rw [← store_random buf _ hbuf hten]
    exact millis_write_store _ buf _ hbuf hten
  simp only [ulid_new_internal, h, ne_eq, not_true_eq_false, if_false, hm, not_false_eq_true,
    if_true, hc, Bool.false_eq_true, e, e2]

/-- The function `ulid_new_internal` in stateless mode. -/
theorem new_internal_stateless (c : ulid_ctx) (mf : Nat → Int × Nat)
    (rf : Nat → Int × List Nat) (w : World) (buf : List Nat) (hbuf : buf.length = 16)
    (h : (mf w.millis_calls).1 = 0) (hm : c.is_monotonic = 0)
    (hten : (rf w.random_calls).2.length = 10) :
    ulid_new_internal c mf rf w buf
      = { ret := (rf w.random_calls).1,
          ctx := c,
          world := { millis_calls := w.millis_calls + 1, random_calls := w.random_calls + 1 },
          buffer := millisBytes (mf w.millis_calls).2 ++ (rf w.random_calls).2 } := by
  have hw : ({ w with millis_calls := w.millis_calls + 1 } : World).random_calls
      = w.random_calls := rfl
  have e := call_random_eq rf { w with millis_calls := w.millis_calls + 1 } buf hbuf
    (by rw [hw]; exact hten)
  rw [hw] at e
  have e2 : MILLIS_WRITE_TO (mf w.millis_calls).2 (buf.take 6 ++ (rf w.random_calls).2)
      = millisBytes (mf w.millis_calls).2 ++ (rf w.random_calls).2 := by
    rw [← store_random buf _ hbuf hten]
    exact millis_write_store _ buf _ hbuf hten
  simp only [ulid_new_internal, h, ne_eq, not_true_eq_false, if_false, hm, e, e2]

/-- A call of `ulid_new` with a valid context and buffer is a call of
`ulid_new_internal`. -/
theorem ulid_new_valid (c : ulid_ctx) (mf : Nat → Int × Nat) (rf : Nat → Int × List Nat)
    (w : World) (buf : List Nat) (hmf : c.millis_func = some mf)
    (hrf : c.random_func = some rf) :
    ulid_new (some c) w (some buf)
      = { ret := (ulid_new_internal c mf rf w buf).ret,
          ctx := some (ulid_new_internal c mf rf w buf).ctx,
          world := (ulid_new_internal c mf rf w buf).world,
          buffer := some (ulid_new_internal c mf rf w buf).buffer } := by
  simp only [ulid_new, hmf, hrf]


/-- One call of `ulid_new_internal` in monotonic mode after the clock has
answered: what it leaves in the context, the buffer and the providers, on the
increment path and on the fresh-draw path. -/
theorem mono_step (c : ulid_ctx) (mf : Nat → Int × Nat) (rf : Nat → Int × List Nat)
    (w : World) (buf : List Nat) (r : NewResult) (hr : r = ulid_new_internal c mf rf w buf)
    (hbuf : buf.length = 16) (h : (mf w.millis_calls).1 = 0) (hm : c.is_monotonic ≠ 0)
    (hwf : u80wf c._PRIVATE_last_random) (hten : (rf w.random_calls).2.length = 10)
    (hb : ∀ x ∈ (rf w.random_calls).2, x < 256) :
    r.ctx.millis_func = c.millis_func ∧ r.ctx.random_func = c.random_func ∧
    r.ctx.is_monotonic = c.is_monotonic ∧ u80wf r.ctx._PRIVATE_last_random ∧
    IsRaw r.buffer ∧ timestampField r.buffer = (mf w.millis_calls).2 % 2 ^ 48 ∧
    randomField r.buffer = u80val r.ctx._PRIVATE_last_random ∧
    r.world.millis_calls = w.millis_calls + 1 ∧
    ((u80val c._PRIVATE_last_random ≠ 0 ∧ (mf w.millis_calls).2 ≤ c._PRIVATE_last_time) →
      r.ret = (if u80val c._PRIVATE_last_random = 2 ^ 80 - 1 then 1 else 0) ∧
      r.ctx._PRIVATE_last_time = c._PRIVATE_last_time ∧
      u80val r.ctx._PRIVATE_last_random = (u80val c._PRIVATE_last_random + 1) % 2 ^ 80 ∧
      r.world.random_calls = w.random_calls) ∧
    (¬ (u80val c._PRIVATE_last_random ≠ 0 ∧ (mf w.millis_calls).2 ≤ c._PRIVATE_last_time) →
      r.ret = (rf w.random_calls).1 ∧
      r.ctx._PRIVATE_last_time = (mf w.millis_calls).2 ∧
      u80val r.ctx._PRIVATE_last_random = beVal 256 (rf w.random_calls).2 ∧
      r.world.random_calls = w.random_calls + 1) := by
  by_cases hcase : u80val c._PRIVATE_last_random ≠ 0 ∧
      (mf w.millis_calls).2 ≤ c._PRIVATE_last_time
  · obtain ⟨hnz, hle⟩ := hcase
    have hz := (u80_is_zero_false_iff _).2 hnz
    rw [new_internal_increment c mf rf w buf hbuf h hm hz hle] at hr
    obtain ⟨a1, a2, a3⟩ := u80_add1_spec _ hwf
    subst hr
    refine ⟨rfl, rfl, rfl, a1, isRaw_id _ _ rfl (u80Bytes_lt _), timestampField_id _ _, ?_, rfl,
      fun _ => ⟨a3, rfl, a2, rfl⟩, fun hn => absurd ⟨hnz, hle⟩ hn⟩
    rw [randomField_id]
    exact beVal_u80Bytes _ a1
  · have hnot : UINT80_IS_ZERO c._PRIVATE_last_random = true ∨
        c._PRIVATE_last_time < (mf w.millis_calls).2 := by
      by_cases hv : u80val c._PRIVATE_last_random = 0
      · exact Or.inl ((u80_is_zero_iff _).2 hv)
      · right
        by_contra hlt
        exact hcase ⟨hv, by omega⟩
    rw [new_internal_fresh c mf rf w buf hbuf h hm hten hnot] at hr
    have h6 : (buf.take 6).length = 6 := by rw [List.length_take]; omega
    obtain ⟨s1, s2⟩ := u80_set_to_spec (buf.take 6) _ h6 hten hb
    subst hr
    refine ⟨rfl, rfl, rfl, s1, isRaw_id _ _ hten hb, timestampField_id _ _, ?_,
      rfl, fun hc => absurd hc hcase, fun _ => ⟨rfl, rfl, s2, rfl⟩⟩
    rw [randomField_id]
    exact s2.symm

theorem stateBefore_succ (ctx : Option ulid_ctx) (w : World) (bufs : Nat → List Nat)
    (k : Nat) :
    stateBefore ctx w bufs (k + 1)
      = ((nthCall ctx w bufs k).ctx, (nthCall ctx w bufs k).world) := rfl

theorem u80wf_zero : u80wf { hi := 0, lo := 0 } := by
  unfold u80wf
  constructor <;> norm_num

theorem u80val_zero : u80val { hi := 0, lo := 0 } = 0 := by
  simp only [u80val, Nat.zero_mul, Nat.add_zero]

theorem monoInv_zero (mf : Nat → Int × Nat) (rf : Nat → Int × List Nat) (mono : Int)
    (bufs : Nat → List Nat) : MonoInv mf rf mono bufs 0 :=
  ⟨zeroCtx mf rf mono, rfl, rfl, rfl, rfl,
    u80wf_zero, rfl,
    Nat.le_refl _, fun _ => u80val_zero, fun j hj => absurd hj (by omega)⟩

/-- One more successful call of a monotonic generator fed by a non-decreasing
clock below `2 ^ 48` and non-zero random draws: the invariant is kept and the
new identifier has a larger 128-bit value than the one before. -/
theorem run_step (mf : Nat → Int × Nat) (rf : Nat → Int × List Nat) (mono : Int)
    (bufs : Nat → List Nat) (n k : Nat) (hmono : mono ≠ 0)
    (hbufs : ∀ i, i < n → (bufs i).length = 16)
    (hclock : ∀ i, i < n → (mf i).2 < 2 ^ 48)
    (hnondec : ∀ i, i + 1 < n → (mf i).2 ≤ (mf (i + 1)).2)
    (hrand : ∀ j, j < n →
      (rf j).2.length = 10 ∧ (∀ x ∈ (rf j).2, x < 256) ∧ beVal 256 (rf j).2 ≠ 0)
    (hret : ∀ i, i < n → (nthCall (some (zeroCtx mf rf mono)) ⟨0, 0⟩ bufs i).ret = 0)
    (hk : k < n) (hinv : MonoInv mf rf mono bufs k) :
    MonoInv mf rf mono bufs (k + 1) ∧
    (∀ j, k = j + 1 →
      beVal 256 (nthId (some (zeroCtx mf rf mono)) ⟨0, 0⟩ bufs j)
        < beVal 256 (nthId (some (zeroCtx mf rf mono)) ⟨0, 0⟩ bufs k)) := by
  obtain ⟨c, hs, hmf, hrf, hmo, hwf, hmc, hrc, h0, hprev⟩ := hinv
  have hcall : nthCall (some (zeroCtx mf rf mono)) ⟨0, 0⟩ bufs k
      = ulid_new (some c) (stateBefore (some (zeroCtx mf rf mono)) ⟨0, 0⟩ bufs k).2
          (some (bufs k)) := by
    rw [nthCall, hs]
  rw [ulid_new_valid c mf rf _ (bufs k) hmf hrf] at hcall
  generalize hw : (stateBefore (some (zeroCtx mf rf mono)) ⟨0, 0⟩ bufs k).2 = w at *
  generalize hrdef : ulid_new_internal c mf rf w (bufs k) = r at *
  have hr0 : r.ret = 0 := by
    have := hret k hk
    rw [hcall] at this
    exact this
  have hcode : (mf w.millis_calls).1 = 0 := by
    by_contra hne
    rw [new_internal_clock_fail c mf rf w (bufs k) hne] at hrdef
    rw [← hrdef] at hr0
    exact hne hr0
  have hrw : w.random_calls < n := by omega
  obtain ⟨hten, hbytes, hnz⟩ := hrand _ hrw
  obtain ⟨m1, m2, m3, m4, m5, m6, m7, m8, minc, mfresh⟩ :=
    mono_step c mf rf w (bufs k) r hrdef.symm (hbufs k hk) hcode (by rw [hmo]; exact hmono)
      hwf hten hbytes
  have hid : nthId (some (zeroCtx mf rf mono)) ⟨0, 0⟩ bufs k = r.buffer := by
    rw [nthId, hcall]
    rfl
  have hmk : (mf w.millis_calls).2 < 2 ^ 48 := by rw [hmc]; exact hclock k hk
  rw [Nat.mod_eq_of_lt hmk] at m6
  rw [hmc] at m6 minc mfresh hmk
  have hst : stateBefore (some (zeroCtx mf rf mono)) ⟨0, 0⟩ bufs (k + 1)
      = (some r.ctx, r.world) := by
    rw [stateBefore_succ, hcall]
  by_cases hcase : u80val c._PRIVATE_last_random ≠ 0 ∧ (mf k).2 ≤ c._PRIVATE_last_time
  · obtain ⟨i1, i2, i3, i4⟩ := minc hcase
    have hkpos : k ≠ 0 := fun hk0 => hcase.1 (h0 hk0)
    obtain ⟨j, hj⟩ : ∃ j, k = j + 1 := ⟨k - 1, by omega⟩
    obtain ⟨p1, p2, p3, p4, p5, p6⟩ := hprev j hj
    have hnd := hnondec j (by omega)
    rw [← hj] at hnd
    have hnomax : u80val c._PRIVATE_last_random ≠ 2 ^ 80 - 1 := by
      intro hmax
      rw [hr0, if_pos hmax] at i1
      exact absurd i1 (by decide)
    have hlt80 : u80val c._PRIVATE_last_random < 2 ^ 80 := by
      obtain ⟨a, b⟩ := hwf
      rw [u80val]
      omega
    have hval : u80val r.ctx._PRIVATE_last_random = u80val c._PRIVATE_last_random + 1 := by
      rw [i3]
      exact Nat.mod_eq_of_lt (by omega)
    refine ⟨⟨r.ctx, by rw [hst], m1.trans hmf, m2.trans hrf, m3.trans hmo, m4,
      by rw [hst]; exact m8.trans (by rw [hmc]), by rw [hst]; show r.world.random_calls ≤ k + 1; omega,
      fun hz => absurd hz (by omega), ?_⟩, ?_⟩
    · intro j2 hj2
      have e : j2 = k := by omega
      subst e
      refine ⟨by rw [hcall], by rw [hid]; exact m5, by rw [hid]; exact m7.symm,
        by rw [hid, m6, i2]; omega, by rw [i2]; omega, by rw [hval]; omega⟩
    · intro j2 hj2
      have e : j2 = j := by omega
      subst e
      obtain ⟨f1, f2⟩ := beVal_fields _ p2
      obtain ⟨g1, g2⟩ := beVal_fields _ m5
      rw [hid, f1, g1, m6, m7, hval, ← p3, ← p4]
      have : (mf k).2 = c._PRIVATE_last_time := by omega
      rw [this]
      omega
  · obtain ⟨i1, i2, i3, i4⟩ := mfresh hcase
    refine ⟨⟨r.ctx, by rw [hst], m1.trans hmf, m2.trans hrf, m3.trans hmo, m4,
      by rw [hst]; exact m8.trans (by rw [hmc]), by rw [hst]; show r.world.random_calls ≤ k + 1; omega,
      fun hz => absurd hz (by omega), ?_⟩, ?_⟩
    · intro j2 hj2
      have e : j2 = k := by omega
      subst e
      refine ⟨by rw [hcall], by rw [hid]; exact m5, by rw [hid]; exact m7.symm,
        by rw [hid, m6, i2], i2, by rw [i3]; exact hnz⟩
    · intro j hj
      obtain ⟨p1, p2, p3, p4, p5, p6⟩ := hprev j hj
      obtain ⟨f1, f2⟩ := beVal_fields _ p2
      obtain ⟨g1, g2⟩ := beVal_fields _ m5
      have hgt : c._PRIVATE_last_time < (mf k).2 := by
        by_contra hle
        exact hcase ⟨p6, by omega⟩
      rw [hid, f1, g1, m6, ← p4]
      have hmul : (c._PRIVATE_last_time + 1) * 2 ^ 80 ≤ (mf k).2 * 2 ^ 80 :=
        Nat.mul_le_mul_right _ hgt
      omega


/-- The invariant holds before every call of a run whose calls all return 0. -/
theorem run_inv (mf : Nat → Int × Nat) (rf : Nat → Int × List Nat) (mono : Int)
    (bufs : Nat → List Nat) (n : Nat) (hmono : mono ≠ 0)
    (hbufs : ∀ i, i < n → (bufs i).length = 16)
    (hclock : ∀ i, i < n → (mf i).2 < 2 ^ 48)
    (hnondec : ∀ i, i + 1 < n → (mf i).2 ≤ (mf (i + 1)).2)
    (hrand : ∀ j, j < n →
      (rf j).2.length = 10 ∧ (∀ x ∈ (rf j).2, x < 256) ∧ beVal 256 (rf j).2 ≠ 0)
    (hret : ∀ i, i < n → (nthCall (some (zeroCtx mf rf mono)) ⟨0, 0⟩ bufs i).ret = 0) :
    ∀ k, k ≤ n → MonoInv mf rf mono bufs k := by
  intro k
  induction k with
  | zero => intro _; exact monoInv_zero mf rf mono bufs
  | succ k ih =>
    intro hk
    exact (run_step mf rf mono bufs n k hmono hbufs hclock hnondec hrand hret (by omega)
      (ih (by omega))).1

/-- In such a run the 128-bit values of consecutive identifiers increase. -/
theorem run_increasing (mf : Nat → Int × Nat) (rf : Nat → Int × List Nat) (mono : Int)
    (bufs : Nat → List Nat) (n : Nat) (hmono : mono ≠ 0)
    (hbufs : ∀ i, i < n → (bufs i).length = 16)
    (hclock : ∀ i, i < n → (mf i).2 < 2 ^ 48)
    (hnondec : ∀ i, i + 1 < n → (mf i).2 ≤ (mf (i + 1)).2)
    (hrand : ∀ j, j < n →
      (rf j).2.length = 10 ∧ (∀ x ∈ (rf j).2, x < 256) ∧ beVal 256 (rf j).2 ≠ 0)
    (hret : ∀ i, i < n → (nthCall (some (zeroCtx mf rf mono)) ⟨0, 0⟩ bufs i).ret = 0)
    (k : Nat) (hk : k + 1 < n) :
    beVal 256 (nthId (some (zeroCtx mf rf mono)) ⟨0, 0⟩ bufs k)
      < beVal 256 (nthId (some (zeroCtx mf rf mono)) ⟨0, 0⟩ bufs (k + 1)) :=
  (run_step mf rf mono bufs n (k + 1) hmono hbufs hclock hnondec hrand hret hk
    (run_inv mf rf mono bufs n hmono hbufs hclock hnondec hrand hret (k + 1) (by omega))).2
    k rfl

/-- Facts on the `k`-th call of such a run: the identifier is a raw ULID and the
context left by the call stores its two fields. -/
theorem run_after (mf : Nat → Int × Nat) (rf : Nat → Int × List Nat) (mono : Int)
    (bufs : Nat → List Nat) (n : Nat) (hmono : mono ≠ 0)
    (hbufs : ∀ i, i < n → (bufs i).length = 16)
    (hclock : ∀ i, i < n → (mf i).2 < 2 ^ 48)
    (hnondec : ∀ i, i + 1 < n → (mf i).2 ≤ (mf (i + 1)).2)
    (hrand : ∀ j, j < n →
      (rf j).2.length = 10 ∧ (∀ x ∈ (rf j).2, x < 256) ∧ beVal 256 (rf j).2 ≠ 0)
    (hret : ∀ i, i < n → (nthCall (some (zeroCtx mf rf mono)) ⟨0, 0⟩ bufs i).ret = 0)
    (k : Nat) (hk : k < n) :
    IsRaw (nthId (some (zeroCtx mf rf mono)) ⟨0, 0⟩ bufs k) ∧
    ∃ c, (nthCall (some (zeroCtx mf rf mono)) ⟨0, 0⟩ bufs k).ctx = some c ∧
      u80val c._PRIVATE_last_random
        = randomField (nthId (some (zeroCtx mf rf mono)) ⟨0, 0⟩ bufs k) ∧
      c._PRIVATE_last_time
        = timestampField (nthId (some (zeroCtx mf rf mono)) ⟨0, 0⟩ bufs k) := by
  obtain ⟨c, _, _, _, _, _, _, _, _, hprev⟩ :=
    run_inv mf rf mono bufs n hmono hbufs hclock hnondec hrand hret (k + 1) (by omega)
  obtain ⟨p1, p2, p3, p4, _, _⟩ := hprev k rfl
  exact ⟨p2, c, p1, p3, p4⟩

/-! ## Generator: monotonic order -/

/-- C11, as stated, fails.  With clock readings 100 then 50 and a first draw of
5, both calls of a zeroed monotonic generator return 0 and the second
identifier (timestamp 50, random 6) is smaller than the first (timestamp 100,
random 5).  With a constant clock and draws that are all zero, both calls
return 0 and the two identifiers are equal.  With clock readings `2 ^ 48 - 1`
then `2 ^ 48` and draws of 5, both calls return 0 and the second identifier,
whose timestamp field is truncated to 0, is smaller than the first. -/
theorem monotonic_order_fails :
    (nthCall (some (zeroCtx (clockOf [100, 50])
        (randomOf [[0, 0, 0, 0, 0, 0, 0, 0, 0, 5]] []) 1)) ⟨0, 0⟩ zeroBufs 0).ret = 0 ∧
    (nthCall (some (zeroCtx (clockOf [100, 50])
        (randomOf [[0, 0, 0, 0, 0, 0, 0, 0, 0, 5]] []) 1)) ⟨0, 0⟩ zeroBufs 1).ret = 0 ∧
    nthId (some (zeroCtx (clockOf [100, 50])
        (randomOf [[0, 0, 0, 0, 0, 0, 0, 0, 0, 5]] []) 1)) ⟨0, 0⟩ zeroBufs 0
      = [0, 0, 0, 0, 0, 100, 0, 0, 0, 0, 0, 0, 0, 0, 0, 5] ∧
    nthId (some (zeroCtx (clockOf [100, 50])
        (randomOf [[0, 0, 0, 0, 0, 0, 0, 0, 0, 5]] []) 1)) ⟨0, 0⟩ zeroBufs 1
      = [0, 0, 0, 0, 0, 50, 0, 0, 0, 0, 0, 0, 0, 0, 0, 6] ∧
    0 < ulid_compare
      (nthId (some (zeroCtx (clockOf [100, 50])
        (randomOf [[0, 0, 0, 0, 0, 0, 0, 0, 0, 5]] []) 1)) ⟨0, 0⟩ zeroBufs 0)
      (nthId (some (zeroCtx (clockOf [100, 50])
        (randomOf [[0, 0, 0, 0, 0, 0, 0, 0, 0, 5]] []) 1)) ⟨0, 0⟩ zeroBufs 1) ∧
    (nthCall (some (zeroCtx (clockOf [100, 100])
        (randomOf [] [0, 0, 0, 0, 0, 0, 0, 0, 0, 0]) 1)) ⟨0, 0⟩ zeroBufs 0).ret = 0 ∧
    (nthCall (some (zeroCtx (clockOf [100, 100])
        (randomOf [] [0, 0, 0, 0, 0, 0, 0, 0, 0, 0]) 1)) ⟨0, 0⟩ zeroBufs 1).ret = 0 ∧
    ulid_compare
      (nthId (some (zeroCtx (clockOf [100, 100])
        (randomOf [] [0, 0, 0, 0, 0, 0, 0, 0, 0, 0]) 1)) ⟨0, 0⟩ zeroBufs 0)
      (nthId (some (zeroCtx (clockOf [100, 100])
        (randomOf [] [0, 0, 0, 0, 0, 0, 0, 0, 0, 0]) 1)) ⟨0, 0⟩ zeroBufs 1) = 0 ∧
    (nthCall (some (zeroCtx (clockOf [281474976710655, 281474976710656])
        (randomOf [] [0, 0, 0, 0, 0, 0, 0, 0, 0, 5]) 1)) ⟨0, 0⟩ zeroBufs 0).ret = 0 ∧
    (nthCall (some (zeroCtx (clockOf [281474976710655, 281474976710656])
        (randomOf [] [0, 0, 0, 0, 0, 0, 0, 0, 0, 5]) 1)) ⟨0, 0⟩ zeroBufs 1).ret = 0 ∧
    0 < ulid_compare
      (nthId (some (zeroCtx (clockOf [281474976710655, 281474976710656])
        (randomOf [] [0, 0, 0, 0, 0, 0, 0, 0, 0, 5]) 1)) ⟨0, 0⟩ zeroBufs 0)
      (nthId (some (zeroCtx (clockOf [281474976710655, 281474976710656])
        (randomOf [] [0, 0, 0, 0, 0, 0, 0, 0, 0, 5]) 1)) ⟨0, 0⟩ zeroBufs 1) := by
  decide

/-- C11, amended: for a zero-initialised monotonic context, clock readings that
never decrease and stay below `2 ^ 48`, and random draws that are ten bytes of
non-zero value, if each of the first `n` calls of `ulid_new` returns 0 then any
identifier produced earlier compares strictly less than any produced later. -/
theorem monotonic_order (mf : Nat → Int × Nat) (rf : Nat → Int × List Nat) (mono : Int)
    (bufs : Nat → List Nat) (n : Nat) (hmono : mono ≠ 0)
    (hbufs : ∀ i, i < n → (bufs i).length = 16)
    (hclock : ∀ i, i < n → (mf i).2 < 2 ^ 48)
    (hnondec : ∀ i, i + 1 < n → (mf i).2 ≤ (mf (i + 1)).2)
    (hrand : ∀ j, j < n →
      (rf j).2.length = 10 ∧ (∀ x ∈ (rf j).2, x < 256) ∧ beVal 256 (rf j).2 ≠ 0)
    (hret : ∀ i, i < n → (nthCall (some (zeroCtx mf rf mono)) ⟨0, 0⟩ bufs i).ret = 0)
    (i j : Nat) (hij : i < j) (hj : j < n) :
    ulid_compare (nthId (some (zeroCtx mf rf mono)) ⟨0, 0⟩ bufs i)
      (nthId (some (zeroCtx mf rf mono)) ⟨0, 0⟩ bufs j) < 0 := by
  have hraw := fun k hk =>
    (run_after mf rf mono bufs n hmono hbufs hclock hnondec hrand hret k hk).1
  rw [compare_neg_iff_beVal _ _ (hraw i (by omega)) (hraw j hj)]
  have chain : ∀ d, i + d + 1 < n →
      beVal 256 (nthId (some (zeroCtx mf rf mono)) ⟨0, 0⟩ bufs i)
        < beVal 256 (nthId (some (zeroCtx mf rf mono)) ⟨0, 0⟩ bufs (i + d + 1)) := by
    intro d
    induction d with
    | zero =>
      intro hd
      exact run_increasing mf rf mono bufs n hmono hbufs hclock hnondec hrand hret i hd
    | succ d ih =>
      intro hd
      exact Nat.lt_trans (ih (by omega))
        (run_increasing mf rf mono bufs n hmono hbufs hclock hnondec hrand hret (i + d + 1) hd)
  have e : j = i + (j - i - 1) + 1 := by omega
  rw [e]
  exact chain (j - i - 1) (by omega)

/-- C11, amended, on four calls with clock readings 100, 100, 100, 101: the
first identifier compares below the fourth. -/
theorem monotonic_order_witness :
    ulid_compare
      (nthId (some (zeroCtx (clockOf [100, 100, 100, 101])
        (randomOf [[0, 0, 0, 0, 0, 0, 0, 0, 0, 5]] [9, 9, 9, 9, 9, 9, 9, 9, 9, 9]) 1))
        ⟨0, 0⟩ zeroBufs 0)
      (nthId (some (zeroCtx (clockOf [100, 100, 100, 101])
        (randomOf [[0, 0, 0, 0, 0, 0, 0, 0, 0, 5]] [9, 9, 9, 9, 9, 9, 9, 9, 9, 9]) 1))
        ⟨0, 0⟩ zeroBufs 3) < 0 :=
  monotonic_order (clockOf [100, 100, 100, 101])
    (randomOf [[0, 0, 0, 0, 0, 0, 0, 0, 0, 5]] [9, 9, 9, 9, 9, 9, 9, 9, 9, 9]) 1 zeroBufs 4
    (by decide) (by decide) (by decide)
    (by intro i hi; have h3 : i < 3 := by omega
        interval_cases i <;> decide)
    (by decide) (by decide) 0 3 (by decide)
    (by decide)

/-- C20: for a zero-initialised monotonic context, if the clock readings never
decrease and stay below `2 ^ 48`, every value delivered by `random_func` is
ten bytes of non-zero value, and each of the first `n` calls of `ulid_new`
returns 0, then after every call the stored `last_random` is the random field
of the identifier just written and `last_time` is its timestamp field, and the
identifier of each call compares strictly below that of the next call. -/
theorem monotonic_consecutive (mf : Nat → Int × Nat) (rf : Nat → Int × List Nat)
    (mono : Int) (bufs : Nat → List Nat) (n : Nat) (hmono : mono ≠ 0)
    (hbufs : ∀ i, i < n → (bufs i).length = 16)
    (hclock : ∀ i, i < n → (mf i).2 < 2 ^ 48)
    (hnondec : ∀ i, i + 1 < n → (mf i).2 ≤ (mf (i + 1)).2)
    (hrand : ∀ j, j < n →
      (rf j).2.length = 10 ∧ (∀ x ∈ (rf j).2, x < 256) ∧ beVal 256 (rf j).2 ≠ 0)
    (hret : ∀ i, i < n → (nthCall (some (zeroCtx mf rf mono)) ⟨0, 0⟩ bufs i).ret = 0)
    (k : Nat) (hk : k < n) :
    (∃ c, (nthCall (some (zeroCtx mf rf mono)) ⟨0, 0⟩ bufs k).ctx = some c ∧
      u80val c._PRIVATE_last_random
        = randomField (nthId (some (zeroCtx mf rf mono)) ⟨0, 0⟩ bufs k) ∧
      c._PRIVATE_last_time
        = timestampField (nthId (some (zeroCtx mf rf mono)) ⟨0, 0⟩ bufs k)) ∧
    (k + 1 < n →
      ulid_compare (nthId (some (zeroCtx mf rf mono)) ⟨0, 0⟩ bufs k)
        (nthId (some (zeroCtx mf rf mono)) ⟨0, 0⟩ bufs (k + 1)) < 0) := by
  have hafter := run_after mf rf mono bufs n hmono hbufs hclock hnondec hrand hret
  refine ⟨(hafter k hk).2, fun hk1 => ?_⟩
  rw [compare_neg_iff_beVal _ _ (hafter k hk).1 (hafter (k + 1) hk1).1]
  exact run_increasing mf rf mono bufs n hmono hbufs hclock hnondec hrand hret k hk1

/-- C20 on four calls with clock readings 100, 100, 100, 101: the third
identifier compares below the fourth. -/
theorem monotonic_consecutive_witness :
    ulid_compare
      (nthId (some (zeroCtx (clockOf [100, 100, 100, 101])
        (randomOf [[0, 0, 0, 0, 0, 0, 0, 0, 0, 5]] [9, 9, 9, 9, 9, 9, 9, 9, 9, 9]) 1))
        ⟨0, 0⟩ zeroBufs 2)
      (nthId (some (zeroCtx (clockOf [100, 100, 100, 101])
        (randomOf [[0, 0, 0, 0, 0, 0, 0, 0, 0, 5]] [9, 9, 9, 9, 9, 9, 9, 9, 9, 9]) 1))
        ⟨0, 0⟩ zeroBufs 3) < 0 :=
  (monotonic_consecutive (clockOf [100, 100, 100, 101])
    (randomOf [[0, 0, 0, 0, 0, 0, 0, 0, 0, 5]] [9, 9, 9, 9, 9, 9, 9, 9, 9, 9]) 1 zeroBufs 4
    (by decide) (by decide) (by decide)
    (by intro i hi; have h3 : i < 3 := by omega
        interval_cases i <;> decide)
    (by decide) (by decide) 2
    (by decide)).2 (by decide)


/-! ## Generator: single calls -/

/-- C14: in monotonic mode, when the clock answers with a reading that does not
exceed `last_time` and the stored `last_random` is non-zero, `ulid_new` does not
consult `random_func`; it returns 1 if `last_random` is `0xFFFF_FFFFFFFFFFFFFFFF`
(the counter wraps, which is reported as an error, not as success) and 0 for
every other non-zero `last_random`. -/
theorem exhaustion_is_reported (c : ulid_ctx) (mf : Nat → Int × Nat)
    (rf : Nat → Int × List Nat) (w : World) (buf : List Nat)
    (hmf : c.millis_func = some mf) (hrf : c.random_func = some rf)
    (hbuf : buf.length = 16) (hcode : (mf w.millis_calls).1 = 0)
    (hm : c.is_monotonic ≠ 0) (hwf : u80wf c._PRIVATE_last_random)
    (hnz : UINT80_IS_ZERO c._PRIVATE_last_random = false)
    (hle : (mf w.millis_calls).2 ≤ c._PRIVATE_last_time) :
    (ulid_new (some c) w (some buf)).world.random_calls = w.random_calls ∧
    (c._PRIVATE_last_random.hi = 0xFFFF ∧ c._PRIVATE_last_random.lo = 2 ^ 64 - 1 →
      (ulid_new (some c) w (some buf)).ret = 1) ∧
    (¬ (c._PRIVATE_last_random.hi = 0xFFFF ∧ c._PRIVATE_last_random.lo = 2 ^ 64 - 1) →
      (ulid_new (some c) w (some buf)).ret = 0) ∧
    ((ulid_new (some c) w (some buf)).ret ≠ 0 ↔
      (c._PRIVATE_last_random.hi = 0xFFFF ∧ c._PRIVATE_last_random.lo = 2 ^ 64 - 1)) := by
  rw [ulid_new_valid c mf rf w buf hmf hrf,
    new_internal_increment c mf rf w buf hbuf hcode hm hnz hle]
  obtain ⟨_, _, a3⟩ := u80_add1_spec _ hwf
  obtain ⟨hhi, hlo⟩ := hwf
  have hiff : u80val c._PRIVATE_last_random = 2 ^ 80 - 1 ↔
      (c._PRIVATE_last_random.hi = 0xFFFF ∧ c._PRIVATE_last_random.lo = 2 ^ 64 - 1) := by
    rw [u80val]
    omega
  have hret : (UINT80_ADD1 c._PRIVATE_last_random).2
      = if c._PRIVATE_last_random.hi = 0xFFFF ∧ c._PRIVATE_last_random.lo = 2 ^ 64 - 1
        then 1 else 0 := by
    rw [a3]
    simp only [hiff]
  refine ⟨rfl, fun h => ?_, fun h => ?_, ?_⟩
  · show (UINT80_ADD1 c._PRIVATE_last_random).2 = 1
    rw [hret, if_pos h]
  · show (UINT80_ADD1 c._PRIVATE_last_random).2 = 0
    rw [hret, if_neg h]
  · show (UINT80_ADD1 c._PRIVATE_last_random).2 ≠ 0 ↔ _
    rw [hret]
    by_cases h : c._PRIVATE_last_random.hi = 0xFFFF ∧ c._PRIVATE_last_random.lo = 2 ^ 64 - 1
    · simp only [if_pos h, ne_eq, one_ne_zero, not_false_eq_true, true_iff]
      exact h
    · simp only [if_neg h, ne_eq, not_true_eq_false, false_iff]
      exact h

/-- C14 at `last_random = 0xFFFF_FFFFFFFFFFFFFFFF`, `last_time = 100` and a clock
reading of 100: the call returns 1. -/
theorem exhaustion_is_reported_witness :
    (ulid_new
      (some
        { millis_func := some (clockOf [100]),
          random_func := some (randomOf [] [1, 1, 1, 1, 1, 1, 1, 1, 1, 1]),
          is_monotonic := 1, _PRIVATE_last_time := 100,
          _PRIVATE_last_random := { hi := 0xFFFF, lo := 2 ^ 64 - 1 } })
      ⟨0, 0⟩ (some (List.replicate 16 0))).ret = 1 :=
  (exhaustion_is_reported
      { millis_func := some (clockOf [100]),
        random_func := some (randomOf [] [1, 1, 1, 1, 1, 1, 1, 1, 1, 1]),
        is_monotonic := 1, _PRIVATE_last_time := 100,
        _PRIVATE_last_random := { hi := 0xFFFF, lo := 2 ^ 64 - 1 } }
      (clockOf [100]) (randomOf [] [1, 1, 1, 1, 1, 1, 1, 1, 1, 1]) ⟨0, 0⟩
      (List.replicate 16 0) rfl rfl (by decide) (by decide) (by decide)
      ⟨by norm_num, by norm_num⟩ (by decide) (by decide)).2.1 ⟨rfl, rfl⟩

/-- C15: in stateless mode, when the clock and the random source both return 0,
`ulid_new` returns 0, writes the identifier that `ulid_parse` builds from the
clock reading and the ten random bytes, and leaves the context as it was. -/
theorem stateless_new (c : ulid_ctx) (mf : Nat → Int × Nat) (rf : Nat → Int × List Nat)
    (w : World) (buf : List Nat) (hmf : c.millis_func = some mf)
    (hrf : c.random_func = some rf) (hbuf : buf.length = 16)
    (hm : c.is_monotonic = 0) (hcode : (mf w.millis_calls).1 = 0)
    (hrcode : (rf w.random_calls).1 = 0) (hten : (rf w.random_calls).2.length = 10) :
    (ulid_new (some c) w (some buf)).ret = 0 ∧
    (ulid_new (some c) w (some buf)).buffer
      = some (ulid_parse buf (some (mf w.millis_calls).2) (some (rf w.random_calls).2)).2 ∧
    (ulid_new (some c) w (some buf)).ctx = some c ∧
    (ulid_new (some c) w (some buf)).world
      = { millis_calls := w.millis_calls + 1, random_calls := w.random_calls + 1 } := by
  rw [ulid_new_valid c mf rf w buf hmf hrf,
    new_internal_stateless c mf rf w buf hbuf hcode hm hten, parse_both buf _ _ hbuf hten]
  exact ⟨hrcode, rfl, rfl, rfl⟩

/-- C15 at a context whose private fields hold 77 and (3, 4). -/
theorem stateless_new_witness :
    (ulid_new
      (some
        { millis_func := some (clockOf [0x0000018B5A8C]),
          random_func := some (randomOf [[1, 2, 3, 4, 5, 6, 7, 8, 9, 10]] []),
          is_monotonic := 0, _PRIVATE_last_time := 77,
          _PRIVATE_last_random := { hi := 3, lo := 4 } })
      ⟨0, 0⟩ (some (List.replicate 16 0))).buffer
      = some [0, 0, 1, 0x8B, 0x5A, 0x8C, 1, 2, 3, 4, 5, 6, 7, 8, 9, 10] :=
  ((stateless_new
      { millis_func := some (clockOf [0x0000018B5A8C]),
        random_func := some (randomOf [[1, 2, 3, 4, 5, 6, 7, 8, 9, 10]] []),
        is_monotonic := 0, _PRIVATE_last_time := 77,
        _PRIVATE_last_random := { hi := 3, lo := 4 } }
      (clockOf [0x0000018B5A8C]) (randomOf [[1, 2, 3, 4, 5, 6, 7, 8, 9, 10]] []) ⟨0, 0⟩
      (List.replicate 16 0) rfl rfl (by decide) rfl (by decide) (by decide)
      (by decide)).2.1).trans (by decide)

/-- The return code of `ulid_new_internal`, path by path, and whether
`random_func` was called. -/
theorem new_internal_ret (c : ulid_ctx) (mf : Nat → Int × Nat) (rf : Nat → Int × List Nat)
    (w : World) (buf : List Nat) :
    ((mf w.millis_calls).1 ≠ 0 →
      (ulid_new_internal c mf rf w buf).ret = (mf w.millis_calls).1 ∧
      (ulid_new_internal c mf rf w buf).world.random_calls = w.random_calls) ∧
    ((mf w.millis_calls).1 = 0 →
      ((ulid_new_internal c mf rf w buf).ret = (rf w.random_calls).1 ∧
        (ulid_new_internal c mf rf w buf).world.random_calls = w.random_calls + 1) ∨
      ((ulid_new_internal c mf rf w buf).ret = (UINT80_ADD1 c._PRIVATE_last_random).2 ∧
        (ulid_new_internal c mf rf w buf).world.random_calls = w.random_calls ∧
        c.is_monotonic ≠ 0 ∧ UINT80_IS_ZERO c._PRIVATE_last_random = false ∧
        (mf w.millis_calls).2 ≤ c._PRIVATE_last_time)) := by
  constructor
  · intro h
    rw [new_internal_clock_fail c mf rf w buf h]
    exact ⟨rfl, rfl⟩
  · intro h
    by_cases hm : c.is_monotonic = 0
    · left
      simp only [ulid_new_internal, h, ne_eq, not_true_eq_false, if_false, hm, call_random]
      and_intros <;> first | rfl | trivial
    · by_cases hc : (!UINT80_IS_ZERO c._PRIVATE_last_random &&
          decide ((mf w.millis_calls).2 ≤ c._PRIVATE_last_time)) = true
      · right
        simp only [ulid_new_internal, h, ne_eq, not_true_eq_false, if_false, hm,
          not_false_eq_true, if_true, hc]
        simp only [Bool.and_eq_true, Bool.not_eq_true', decide_eq_true_eq] at hc
        and_intros <;> first | rfl | trivial | exact hc.1 | exact hc.2
      · left
        simp only [ulid_new_internal, h, ne_eq, not_true_eq_false, if_false, hm,
          not_false_eq_true, if_true, hc, call_random]
        and_intros <;> rfl

/-- C16: in both modes, `ulid_new` called with a valid context and buffer
returns the clock's own code when `millis_func` returns non-zero; when the
clock succeeds and `random_func` is consulted, it returns the code of
`random_func`, hence a non-zero code when that one fails; and it returns 0 only
if the clock returned 0, `random_func` returned 0 if it was consulted, and the
80-bit counter did not overflow if it was not. -/
theorem provider_failure_propagates (c : ulid_ctx) (mf : Nat → Int × Nat)
    (rf : Nat → Int × List Nat) (w : World) (buf : List Nat)
    (hmf : c.millis_func = some mf) (hrf : c.random_func = some rf)
    (hwf : u80wf c._PRIVATE_last_random) :
    ((mf w.millis_calls).1 ≠ 0 →
      (ulid_new (some c) w (some buf)).ret = (mf w.millis_calls).1 ∧
      (ulid_new (some c) w (some buf)).ret ≠ 0) ∧
    ((mf w.millis_calls).1 = 0 →
      (ulid_new (some c) w (some buf)).world.random_calls = w.random_calls + 1 →
      (ulid_new (some c) w (some buf)).ret = (rf w.random_calls).1 ∧
      ((rf w.random_calls).1 ≠ 0 → (ulid_new (some c) w (some buf)).ret ≠ 0)) ∧
    ((ulid_new (some c) w (some buf)).ret = 0 →
      (mf w.millis_calls).1 = 0 ∧
      ((ulid_new (some c) w (some buf)).world.random_calls = w.random_calls + 1 →
        (rf w.random_calls).1 = 0) ∧
      ((ulid_new (some c) w (some buf)).world.random_calls = w.random_calls →
        ¬ (c._PRIVATE_last_random.hi = 0xFFFF ∧
          c._PRIVATE_last_random.lo = 2 ^ 64 - 1))) := by
  rw [ulid_new_valid c mf rf w buf hmf hrf]
  obtain ⟨hfail, hok⟩ := new_internal_ret c mf rf w buf
  obtain ⟨_, _, a3⟩ := u80_add1_spec _ hwf
  have hmax : (c._PRIVATE_last_random.hi = 0xFFFF ∧ c._PRIVATE_last_random.lo = 2 ^ 64 - 1) →
      u80val c._PRIVATE_last_random = 2 ^ 80 - 1 := by
    rintro ⟨h1, h2⟩
    rw [u80val, h1, h2]
    norm_num
  show ((mf w.millis_calls).1 ≠ 0 →
      (ulid_new_internal c mf rf w buf).ret = (mf w.millis_calls).1 ∧
      (ulid_new_internal c mf rf w buf).ret ≠ 0) ∧
    ((mf w.millis_calls).1 = 0 →
      (ulid_new_internal c mf rf w buf).world.random_calls = w.random_calls + 1 →
      (ulid_new_internal c mf rf w buf).ret = (rf w.random_calls).1 ∧
      ((rf w.random_calls).1 ≠ 0 → (ulid_new_internal c mf rf w buf).ret ≠ 0)) ∧
    ((ulid_new_internal c mf rf w buf).ret = 0 →
      (mf w.millis_calls).1 = 0 ∧
      ((ulid_new_internal c mf rf w buf).world.random_calls = w.random_calls + 1 →
        (rf w.random_calls).1 = 0) ∧
      ((ulid_new_internal c mf rf w buf).world.random_calls = w.random_calls →
        ¬ (c._PRIVATE_last_random.hi = 0xFFFF ∧
          c._PRIVATE_last_random.lo = 2 ^ 64 - 1)))
  refine ⟨fun h => ?_, fun h hcons => ?_, fun hz => ?_⟩
  · obtain ⟨e, _⟩ := hfail h
    exact ⟨e, by rw [e]; exact h⟩
  · rcases hok h with ⟨e, _⟩ | ⟨_, e2, _⟩
    · exact ⟨e, fun hne => by rw [e]; exact hne⟩
    · omega
  · have hcode : (mf w.millis_calls).1 = 0 := by
      by_contra hne
      obtain ⟨e, _⟩ := hfail hne
      rw [e] at hz
      exact hne hz
    refine ⟨hcode, fun hcons => ?_, fun hnot => ?_⟩
    · rcases hok hcode with ⟨e, _⟩ | ⟨_, e2, _⟩
      · rw [← e]; exact hz
      · omega
    · rcases hok hcode with ⟨_, e2⟩ | ⟨e, _⟩
      · omega
      · intro hall
        rw [e, a3, if_pos (hmax hall)] at hz
        exact absurd hz (by decide)

/-- C16 with a clock that fails with code 7: `ulid_new` returns 7. -/
theorem provider_failure_propagates_witness :
    (ulid_new (some (zeroCtx (fun _ => (7, 0)) (randomOf [] []) 1)) ⟨0, 0⟩
      (some (List.replicate 16 0))).ret = 7 :=
  ((provider_failure_propagates (zeroCtx (fun _ => (7, 0)) (randomOf [] []) 1)
    (fun _ => (7, 0)) (randomOf [] []) ⟨0, 0⟩ (List.replicate 16 0) rfl rfl
    u80wf_zero).1 (by decide)).1

/-- C19: `ulid_parse` given only a timestamp writes bytes 0..5 and leaves bytes
6..15 as they were; given only a random part it writes bytes 6..15 and leaves
bytes 0..5 as they were; given neither it returns 1 and leaves the buffer as it
was.  `ulid_unparse` with neither output requested returns 1, and with one
output requested returns 0 and yields that field only. -/
theorem parse_unparse_frames (out0 : List Nat) (t : Nat) (r raw : List Nat) (m0 : Nat)
    (buf0 : List Nat) (hout : out0.length = 16) (hr : r.length = 10) (hraw : IsRaw raw)
    (hbuf : buf0.length = 10) :
    ulid_parse out0 (some t) none = (0, millisBytes t ++ out0.drop 6) ∧
    ulid_parse out0 none (some r) = (0, out0.take 6 ++ r) ∧
    ulid_parse out0 none none = (1, out0) ∧
    ulid_unparse raw none none = (1, none, none) ∧
    ulid_unparse raw (some m0) none = (0, some (timestampField raw), none) ∧
    ulid_unparse raw none (some buf0) = (0, none, some (raw.drop 6)) := by
  refine ⟨?_, ?_, rfl, rfl, ?_, ?_⟩
  · simp only [ulid_parse, Option.isNone_some, Option.isNone_none, Bool.false_and,
      Bool.false_eq_true, if_false]
    rw [millis_write_to_eq t out0 (by omega)]
    rfl
  · simp only [ulid_parse, Option.isNone_some, Option.isNone_none, Bool.and_false,
      Bool.false_eq_true, if_false]
    rw [memcpy_random_in out0 r hout hr]
  · simp only [ulid_unparse, Option.isNone_some, Option.isNone_none, Bool.false_and,
      Bool.false_eq_true, if_false]
    rw [millis_set_to_eq raw hraw, timestampField]
  · simp only [ulid_unparse, Option.isNone_some, Option.isNone_none, Bool.and_false,
      Bool.false_eq_true, if_false]
    rw [memcpy_random_out buf0 raw hbuf hraw.1]

/-- C19 on a buffer holding sixteen 7s. -/
theorem parse_unparse_frames_witness :
    ulid_parse (List.replicate 16 7) (some 0x0000018B5A8C) none
      = (0, [0, 0, 1, 0x8B, 0x5A, 0x8C, 7, 7, 7, 7, 7, 7, 7, 7, 7, 7]) ∧
    ulid_parse (List.replicate 16 7) none (some [1, 2, 3, 4, 5, 6, 7, 8, 9, 10])
      = (0, [7, 7, 7, 7, 7, 7, 1, 2, 3, 4, 5, 6, 7, 8, 9, 10]) :=
  ⟨((parse_unparse_frames (List.replicate 16 7) 0x0000018B5A8C
      [1, 2, 3, 4, 5, 6, 7, 8, 9, 10] (List.replicate 16 7) 0 (List.replicate 10 0)
      (by decide) (by decide) ⟨by decide, by decide⟩ (by decide)).1).trans (by decide),
   ((parse_unparse_frames (List.replicate 16 7) 0x0000018B5A8C
      [1, 2, 3, 4, 5, 6, 7, 8, 9, 10] (List.replicate 16 7) 0 (List.replicate 10 0)
      (by decide) (by decide) ⟨by decide, by decide⟩ (by decide)).2.1).trans (by decide)⟩

/-- The `i`-th digit of a list of base-`B` digits, read off its value. -/
theorem digit_of_beVal (B : Nat) (ds : List Nat) (h : ∀ d ∈ ds, d < B) :
    ∀ i, i < ds.length → ds.getD i 0 = beVal B ds / B ^ (ds.length - 1 - i) % B := by
  induction ds with
  | nil => intro i hi; simp at hi
  | cons d ds ih =>
    intro i hi
    have hd : d < B := h d (by simp)
    have hB : 0 < B := by omega
    have hds : ∀ x ∈ ds, x < B := fun x hx => h x (by simp [hx])
    have hv := beVal_lt_pow B ds hds
    rw [beVal, List.length_cons]
    cases i with
    | zero =>
      have e : ds.length + 1 - 1 - 0 = ds.length := by omega
      rw [e, List.getD_cons_zero, Nat.add_comm, Nat.add_mul_div_right _ _ (Nat.pos_pow_of_pos _ hB),
        Nat.div_eq_of_lt hv, Nat.zero_add, Nat.mod_eq_of_lt hd]
    | succ i =>
      simp only [List.length_cons, Nat.add_lt_add_iff_right] at hi
      have e : ds.length + 1 - 1 - (i + 1) = ds.length - 1 - i := by omega
      have hp : B ^ ds.length = B ^ (i + 1) * B ^ (ds.length - 1 - i) := by
        rw [← Nat.pow_add]
        congr 1
        omega
      rw [e, List.getD_cons_succ, ih hds i hi, hp, ← Nat.mul_assoc, Nat.add_comm,
        Nat.add_mul_div_right _ _ (Nat.pos_pow_of_pos _ hB), Nat.pow_succ, ← Nat.mul_assoc,
        Nat.add_mul_mod_self_right]

set_option maxRecDepth 100000 in
theorem chr_upper : ∀ v, v < 32 → isCrockfordUpper (chr v) = true := by decide

set_option maxRecDepth 100000 in
theorem chr_first_range : ∀ v, v < 8 → inRange '0' '7' (chr v) = true := by decide

theorem b32_chars_eq :
    b32_chars = "0123456789ABCDEFGHJKMNPQRSTVWXYZ".toList.map Char.toNat := by decide

theorem to_string_getD (r : List Nat) (hr : IsRaw r) (i : Nat) (hi : i < 26) :
    (ulid_to_string r).getD i 0 = chr ((groups r).getD i 0) := by
  have hl : i < (groups r).length := by rw [groups_length]; exact hi
  have hm : i < ((groups r).map chr).length := by rw [List.length_map]; exact hl
  rw [ulid_to_string_eq r hr, List.getD_append _ _ _ _ hm, List.getD_eq_getElem _ _ hm,
    List.getElem_map, List.getD_eq_getElem _ _ hl]

/-! ## Text codec: the digits of the encoder -/

/-- C18: for a raw ULID of 128-bit big-endian value `N`, `ulid_to_string` writes
27 bytes: for each `i < 26` the character of index `(N >>> (5 * (25 - i))) % 32`
in the upper-case Crockford alphabet, then a NUL.  So every character is a
member of the upper-case alphabet and the first one is in `0..7`. -/
theorem to_string_digits (r : List Nat) (hr : IsRaw r) :
    (ulid_to_string r).length = 27 ∧
    (∀ i, i < 26 →
      (ulid_to_string r).getD i 0
        = ("0123456789ABCDEFGHJKMNPQRSTVWXYZ".toList.map Char.toNat).getD
            ((beVal 256 r >>> (5 * (25 - i))) % 32) 0) ∧
    (ulid_to_string r).getD 26 0 = 0 ∧
    (∀ i, i < 26 → isCrockfordUpper ((ulid_to_string r).getD i 0) = true) ∧
    inRange '0' '7' ((ulid_to_string r).getD 0 0) = true := by
  have hlt := groups_lt r hr
  refine ⟨rfl, ?_, rfl, ?_, ?_⟩
  · intro i hi
    have hd := digit_of_beVal 32 (groups r) hlt i (by rw [groups_length]; exact hi)
    have e : (groups r).length - 1 - i = 25 - i := rfl
    have hp : (32 : Nat) ^ (25 - i) = 2 ^ (5 * (25 - i)) := by
      rw [Nat.pow_mul]
    rw [beVal_groups r hr.1, e, hp, ← Nat.shiftRight_eq_div_pow] at hd
    rw [to_string_getD r hr i hi, hd, chr, b32_chars_eq]
  · intro i hi
    rw [to_string_getD r hr i hi]
    exact chr_upper _ (getD_lt (groups r) 32 hlt i (by rw [groups_length]; exact hi))
  · rw [to_string_getD r hr 0 (by omega)]
    exact chr_first_range _ (groups_head_lt r hr)

/-- C18 on the fixed vector: its encoding is `00000RPPMC041061050R3GG28A`. -/
theorem to_string_digits_witness :
    IsRaw [0, 0, 1, 0x8B, 0x5A, 0x8C, 1, 2, 3, 4, 5, 6, 7, 8, 9, 10] ∧
    (ulid_to_string [0, 0, 1, 0x8B, 0x5A, 0x8C, 1, 2, 3, 4, 5, 6, 7, 8, 9, 10]).getD 5 0
      = ("0123456789ABCDEFGHJKMNPQRSTVWXYZ".toList.map Char.toNat).getD
          ((beVal 256 [0, 0, 1, 0x8B, 0x5A, 0x8C, 1, 2, 3, 4, 5, 6, 7, 8, 9, 10]
            >>> (5 * (25 - 5))) % 32) 0 ∧
    (ulid_to_string [0, 0, 1, 0x8B, 0x5A, 0x8C, 1, 2, 3, 4, 5, 6, 7, 8, 9, 10]).getD 5 0
      = 'R'.toNat :=
  ⟨⟨by decide, by decide⟩,
   (to_string_digits [0, 0, 1, 0x8B, 0x5A, 0x8C, 1, 2, 3, 4, 5, 6, 7, 8, 9, 10]
      ⟨by decide, by decide⟩).2.1 5 (by decide),
   by decide⟩


/-- One call of a run in monotonic mode, from a known state before it. -/
theorem run_call (ctx0 : Option ulid_ctx) (w0 : World) (bufs : Nat → List Nat) (k : Nat)
    (c : ulid_ctx) (w : World) (mf : Nat → Int × Nat) (rf : Nat → Int × List Nat)
    (hs : stateBefore ctx0 w0 bufs k = (some c, w))
    (hmf : c.millis_func = some mf) (hrf : c.random_func = some rf)
    (hm : c.is_monotonic ≠ 0) (hwf : u80wf c._PRIVATE_last_random)
    (hbuf : (bufs k).length = 16) (hcode : (mf w.millis_calls).1 = 0)
    (hten : (rf w.random_calls).2.length = 10)
    (hb : ∀ x ∈ (rf w.random_calls).2, x < 256) :
    ∃ c2 w2, stateBefore ctx0 w0 bufs (k + 1) = (some c2, w2) ∧
      c2.millis_func = some mf ∧ c2.random_func = some rf ∧ c2.is_monotonic ≠ 0 ∧
      u80wf c2._PRIVATE_last_random ∧ IsRaw (nthId ctx0 w0 bufs k) ∧
      timestampField (nthId ctx0 w0 bufs k) = (mf w.millis_calls).2 % 2 ^ 48 ∧
      randomField (nthId ctx0 w0 bufs k) = u80val c2._PRIVATE_last_random ∧
      w2.millis_calls = w.millis_calls + 1 ∧ (nthCall ctx0 w0 bufs k).world = w2 ∧
      ((u80val c._PRIVATE_last_random ≠ 0 ∧ (mf w.millis_calls).2 ≤ c._PRIVATE_last_time) →
        (nthCall ctx0 w0 bufs k).ret
          = (if u80val c._PRIVATE_last_random = 2 ^ 80 - 1 then 1 else 0) ∧
        c2._PRIVATE_last_time = c._PRIVATE_last_time ∧
        u80val c2._PRIVATE_last_random = (u80val c._PRIVATE_last_random + 1) % 2 ^ 80 ∧
        w2.random_calls = w.random_calls) ∧
      (¬ (u80val c._PRIVATE_last_random ≠ 0 ∧
          (mf w.millis_calls).2 ≤ c._PRIVATE_last_time) →
        (nthCall ctx0 w0 bufs k).ret = (rf w.random_calls).1 ∧
        c2._PRIVATE_last_time = (mf w.millis_calls).2 ∧
        u80val c2._PRIVATE_last_random = beVal 256 (rf w.random_calls).2 ∧
        w2.random_calls = w.random_calls + 1) := by
  have hcall : nthCall ctx0 w0 bufs k = ulid_new (some c) w (some (bufs k)) := by
    rw [nthCall, hs]
  rw [ulid_new_valid c mf rf w (bufs k) hmf hrf] at hcall
  obtain ⟨m1, m2, m3, m4, m5, m6, m7, m8, minc, mfresh⟩ :=
    mono_step c mf rf w (bufs k) _ rfl hbuf hcode hm hwf hten hb
  have hid : nthId ctx0 w0 bufs k = (ulid_new_internal c mf rf w (bufs k)).buffer := by
    rw [nthId, hcall]
    rfl
  refine ⟨(ulid_new_internal c mf rf w (bufs k)).ctx,
    (ulid_new_internal c mf rf w (bufs k)).world, by rw [stateBefore_succ, hcall],
    m1.trans hmf, m2.trans hrf, by rw [m3]; exact hm, m4, by rw [hid]; exact m5,
    by rw [hid]; exact m6, by rw [hid]; exact m7, m8, by rw [hcall], ?_, ?_⟩
  · intro h
    rw [hcall]
    exact minc h
  · intro h
    rw [hcall]
    exact mfresh h

/-- A call of a run in monotonic mode that draws fresh randomness: the stored
counter is zero or the clock has passed the stored time. -/
theorem run_fresh_call (ctx0 : Option ulid_ctx) (w0 : World) (bufs : Nat → List Nat)
    (k : Nat) (c : ulid_ctx) (w : World) (mf : Nat → Int × Nat) (rf : Nat → Int × List Nat)
    (i j : Nat) (hs : stateBefore ctx0 w0 bufs k = (some c, w))
    (hi : w.millis_calls = i) (hj : w.random_calls = j)
    (hmf : c.millis_func = some mf) (hrf : c.random_func = some rf)
    (hm : c.is_monotonic ≠ 0) (hwf : u80wf c._PRIVATE_last_random)
    (hbuf : (bufs k).length = 16) (hcode : (mf i).1 = 0)
    (hten : (rf j).2.length = 10) (hb : ∀ x ∈ (rf j).2, x < 256)
    (hcase : u80val c._PRIVATE_last_random = 0 ∨ c._PRIVATE_last_time < (mf i).2) :
    ∃ c2 w2, stateBefore ctx0 w0 bufs (k + 1) = (some c2, w2) ∧
      w2.millis_calls = i + 1 ∧ w2.random_calls = j + 1 ∧
      c2.millis_func = some mf ∧ c2.random_func = some rf ∧ c2.is_monotonic ≠ 0 ∧
      u80wf c2._PRIVATE_last_random ∧ c2._PRIVATE_last_time = (mf i).2 ∧
      u80val c2._PRIVATE_last_random = beVal 256 (rf j).2 ∧
      (nthCall ctx0 w0 bufs k).ret = (rf j).1 ∧
      (nthCall ctx0 w0 bufs k).world.random_calls = j + 1 ∧
      IsRaw (nthId ctx0 w0 bufs k) ∧
      timestampField (nthId ctx0 w0 bufs k) = (mf i).2 % 2 ^ 48 ∧
      randomField (nthId ctx0 w0 bufs k) = beVal 256 (rf j).2 := by
  subst hi
  subst hj
  obtain ⟨c2, w2, s2, a1, a2, a3, a4, raw, ts, rnd, mc, wd, _, fresh⟩ :=
    run_call ctx0 w0 bufs k c w mf rf hs hmf hrf hm hwf hbuf hcode hten hb
  obtain ⟨ret, lt, val, rc⟩ := fresh (fun h => by
    rcases hcase with h0 | h1
    · exact h.1 h0
    · omega)
  exact ⟨c2, w2, s2, mc, rc, a1, a2, a3, a4, lt, val, ret, by rw [wd]; exact rc, raw, ts,
    rnd.trans val⟩

/-- A call of a run in monotonic mode that increments the stored counter
without overflow. -/
theorem run_increment_call (ctx0 : Option ulid_ctx) (w0 : World) (bufs : Nat → List Nat)
    (k : Nat) (c : ulid_ctx) (w : World) (mf : Nat → Int × Nat) (rf : Nat → Int × List Nat)
    (i j : Nat) (hs : stateBefore ctx0 w0 bufs k = (some c, w))
    (hi : w.millis_calls = i) (hj : w.random_calls = j)
    (hmf : c.millis_func = some mf) (hrf : c.random_func = some rf)
    (hm : c.is_monotonic ≠ 0) (hwf : u80wf c._PRIVATE_last_random)
    (hbuf : (bufs k).length = 16) (hcode : (mf i).1 = 0)
    (hten : (rf j).2.length = 10) (hb : ∀ x ∈ (rf j).2, x < 256)
    (hnz : u80val c._PRIVATE_last_random ≠ 0) (hle : (mf i).2 ≤ c._PRIVATE_last_time)
    (hno : u80val c._PRIVATE_last_random + 1 < 2 ^ 80) :
    ∃ c2 w2, stateBefore ctx0 w0 bufs (k + 1) = (some c2, w2) ∧
      w2.millis_calls = i + 1 ∧ w2.random_calls = j ∧
      c2.millis_func = some mf ∧ c2.random_func = some rf ∧ c2.is_monotonic ≠ 0 ∧
      u80wf c2._PRIVATE_last_random ∧ c2._PRIVATE_last_time = c._PRIVATE_last_time ∧
      u80val c2._PRIVATE_last_random = u80val c._PRIVATE_last_random + 1 ∧
      (nthCall ctx0 w0 bufs k).ret = 0 ∧
      (nthCall ctx0 w0 bufs k).world.random_calls = j ∧
      IsRaw (nthId ctx0 w0 bufs k) ∧
      timestampField (nthId ctx0 w0 bufs k) = (mf i).2 % 2 ^ 48 ∧
      randomField (nthId ctx0 w0 bufs k) = u80val c._PRIVATE_last_random + 1 := by
  subst hi
  subst hj
  obtain ⟨c2, w2, s2, a1, a2, a3, a4, raw, ts, rnd, mc, wd, inc, _⟩ :=
    run_call ctx0 w0 bufs k c w mf rf hs hmf hrf hm hwf hbuf hcode hten hb
  obtain ⟨ret, lt, val, rc⟩ := inc ⟨hnz, hle⟩
  have hval : u80val c2._PRIVATE_last_random = u80val c._PRIVATE_last_random + 1 :=
    val.trans (Nat.mod_eq_of_lt hno)
  have hret : (nthCall ctx0 w0 bufs k).ret = 0 := by
    rw [ret, if_neg (by omega)]
  exact ⟨c2, w2, s2, mc, rc, a1, a2, a3, a4, lt, hval, hret, by rw [wd]; exact rc, raw, ts,
    rnd.trans hval⟩

/-! ## Generator: four calls in one millisecond bucket and the next -/

/-- C13, as stated, fails.  With clock readings 100, 100, 100, 101 and draws
0, 7, 9, the second call consults `random_func` again: the first two random
fields are 0 and 7 (not 0 and 1) and `random_func` has been called twice after
the second call.  With a first draw of `2 ^ 80 - 1` the second call returns 1
and writes random field 0.  With clock readings 100, 100, 100, `2 ^ 48 + 1` the
fourth timestamp field is 1 and the fourth identifier is smaller than the
third. -/
theorem four_calls_fails :
    ((nthCall (fourCallCtx 100 101 [0, 0, 0, 0, 0, 0, 0, 0, 0, 0]
        [0, 0, 0, 0, 0, 0, 0, 0, 0, 7] [0, 0, 0, 0, 0, 0, 0, 0, 0, 9] 1)
        ⟨0, 0⟩ zeroBufs 0).ret = 0 ∧
      (nthCall (fourCallCtx 100 101 [0, 0, 0, 0, 0, 0, 0, 0, 0, 0]
        [0, 0, 0, 0, 0, 0, 0, 0, 0, 7] [0, 0, 0, 0, 0, 0, 0, 0, 0, 9] 1)
        ⟨0, 0⟩ zeroBufs 1).ret = 0 ∧
      randomField (nthId (fourCallCtx 100 101 [0, 0, 0, 0, 0, 0, 0, 0, 0, 0]
        [0, 0, 0, 0, 0, 0, 0, 0, 0, 7] [0, 0, 0, 0, 0, 0, 0, 0, 0, 9] 1)
        ⟨0, 0⟩ zeroBufs 0) = 0 ∧
      randomField (nthId (fourCallCtx 100 101 [0, 0, 0, 0, 0, 0, 0, 0, 0, 0]
        [0, 0, 0, 0, 0, 0, 0, 0, 0, 7] [0, 0, 0, 0, 0, 0, 0, 0, 0, 9] 1)
        ⟨0, 0⟩ zeroBufs 1) = 7 ∧
      (nthCall (fourCallCtx 100 101 [0, 0, 0, 0, 0, 0, 0, 0, 0, 0]
        [0, 0, 0, 0, 0, 0, 0, 0, 0, 7] [0, 0, 0, 0, 0, 0, 0, 0, 0, 9] 1)
        ⟨0, 0⟩ zeroBufs 1).world.random_calls = 2) ∧
    ((nthCall (fourCallCtx 100 101 [255, 255, 255, 255, 255, 255, 255, 255, 255, 255]
        [0, 0, 0, 0, 0, 0, 0, 0, 0, 7] [0, 0, 0, 0, 0, 0, 0, 0, 0, 9] 1)
        ⟨0, 0⟩ zeroBufs 1).ret = 1 ∧
      randomField (nthId (fourCallCtx 100 101
        [255, 255, 255, 255, 255, 255, 255, 255, 255, 255]
        [0, 0, 0, 0, 0, 0, 0, 0, 0, 7] [0, 0, 0, 0, 0, 0, 0, 0, 0, 9] 1)
        ⟨0, 0⟩ zeroBufs 1) = 0) ∧
    (timestampField (nthId (fourCallCtx 100 281474976710657 [0, 0, 0, 0, 0, 0, 0, 0, 0, 5]
        [0, 0, 0, 0, 0, 0, 0, 0, 0, 7] [0, 0, 0, 0, 0, 0, 0, 0, 0, 9] 1)
        ⟨0, 0⟩ zeroBufs 3) = 1 ∧
      0 < ulid_compare
        (nthId (fourCallCtx 100 281474976710657 [0, 0, 0, 0, 0, 0, 0, 0, 0, 5]
          [0, 0, 0, 0, 0, 0, 0, 0, 0, 7] [0, 0, 0, 0, 0, 0, 0, 0, 0, 9] 1)
          ⟨0, 0⟩ zeroBufs 2)
        (nthId (fourCallCtx 100 281474976710657 [0, 0, 0, 0, 0, 0, 0, 0, 0, 5]
          [0, 0, 0, 0, 0, 0, 0, 0, 0, 7] [0, 0, 0, 0, 0, 0, 0, 0, 0, 9] 1)
          ⟨0, 0⟩ zeroBufs 3)) := by
  decide

/-- C13, amended: for a zero-initialised monotonic context, clock readings `t`,
`t`, `t`, `t2` with `t < t2 < 2 ^ 48`, and a first draw of value `R` with
`R ≠ 0` and `R + 2 < 2 ^ 80`, four calls of `ulid_new` return 0 and write
timestamp fields `t`, `t`, `t`, `t2` and random fields `R`, `R + 1`, `R + 2`,
`R2`, where `R2` is the second value delivered by `random_func`; `random_func`
has been called once after each of the first three calls and twice after the
fourth; and each identifier compares strictly above the one before. -/
theorem four_calls (t t2 : Nat) (rb rb2 dflt : List Nat) (mono : Int)
    (bufs : Nat → List Nat) (hmono : mono ≠ 0) (hbufs : ∀ i, i < 4 → (bufs i).length = 16)
    (htt : t < t2) (ht2 : t2 < 2 ^ 48) (hR : rb.length = 10) (hRb : ∀ x ∈ rb, x < 256)
    (hR0 : beVal 256 rb ≠ 0) (hR2 : beVal 256 rb + 2 < 2 ^ 80) (hR' : rb2.length = 10)
    (hRb' : ∀ x ∈ rb2, x < 256) :
    ((nthCall (fourCallCtx t t2 rb rb2 dflt mono) ⟨0, 0⟩ bufs 0).ret = 0 ∧
      (nthCall (fourCallCtx t t2 rb rb2 dflt mono) ⟨0, 0⟩ bufs 1).ret = 0 ∧
      (nthCall (fourCallCtx t t2 rb rb2 dflt mono) ⟨0, 0⟩ bufs 2).ret = 0 ∧
      (nthCall (fourCallCtx t t2 rb rb2 dflt mono) ⟨0, 0⟩ bufs 3).ret = 0) ∧
    (timestampField (nthId (fourCallCtx t t2 rb rb2 dflt mono) ⟨0, 0⟩ bufs 0) = t ∧
      timestampField (nthId (fourCallCtx t t2 rb rb2 dflt mono) ⟨0, 0⟩ bufs 1) = t ∧
      timestampField (nthId (fourCallCtx t t2 rb rb2 dflt mono) ⟨0, 0⟩ bufs 2) = t ∧
      timestampField (nthId (fourCallCtx t t2 rb rb2 dflt mono) ⟨0, 0⟩ bufs 3) = t2) ∧
    (randomField (nthId (fourCallCtx t t2 rb rb2 dflt mono) ⟨0, 0⟩ bufs 0)
        = beVal 256 rb ∧
      randomField (nthId (fourCallCtx t t2 rb rb2 dflt mono) ⟨0, 0⟩ bufs 1)
        = beVal 256 rb + 1 ∧
      randomField (nthId (fourCallCtx t t2 rb rb2 dflt mono) ⟨0, 0⟩ bufs 2)
        = beVal 256 rb + 2 ∧
      randomField (nthId (fourCallCtx t t2 rb rb2 dflt mono) ⟨0, 0⟩ bufs 3)
        = beVal 256 rb2) ∧
    ((nthCall (fourCallCtx t t2 rb rb2 dflt mono) ⟨0, 0⟩ bufs 0).world.random_calls = 1 ∧
      (nthCall (fourCallCtx t t2 rb rb2 dflt mono) ⟨0, 0⟩ bufs 1).world.random_calls = 1 ∧
      (nthCall (fourCallCtx t t2 rb rb2 dflt mono) ⟨0, 0⟩ bufs 2).world.random_calls = 1 ∧
      (nthCall (fourCallCtx t t2 rb rb2 dflt mono) ⟨0, 0⟩ bufs 3).world.random_calls = 2) ∧
    (ulid_compare (nthId (fourCallCtx t t2 rb rb2 dflt mono) ⟨0, 0⟩ bufs 0)
        (nthId (fourCallCtx t t2 rb rb2 dflt mono) ⟨0, 0⟩ bufs 1) < 0 ∧
      ulid_compare (nthId (fourCallCtx t t2 rb rb2 dflt mono) ⟨0, 0⟩ bufs 1)
        (nthId (fourCallCtx t t2 rb rb2 dflt mono) ⟨0, 0⟩ bufs 2) < 0 ∧
      ulid_compare (nthId (fourCallCtx t t2 rb rb2 dflt mono) ⟨0, 0⟩ bufs 2)
        (nthId (fourCallCtx t t2 rb rb2 dflt mono) ⟨0, 0⟩ bufs 3) < 0) := by
  have ht : t < 2 ^ 48 := by omega
  have hmc : ∀ i, (clockOf [t, t, t, t2] i).1 = 0 := fun _ => rfl
  -- call 0: a fresh draw
  obtain ⟨c1, w1, s1, m1, j1, a1, a2, a3, a4, lt1, val1, ret0, rc0, raw0, ts0, rnd0⟩ :=
    run_fresh_call (fourCallCtx t t2 rb rb2 dflt mono) ⟨0, 0⟩ bufs 0
      (zeroCtx (clockOf [t, t, t, t2]) (randomOf [rb, rb2] dflt) mono) ⟨0, 0⟩
      (clockOf [t, t, t, t2]) (randomOf [rb, rb2] dflt) 0 0 rfl rfl rfl rfl rfl hmono
      u80wf_zero (hbufs 0 (by omega)) (hmc _) hR hRb (Or.inl u80val_zero)
  have lt1b : c1._PRIVATE_last_time = t := lt1
  have val1b : u80val c1._PRIVATE_last_random = beVal 256 rb := val1
  -- call 1: an increment
  obtain ⟨c2, w2, s2, m2, j2, b1, b2, b3, b4, lt2, val2, ret1, rc1, raw1, ts1, rnd1⟩ :=
    run_increment_call (fourCallCtx t t2 rb rb2 dflt mono) ⟨0, 0⟩ bufs 1 c1 w1
      (clockOf [t, t, t, t2]) (randomOf [rb, rb2] dflt) 1 1 s1 m1 j1 a1 a2 a3 a4
      (hbufs 1 (by omega)) (hmc _) hR' hRb' (by rw [val1b]; exact hR0)
      (by rw [lt1b]; exact Nat.le_refl t) (by rw [val1b]; omega)
  have lt2b : c2._PRIVATE_last_time = t := lt2.trans lt1b
  have val2b : u80val c2._PRIVATE_last_random = beVal 256 rb + 1 := by rw [val2, val1b]
  -- call 2: an increment
  obtain ⟨c3, w3, s3, m3, j3, d1, d2, d3, d4, lt3, val3, ret2, rc2, raw2, ts2, rnd2⟩ :=
    run_increment_call (fourCallCtx t t2 rb rb2 dflt mono) ⟨0, 0⟩ bufs 2 c2 w2
      (clockOf [t, t, t, t2]) (randomOf [rb, rb2] dflt) 2 1 s2 m2 j2 b1 b2 b3 b4
      (hbufs 2 (by omega)) (hmc _) hR' hRb' (by rw [val2b]; omega)
      (by rw [lt2b]; exact Nat.le_refl t) (by rw [val2b]; omega)
  have lt3b : c3._PRIVATE_last_time = t := lt3.trans lt2b
  -- call 3: a fresh draw, the clock has advanced
  obtain ⟨c4, w4, s4, m4, j4, f1, f2, f3, f4, lt4, val4, ret3, rc3, raw3, ts3, rnd3⟩ :=
    run_fresh_call (fourCallCtx t t2 rb rb2 dflt mono) ⟨0, 0⟩ bufs 3 c3 w3
      (clockOf [t, t, t, t2]) (randomOf [rb, rb2] dflt) 3 1 s3 m3 j3 d1 d2 d3 d4
      (hbufs 3 (by omega)) (hmc _) hR' hRb' (Or.inr (by rw [lt3b]; exact htt))
  -- the four identifiers
  have ts0b : timestampField (nthId (fourCallCtx t t2 rb rb2 dflt mono) ⟨0, 0⟩ bufs 0) = t :=
    ts0.trans (Nat.mod_eq_of_lt ht)
  have ts1b : timestampField (nthId (fourCallCtx t t2 rb rb2 dflt mono) ⟨0, 0⟩ bufs 1) = t :=
    ts1.trans (Nat.mod_eq_of_lt ht)
  have ts2b : timestampField (nthId (fourCallCtx t t2 rb rb2 dflt mono) ⟨0, 0⟩ bufs 2) = t :=
    ts2.trans (Nat.mod_eq_of_lt ht)
  have ts3b : timestampField (nthId (fourCallCtx t t2 rb rb2 dflt mono) ⟨0, 0⟩ bufs 3)
      = t2 := ts3.trans (Nat.mod_eq_of_lt ht2)
  have r0 : randomField (nthId (fourCallCtx t t2 rb rb2 dflt mono) ⟨0, 0⟩ bufs 0)
      = beVal 256 rb := rnd0
  have r1 : randomField (nthId (fourCallCtx t t2 rb rb2 dflt mono) ⟨0, 0⟩ bufs 1)
      = beVal 256 rb + 1 := by rw [rnd1, val1b]
  have r2 : randomField (nthId (fourCallCtx t t2 rb rb2 dflt mono) ⟨0, 0⟩ bufs 2)
      = beVal 256 rb + 2 := by rw [rnd2, val2b]
  have r3 : randomField (nthId (fourCallCtx t t2 rb rb2 dflt mono) ⟨0, 0⟩ bufs 3)
      = beVal 256 rb2 := rnd3
  obtain ⟨n0, _⟩ := beVal_fields _ raw0
  obtain ⟨n1, _⟩ := beVal_fields _ raw1
  obtain ⟨n2, _⟩ := beVal_fields _ raw2
  obtain ⟨n3, k3⟩ := beVal_fields _ raw3
  have hmul : (t + 1) * 2 ^ 80 ≤ t2 * 2 ^ 80 := Nat.mul_le_mul_right _ htt
  refine ⟨⟨ret0, ret1, ret2, ret3⟩, ⟨ts0b, ts1b, ts2b, ts3b⟩, ⟨r0, r1, r2, r3⟩,
    ⟨rc0, rc1, rc2, rc3⟩, ?_, ?_, ?_⟩
  · rw [compare_neg_iff_beVal _ _ raw0 raw1, n0, n1, ts0b, ts1b, r0, r1]; omega
  · rw [compare_neg_iff_beVal _ _ raw1 raw2, n1, n2, ts1b, ts2b, r1, r2]; omega
  · rw [compare_neg_iff_beVal _ _ raw2 raw3, n2, n3, ts2b, ts3b, r2, r3]
    rw [r3] at k3
    omega

/-- C13, amended, on clock readings 100, 100, 100, 101 and a first draw of 5:
the random fields of the second and third identifiers are 6 and 7. -/
theorem four_calls_witness :
    randomField (nthId (fourCallCtx 100 101 [0, 0, 0, 0, 0, 0, 0, 0, 0, 5]
        [9, 9, 9, 9, 9, 9, 9, 9, 9, 9] [] 1) ⟨0, 0⟩ zeroBufs 1)
      = beVal 256 [0, 0, 0, 0, 0, 0, 0, 0, 0, 5] + 1 ∧
    randomField (nthId (fourCallCtx 100 101 [0, 0, 0, 0, 0, 0, 0, 0, 0, 5]
        [9, 9, 9, 9, 9, 9, 9, 9, 9, 9] [] 1) ⟨0, 0⟩ zeroBufs 2)
      = beVal 256 [0, 0, 0, 0, 0, 0, 0, 0, 0, 5] + 2 ∧
    nthId (fourCallCtx 100 101 [0, 0, 0, 0, 0, 0, 0, 0, 0, 5]
        [9, 9, 9, 9, 9, 9, 9, 9, 9, 9] [] 1) ⟨0, 0⟩ zeroBufs 3
      = [0, 0, 0, 0, 0, 101, 9, 9, 9, 9, 9, 9, 9, 9, 9, 9] :=
  ⟨(four_calls 100 101 [0, 0, 0, 0, 0, 0, 0, 0, 0, 5] [9, 9, 9, 9, 9, 9, 9, 9, 9, 9] [] 1
      zeroBufs (by decide) (by decide) (by decide) (by decide) (by decide) (by decide)
      (by decide) (by decide) (by decide) (by decide)).2.2.1.2.1,
   (four_calls 100 101 [0, 0, 0, 0, 0, 0, 0, 0, 0, 5] [9, 9, 9, 9, 9, 9, 9, 9, 9, 9] [] 1
      zeroBufs (by decide) (by decide) (by decide) (by decide) (by decide) (by decide)
      (by decide) (by decide) (by decide) (by decide)).2.2.1.2.2.1,
   by decide⟩

/-! ## Generator: the timestamp written on the increment path -/

/-- C12 at a clock that moves backward.  After a first call at clock reading
100 with draw 5, the context stores time 100 and counter 5.  On a second call
at clock reading 50 the increment path is taken: the call returns 0, the stored
time stays 100 and the counter becomes 6, but the identifier written carries
the fresh reading 50 in its timestamp field, not the stored 100. -/
theorem increment_path_emits_clock_reading :
    (stateBefore (some (zeroCtx (clockOf [100, 50])
        (randomOf [[0, 0, 0, 0, 0, 0, 0, 0, 0, 5]] []) 1)) ⟨0, 0⟩ zeroBufs 1).1.map
      (fun c => (c._PRIVATE_last_time, c._PRIVATE_last_random))
      = some (100, { hi := 0, lo := 5 }) ∧
    (clockOf [100, 50] 1).2 = 50 ∧
    (nthCall (some (zeroCtx (clockOf [100, 50])
        (randomOf [[0, 0, 0, 0, 0, 0, 0, 0, 0, 5]] []) 1)) ⟨0, 0⟩ zeroBufs 1).ret = 0 ∧
    (nthCall (some (zeroCtx (clockOf [100, 50])
        (randomOf [[0, 0, 0, 0, 0, 0, 0, 0, 0, 5]] []) 1)) ⟨0, 0⟩ zeroBufs 1).ctx.map
      (fun c => (c._PRIVATE_last_time, c._PRIVATE_last_random))
      = some (100, { hi := 0, lo := 6 }) ∧
    nthId (some (zeroCtx (clockOf [100, 50])
        (randomOf [[0, 0, 0, 0, 0, 0, 0, 0, 0, 5]] []) 1)) ⟨0, 0⟩ zeroBufs 1
      = [0, 0, 0, 0, 0, 50, 0, 0, 0, 0, 0, 0, 0, 0, 0, 6] ∧
    timestampField (nthId (some (zeroCtx (clockOf [100, 50])
        (randomOf [[0, 0, 0, 0, 0, 0, 0, 0, 0, 5]] []) 1)) ⟨0, 0⟩ zeroBufs 1) = 50 ∧
    randomField (nthId (some (zeroCtx (clockOf [100, 50])
        (randomOf [[0, 0, 0, 0, 0, 0, 0, 0, 0, 5]] []) 1)) ⟨0, 0⟩ zeroBufs 1) = 6 := by
  decide


/-! ## Generator: clock failure -/

/-- C21: when `millis_func` returns a non-zero code, `ulid_new`, called with a
valid context and buffer in either mode, returns that code, does not consult
`random_func`, and leaves the buffer and the context (so the stored last time
and last random) exactly as they were before the call. -/
theorem clock_failure_changes_nothing (c : ulid_ctx) (mf : Nat → Int × Nat)
    (rf : Nat → Int × List Nat) (w : World) (buf : List Nat)
    (hmf : c.millis_func = some mf) (hrf : c.random_func = some rf)
    (hfail : (mf w.millis_calls).1 ≠ 0) :
    (ulid_new (some c) w (some buf)).ret = (mf w.millis_calls).1 ∧
    (ulid_new (some c) w (some buf)).ret ≠ 0 ∧
    (ulid_new (some c) w (some buf)).world.random_calls = w.random_calls ∧
    (ulid_new (some c) w (some buf)).world.millis_calls = w.millis_calls + 1 ∧
    (ulid_new (some c) w (some buf)).buffer = some buf ∧
    (ulid_new (some c) w (some buf)).ctx = some c ∧
    (ulid_new (some c) w (some buf)).ctx.map (fun x => x._PRIVATE_last_time)
      = some c._PRIVATE_last_time ∧
    (ulid_new (some c) w (some buf)).ctx.map (fun x => x._PRIVATE_last_random)
      = some c._PRIVATE_last_random := by
  rw [ulid_new_valid c mf rf w buf hmf hrf, new_internal_clock_fail c mf rf w buf hfail]
  exact ⟨rfl, hfail, rfl, rfl, rfl, rfl, rfl, rfl⟩

/-- C21 with a clock that fails with code -1, in monotonic and in stateless
mode, on a context storing time 77 and counter (3, 4) and a buffer of sixteen
7s. -/
theorem clock_failure_changes_nothing_witness :
    ((ulid_new
        (some
          { millis_func := some (fun _ => (-1, 0)),
            random_func := some (randomOf [] [1, 2, 3, 4, 5, 6, 7, 8, 9, 10]),
            is_monotonic := 1, _PRIVATE_last_time := 77,
            _PRIVATE_last_random := { hi := 3, lo := 4 } })
        ⟨0, 0⟩ (some (List.replicate 16 7))).ret = -1 ∧
      (ulid_new
        (some
          { millis_func := some (fun _ => (-1, 0)),
            random_func := some (randomOf [] [1, 2, 3, 4, 5, 6, 7, 8, 9, 10]),
            is_monotonic := 1, _PRIVATE_last_time := 77,
            _PRIVATE_last_random := { hi := 3, lo := 4 } })
        ⟨0, 0⟩ (some (List.replicate 16 7))).buffer = some (List.replicate 16 7)) ∧
    ((ulid_new
        (some
          { millis_func := some (fun _ => (-1, 0)),
            random_func := some (randomOf [] [1, 2, 3, 4, 5, 6, 7, 8, 9, 10]),
            is_monotonic := 0, _PRIVATE_last_time := 77,
            _PRIVATE_last_random := { hi := 3, lo := 4 } })
        ⟨0, 0⟩ (some (List.replicate 16 7))).ret = -1 ∧
      (ulid_new
        (some
          { millis_func := some (fun _ => (-1, 0)),
            random_func := some (randomOf [] [1, 2, 3, 4, 5, 6, 7, 8, 9, 10]),
            is_monotonic := 0, _PRIVATE_last_time := 77,
            _PRIVATE_last_random := { hi := 3, lo := 4 } })
        ⟨0, 0⟩ (some (List.replicate 16 7))).ctx.map (fun x => x._PRIVATE_last_random)
        = some { hi := 3, lo := 4 }) :=
  ⟨⟨(clock_failure_changes_nothing
        { millis_func := some (fun _ => (-1, 0)),
          random_func := some (randomOf [] [1, 2, 3, 4, 5, 6, 7, 8, 9, 10]),
          is_monotonic := 1, _PRIVATE_last_time := 77,
          _PRIVATE_last_random := { hi := 3, lo := 4 } }
        (fun _ => (-1, 0)) (randomOf [] [1, 2, 3, 4, 5, 6, 7, 8, 9, 10]) ⟨0, 0⟩
        (List.replicate 16 7) rfl rfl (by decide)).1,
      (clock_failure_changes_nothing
        { millis_func := some (fun _ => (-1, 0)),
          random_func := some (randomOf [] [1, 2, 3, 4, 5, 6, 7, 8, 9, 10]),
          is_monotonic := 1, _PRIVATE_last_time := 77,
          _PRIVATE_last_random := { hi := 3, lo := 4 } }
        (fun _ => (-1, 0)) (randomOf [] [1, 2, 3, 4, 5, 6, 7, 8, 9, 10]) ⟨0, 0⟩
        (List.replicate 16 7) rfl rfl (by decide)).2.2.2.2.1⟩,
    ⟨(clock_failure_changes_nothing
        { millis_func := some (fun _ => (-1, 0)),
          random_func := some (randomOf [] [1, 2, 3, 4, 5, 6, 7, 8, 9, 10]),
          is_monotonic := 0, _PRIVATE_last_time := 77,
          _PRIVATE_last_random := { hi := 3, lo := 4 } }
        (fun _ => (-1, 0)) (randomOf [] [1, 2, 3, 4, 5, 6, 7, 8, 9, 10]) ⟨0, 0⟩
        (List.replicate 16 7) rfl rfl (by decide)).1,
      (clock_failure_changes_nothing
        { millis_func := some (fun _ => (-1, 0)),
          random_func := some (randomOf [] [1, 2, 3, 4, 5, 6, 7, 8, 9, 10]),
          is_monotonic := 0, _PRIVATE_last_time := 77,
          _PRIVATE_last_random := { hi := 3, lo := 4 } }
        (fun _ => (-1, 0)) (randomOf [] [1, 2, 3, 4, 5, 6, 7, 8, 9, 10]) ⟨0, 0⟩
        (List.replicate 16 7) rfl rfl (by decide)).2.2.2.2.2.2.2⟩⟩

end PiUlid
